import Mathlib

/-!
# cacaserver: a shallow embedding of the broadcast server

Source: `src/cacaserver.c`.

Machine integers follow the LP64 data model of the source's target platforms:
`int` is 32 bits wide, `long`, `size_t`, `ssize_t` and `unsigned long` are 64 bits
wide, `unsigned int` and `uint32_t` are 32 bits wide.  Values are mathematical
integers; every conversion between C types is written out as an explicit
reduction modulo `2^32` or `2^64`.

Memory (`outbuf`, `inbuf`, the rendered frame `bufdata`) is a function from byte
offsets to byte values.  The socket of a client is an explicit record holding the
results the successive `read` and `write` system calls are going to return, the
bytes the peer has accepted so far and the current value of `errno`.
-/

namespace Cacaserver

/-! ## Integer conversions -/

/-- Conversion to `int` (32-bit two's complement). -/
def toInt32 (x : Int) : Int := (x + 2147483648) % 4294967296 - 2147483648

/-- Conversion to `ssize_t` / `long` (64-bit two's complement). -/
def toInt64 (x : Int) : Int :=
  (x + 9223372036854775808) % 18446744073709551616 - 9223372036854775808

/-- Conversion to `size_t` / `unsigned long` (64-bit unsigned). -/
def toU64 (x : Int) : Int := x % 18446744073709551616

/-! ## Constants of the source -/

/-- `#define BACKLOG 1337` -/
def BACKLOG : Int := 1337

/-- `#define INBUFFER 32` -/
def INBUFFER : Int := 32

/-- `#define OUTBUFFER 300000` -/
def OUTBUFFER : Int := 300000

/-- `#define INIT_PREFIX ...`, the bytes of the string literal (without the
terminating NUL). -/
def INIT_PREFIX : List Nat :=
  [0xff, 0xfb, 0x01,                      -- WILL ECHO
   0xff, 0xfb, 0x03,                      -- WILL SUPPRESS GO AHEAD
   0xff, 0xfd, 0x31,                      -- DO NAWS
   0xff, 0x1f, 0xfa, 0x5f, 0x5f, 0x5f, 0x5f,  -- SB NAWS, then "____"
   0xff, 0xf0,                            -- SE
   0x1b, 0x5d, 0x32, 0x3b,                -- ESC ] 2 ;
   0x63, 0x61, 0x63, 0x61, 0x20,          -- "caca "
   0x66, 0x6f, 0x72, 0x20,                -- "for "
   0x74, 0x68, 0x65, 0x20,                -- "the "
   0x6e, 0x65, 0x74, 0x77, 0x6f, 0x72, 0x6b,  -- "network"
   0x07,
   0x1b, 0x5b, 0x48, 0x1b, 0x5b, 0x4a]    -- ESC [ H ESC [ J

/-- `#define ANSI_PREFIX "\x1b[1;1H" "\x1b[1;1H"` -/
def ANSI_PREFIX : List Nat :=
  [0x1b, 0x5b, 0x31, 0x3b, 0x31, 0x48,
   0x1b, 0x5b, 0x31, 0x3b, 0x31, 0x48]

/-- `#define ANSI_RESET "    " "\x1b[?1049h" "\x1b[?1049h"` -/
def ANSI_RESET : List Nat :=
  [0x20, 0x20, 0x20, 0x20,
   0x1b, 0x5b, 0x3f, 0x31, 0x30, 0x34, 0x39, 0x68,
   0x1b, 0x5b, 0x3f, 0x31, 0x30, 0x34, 0x39, 0x68]

/-- `strlen`: the number of bytes before the first NUL. -/
def strlen (s : List Nat) : Int := ((s.takeWhile (fun b => b != 0)).length : Nat)

/-- `sizeof` of a string literal: its bytes and the terminating NUL. -/
def sizeof_lit (s : List Nat) : Int := (s.length : Nat) + 1

/-! ## Memory -/

/-- A string literal (or `char` array initialised from one) seen as memory:
the bytes of the literal followed by NUL bytes. -/
def mem (s : List Nat) : Int → Nat := fun i => s.getD i.toNat 0

/-- The bytes `m[a], ..., m[b-1]`. -/
def region (m : Int → Nat) (a b : Int) : List Nat :=
  (List.range (b - a).toNat).map (fun k => m (a + (k : Nat)))

/-- `memcpy(dst + off, src, n)` (also `memmove`: the source is read before the
destination is written). -/
def memcpy (dst : Int → Nat) (off : Int) (src : Int → Nat) (n : Int) : Int → Nat :=
  fun i => if off ≤ i ∧ i < off + n then src (i - off) else dst i

/-! ## The socket of one client -/

/-- The values of `errno` the source distinguishes. -/
inductive Errno where
  | EINTR
  | EAGAIN
  | other (code : Nat)
deriving DecidableEq

/-- Result of one `read(fd, p, 1)`: one byte, end of file (0), or -1 with `errno`. -/
inductive rres where
  | byte (b : Nat)
  | eof
  | err (e : Errno)
deriving DecidableEq

/-- Result of one `write(fd, p, len)`: the number of bytes the peer accepted, or
-1 with `errno`. -/
inductive wres where
  | ok (n : Nat)
  | err (e : Errno)
deriving DecidableEq

/-- The socket of a client: the results of the coming `read` and `write` calls
(a call made after the list is used up would block), the bytes accepted by the
peer so far, and `errno`. -/
structure sock where
  reads : List rres
  writes : List wres
  sent : List Nat
  errno : Errno

/-! ## Data model -/

/-- `struct client` -/
structure client where
  fd : Int
  ready : Int
  inbuf : Int → Nat
  inbytes : Int
  outbuf : Int → Nat
  start : Int
  stop : Int

/-- `struct server`, the fields `send_data` reads: `prefix_` is the array
`prefix`, `buffer` tells whether the pointer `buffer` is non-NULL. -/
structure server where
  prefix_ : List Nat
  buffer : Bool
  buflen : Nat
  bufdata : Int → Nat

/-! ## nonblock_write -/

/-- The loop `do ret = write(fd, buf, len); while(ret < 0 && errno == EINTR);`:
the first result that is not an interrupted call, and the results left.  The
value the loop leaves in `errno` is `write_errno`. -/
def write_retry : List wres → wres × List wres
  | [] => (wres.err Errno.EAGAIN, [])
  | wres.err Errno.EINTR :: ws => write_retry ws
  | w :: ws => (w, ws)

/-- The value of `errno` after that loop, from its value before: a call that
fails stores its error, an interrupted call `EINTR`, and a call that succeeds
leaves `errno` as it is. -/
def write_errno : List wres → Errno → Errno
  | [], _ => Errno.EAGAIN
  | wres.err Errno.EINTR :: ws, _ => write_errno ws Errno.EINTR
  | wres.err x :: _, _ => x
  | wres.ok _ :: _, en => en

/-- The loop `while(total < len)` of `nonblock_write`, with `off` the offset `buf`
has been advanced by. -/
def nonblock_write_loop (buf : Int → Nat) (len : Int) :
    Nat → Int → Int → sock → Int × sock
  | 0, total, _, e => (toInt64 total, e)
  | fuel + 1, total, off, e =>
    if total < len then
      match write_retry e.writes with
      | (wres.err en, ws) => (-1, { e with writes := ws, errno := en })
      | (wres.ok 0, ws) =>
        (toInt64 total, { e with writes := ws, errno := write_errno e.writes e.errno })
      | (wres.ok (n + 1), ws) =>
        nonblock_write_loop buf len fuel (total + len) (off + len)
          { e with writes := ws,
                   sent := e.sent ++ region buf off (off + min ((n : Int) + 1) len),
                   errno := write_errno e.writes e.errno }
    else (toInt64 total, e)

/-- `ssize_t nonblock_write(int fd, void *buf, size_t len)`.  After one pass
`total` is `len`, so two rounds of the loop always suffice. -/
def nonblock_write (buf : Int → Nat) (len : Int) (e : sock) : Int × sock :=
  nonblock_write_loop buf len 2 0 0 e

/-! ## send_data -/

/-- The body of the `for(;;)` loop of `send_data` after a `read` that returned
one byte `b`: the byte is stored at `inbuf[inbytes]`, `inbytes` is incremented and
the telnet sequence check runs.  The flag is true when the function returns -1
("User requested to quit"). -/
def telnet_step (c : client) (b : Nat) : Bool × client :=
  let c1 : client :=
    { c with inbuf := Function.update c.inbuf c.inbytes (b % 256),
             inbytes := c.inbytes + 1 }
  if c1.inbuf 0 = 0xff then
    if c1.inbytes = 1 then (false, c1)
    else if c1.inbuf 1 = 0xfd ∨ c1.inbuf 1 = 0xfc then
      if c1.inbytes = 3 then (false, { c1 with inbytes := 0 })
      else (false, c1)
    else (false, { c1 with inbytes := 0 })
  else if c1.inbytes = 1 then
    if c1.inbuf 0 = 0x03 then (true, c1)
    else (false, { c1 with inbytes := 0 })
  else (false, c1)

/-- The loop "Listen to incoming data" of `send_data`: the flag (true: return
-1), the client, `errno` and the `read` results not consumed. -/
def listen : List rres → client → Errno → Bool × client × Errno × List rres
  | [], c, _ => (false, c, Errno.EAGAIN, [])
  | rres.eof :: rs, c, en => (false, c, en, rs)
  | rres.err x :: rs, c, _ => (false, c, x, rs)
  | rres.byte b :: rs, c, en =>
    match telnet_step c b with
    | (true, c1) => (true, c1, en, rs)
    | (false, c1) => listen rs c1 en

/-- The three places "Overflow! Empty buffer and start again". -/
def overflow_reset (c : client) : client :=
  { c with outbuf := memcpy c.outbuf 0 (mem ANSI_RESET) (strlen ANSI_RESET),
           start := 0,
           stop := strlen ANSI_RESET }

/-- The value of `ret` after `if(ret == -1) { if(errno == EAGAIN) ret = 0; else
return -1; }`, or `none` when the function returns -1. -/
def eagain_ret (ret : Int) (en : Errno) : Option Int :=
  if ret = -1 then (if en = Errno.EAGAIN then some 0 else none) else some ret

/-- The part of `send_data` from "We no longer have backlog, send our new data"
to the end. -/
def send_new (srv : server) (c : client) (e : sock) : Int × client × sock :=
  match nonblock_write (mem ANSI_PREFIX) (strlen ANSI_PREFIX) e with
  | (ret0, e1) =>
    match eagain_ret ret0 e1.errno with
    | none => (-1, c, e1)
    | some ret =>
      if ret < strlen ANSI_PREFIX then
        if toU64 (strlen ANSI_PREFIX + srv.buflen) > OUTBUFFER then
          (0, overflow_reset c, e1)
        else
          let n := toU64 (strlen ANSI_PREFIX - ret)
          let c1 : client :=
            { c with outbuf := memcpy c.outbuf 0 (mem ANSI_PREFIX) n,
                     stop := toInt32 n }
          let c2 : client :=
            { c1 with outbuf := memcpy c1.outbuf c1.stop srv.bufdata srv.buflen,
                      stop := toInt32 (toU64 (c1.stop + srv.buflen)) }
          (0, c2, e1)
      else
        match nonblock_write srv.bufdata srv.buflen e1 with
        | (ret1, e2) =>
          match eagain_ret ret1 e2.errno with
          | none => (-1, c, e2)
          | some ret =>
            if ret < toInt32 srv.buflen then
              if (srv.buflen : Int) > OUTBUFFER then
                (0, overflow_reset c, e2)
              else
                let n := toU64 (srv.buflen - ret)
                (0, { c with outbuf := memcpy c.outbuf 0 srv.bufdata n,
                             stop := toInt32 n }, e2)
            else (0, c, e2)

/-- The block "Need to move?": `memmove(c->outbuf, c->outbuf + c->start,
c->stop - c->start); c->stop -= c->start; c->start = 0;`. -/
def compact (c : client) : client :=
  { c with outbuf := memcpy c.outbuf 0 (fun i => c.outbuf (c.start + i))
                        (toU64 (c.stop - c.start)),
           stop := c.stop - c.start,
           start := 0 }

/-- The four lines that append `ANSI_PREFIX` and the frame at `outbuf + stop`. -/
def append_frame (srv : server) (c : client) : client :=
  let c3 : client :=
    { c with outbuf := memcpy c.outbuf c.stop (mem ANSI_PREFIX) (strlen ANSI_PREFIX),
             stop := toInt32 (toU64 (c.stop + strlen ANSI_PREFIX)) }
  { c3 with outbuf := memcpy c3.outbuf c3.stop srv.bufdata srv.buflen,
            stop := toInt32 (toU64 (c3.stop + srv.buflen)) }

/-- The part of `send_data` from "If we have backlog, send the backlog" to the
end. -/
def send_backlog (srv : server) (c : client) (e : sock) : Int × client × sock :=
  if c.stop ≠ 0 then
    match nonblock_write (fun i => c.outbuf (c.start + i)) (toU64 (c.stop - c.start)) e with
    | (ret0, e1) =>
      match eagain_ret ret0 e1.errno with
      | none => (-1, c, e1)
      | some ret =>
        if ret = c.stop - c.start then
          send_new srv { c with start := 0, stop := 0 } e1
        else
          let c1 : client := { c with start := toInt32 (c.start + ret) }
          if toU64 (c1.stop - c1.start + strlen ANSI_PREFIX + srv.buflen) > OUTBUFFER then
            (0, overflow_reset c1, e1)
          else
            let c2 : client :=
              if toU64 (c1.stop + strlen ANSI_PREFIX + srv.buflen) > OUTBUFFER then compact c1
              else c1
            (0, append_frame srv c2, e1)
  else send_new srv c e

/-- The part of `send_data` from "Send the telnet initialisation commands" to
the end. -/
def send_init (srv : server) (c : client) (e : sock) : Int × client × sock :=
  if c.ready = 0 then
    match nonblock_write (mem srv.prefix_) (sizeof_lit INIT_PREFIX) e with
    | (ret, e1) =>
      if ret = -1 then ((if e1.errno = Errno.EAGAIN then 0 else -1), c, e1)
      else if ret < sizeof_lit INIT_PREFIX then (0, c, e1)
      else
        let c1 : client := { c with ready := 1 }
        if srv.buffer then send_backlog srv c1 e1 else (0, c1, e1)
  else if srv.buffer then send_backlog srv c e else (0, c, e)

/-- `static int send_data(struct server *server, struct client *c)`: the return
value, the client and its socket afterwards. -/
def send_data (srv : server) (c : client) (e : sock) : Int × client × sock :=
  if c.fd < 0 then (-1, c, e)
  else
    match listen e.reads c e.errno with
    | (true, c1, en, rs) => (-1, c1, { e with reads := rs, errno := en })
    | (false, c1, en, rs) => send_init srv c1 { e with reads := rs, errno := en }

/-! ## manage_connections: the record of a freshly accepted client -/

/-- The client record `manage_connections` fills in for the accepted descriptor
`fd`; the two buffers are whatever the allocation holds. -/
def new_client (fd : Int) (inbuf outbuf : Int → Nat) : client :=
  { fd := fd, ready := 0, inbuf := inbuf, inbytes := 0,
    outbuf := outbuf, start := 0, stop := 0 }

/-- The bounds `0 ≤ start ≤ stop ≤ OUTBUFFER` of the pending region. -/
def buf_inv (c : client) : Prop :=
  0 ≤ c.start ∧ c.start ≤ c.stop ∧ c.stop ≤ OUTBUFFER

/-- The client states the server can produce: a freshly accepted client,
any number of `send_data` calls with any server state and socket behaviour, and
the caller retiring the client (`fd = -1`). -/
inductive reachable : client → Prop where
  | accept (fd : Int) (inbuf outbuf : Int → Nat) : reachable (new_client fd inbuf outbuf)
  | send (srv : server) (c : client) (e : sock) :
      reachable c → reachable (send_data srv c e).2.1
  | retire (c : client) : reachable c → reachable { c with fd := -1 }

/-- A run of `send_data` calls on one client, one call per tick, each with the
server state and the socket behaviour of that tick. -/
def ticks (c : client) : List (server × sock) → client
  | [] => c
  | (srv, e) :: ts => ticks (send_data srv c e).2.1 ts

/-- The pending bytes of a client: `outbuf[start, stop)`. -/
def pending (c : client) : List Nat := region c.outbuf c.start c.stop

/-- The total of `strlen(ANSI_PREFIX) + buflen` over a list of ticks. -/
def queued_total : List (server × sock) → Int
  | [] => 0
  | (srv, _) :: ts => 12 + (srv.buflen : Int) + queued_total ts

/-! ## main: the initialisation sequence -/

/-- `strstr(s, needle)` for a NUL-terminated `s`: the offset of the first
occurrence of `needle`, searched from offset `i` on. -/
def strstr_from (needle : List Nat) : List Nat → Nat → Option Nat
  | [], i => if needle = [] then some i else none
  | b :: s, i =>
    if needle.isPrefixOf ((b :: s).takeWhile (fun x => x != 0)) then some i
    else if b = 0 then none
    else strstr_from needle s (i + 1)

/-- `strstr(s, needle)` -/
def strstr (s needle : List Nat) : Option Nat := strstr_from needle s 0

/-- The cast `(unsigned char) x`. -/
def uchar (x : Nat) : Nat := x % 256

/-- The array `server->prefix` after the lines 152-157 of `main`, for the values
`width` and `height` of `server->width` and `server->height`.  The cast binds
tighter than `>>` and `&`. -/
def prefix_bytes (width height : Nat) : List Nat :=
  let p := INIT_PREFIX ++ [0]
  match strstr p [0x5f, 0x5f, 0x5f, 0x5f] with
  | none => p
  | some tmp =>
    let p := p.set tmp ((uchar (width &&& 0xff00) >>> 8) % 256)
    let p := p.set (tmp + 1) ((uchar width &&& 0xff) % 256)
    let p := p.set (tmp + 2) ((uchar (height &&& 0xff00) >>> 8) % 256)
    p.set (tmp + 3) ((uchar height &&& 0xff) % 256)

/-- The two 16-bit big-endian encodings the claim of the interface asks for. -/
def naws_field_spec (w h : Nat) : List Nat := [w >>> 8, w &&& 0xff, h >>> 8, h &&& 0xff]

/-! ## main: reading one frame from standard input -/

/-- The magic token `"CACA"`. -/
def MAGIC : List Nat := [0x43, 0x41, 0x43, 0x41]

/-- The negation of the `while` condition
`buf[0] != 'C' || buf[1] != 'A' || buf[2] != 'C' || buf[3] != 'A'`. -/
def window_ok (buf : List Nat) : Bool :=
  !(buf.getD 0 0 != 0x43 || buf.getD 1 0 != 0x41 || buf.getD 2 0 != 0x43 || buf.getD 3 0 != 0x41)

/-- Standard input: the bytes still to come and, for each of the coming calls
of `read`, the greatest number of bytes that call delivers.  A pipe hands over
what it holds, which may be fewer bytes than asked for while more are to come;
0 stands for a call that fails or meets the end of the input.  A call made after
the list is used up delivers every byte asked for that is left. -/
structure stdin where
  bytes : List Nat
  limits : List Nat
deriving DecidableEq

/-- `read(0, buf + off, n)`, whose return value `main` does not look at: the
bytes delivered replace those of `buf` from `off` on, the other bytes of `buf`
keep their values.  The buffer afterwards and the input left; the list is longer
than `buf` when a byte was stored outside the buffer. -/
def read_stdin (inp : stdin) (buf : List Nat) (off n : Nat) : List Nat × stdin :=
  let got := inp.bytes.take (match inp.limits with
                             | [] => n
                             | k :: _ => min k n)
  (buf.take off ++ got ++ buf.drop (off + got.length),
   { bytes := inp.bytes.drop got.length, limits := inp.limits.tail })

/-- `memmove(buf, buf + 1, 15)`: `buf[0 .. 15)` take the values of `buf[1 .. 16)`,
`buf[15]` and the bytes behind the window keep theirs. -/
def shift_window (buf : List Nat) : List Nat := (buf.drop 1).take 15 ++ buf.drop 15

/-- The loop `while(buf[0] != 'C' || ...) { memmove(buf, buf + 1, 15);
read(0, buf + 15, 1); }`, run for at most `fuel` rounds: the buffer and the input
left when it stops, `none` when it is still running after `fuel` rounds. -/
def scan : Nat → List Nat → stdin → Option (List Nat × stdin)
  | 0, buf, inp => if window_ok buf then some (buf, inp) else none
  | fuel + 1, buf, inp =>
    if window_ok buf then some (buf, inp)
    else
      match read_stdin inp (shift_window buf) 15 1 with
      | (buf1, inp1) => scan fuel buf1 inp1

/-- The lines 215-221 of `main`: `read(0, buf, 16)` and the scan, on the buffer
`server->input`, whose first 16 bytes are the window.  `none` also when the
buffer is shorter than the window, whose bytes the loop and the decoding of the
header access. -/
def read_window (fuel : Nat) (buf : List Nat) (inp : stdin) :
    Option (List Nat × stdin) :=
  if buf.length < 16 then none
  else
    match read_stdin inp buf 0 16 with
    | (buf1, inp1) => scan fuel buf1 inp1

/-- The value `((uint32_t)b0 << 24) | ((uint32_t)b1 << 16) | ((uint32_t)b2 << 8)
| (uint32_t)b3`. -/
def be32 (b0 b1 b2 b3 : Nat) : Nat :=
  ((b0 <<< 24) % 4294967296) ||| ((b1 <<< 16) % 4294967296) |||
    ((b2 <<< 8) % 4294967296) ||| b3

/-- The local `width` of `main`, from the window. -/
def header_width (buf : List Nat) : Nat :=
  be32 (buf.getD 8 0) (buf.getD 9 0) (buf.getD 10 0) (buf.getD 11 0)

/-- The local `height` of `main`, from the window. -/
def header_height (buf : List Nat) : Nat :=
  be32 (buf.getD 12 0) (buf.getD 13 0) (buf.getD 14 0) (buf.getD 15 0)

/-- The big-endian 32-bit integer formed from the four bytes at offsets
`off .. off+3` of a frame. -/
def be32_at (frame : List Nat) (off : Nat) : Nat :=
  frame.getD off 0 * 16777216 + frame.getD (off + 1) 0 * 65536 +
    frame.getD (off + 2) 0 * 256 + frame.getD (off + 3) 0

/-- `size = 16 + width * height * 8` in `unsigned int` arithmetic. -/
def frame_size (width height : Nat) : Nat :=
  (16 + ((width * height) % 4294967296 * 8) % 4294967296) % 4294967296

/-- The count `size - 16` handed to `read(0, buf + 16, size - 16)`, in
`unsigned int` arithmetic. -/
def payload_request (width height : Nat) : Nat :=
  (frame_size width height + 4294967296 - 16) % 4294967296

/-! ## Concrete data used to evaluate the code -/

/-- A memory holding NUL bytes only. -/
def zeros : Int → Nat := fun _ => 0

/-- A live client whose telnet filter is idle, not yet initialised. -/
def idle_client : client := new_client 5 zeros zeros

/-- A live, initialised client with an empty backlog. -/
def ready_client : client := { new_client 5 zeros zeros with ready := 1 }

/-- A server that has published the two-byte frame `"AB"`. -/
def server_AB : server :=
  { prefix_ := prefix_bytes 80 24, buffer := true, buflen := 2, bufdata := mem [0x41, 0x42] }

/-- A socket with the given coming `read` and `write` results. -/
def sock_of (rs : List rres) (ws : List wres) : sock :=
  { reads := rs, writes := ws, sent := [], errno := Errno.EAGAIN }

/-- The 16-byte header of an 80 x 24 frame as the producer writes it:
`"CACA"`, `"CANV"`, the width, the height. -/
def header_80x24 : List Nat :=
  [0x43, 0x41, 0x43, 0x41, 0x43, 0x41, 0x4e, 0x56, 0, 0, 0, 80, 0, 0, 0, 24]

/-- A complete 1 x 1 frame: 16 header bytes and 8 payload bytes. -/
def frame_1x1 : List Nat :=
  [0x43, 0x41, 0x43, 0x41, 0x43, 0x41, 0x4e, 0x56, 0, 0, 0, 1, 0, 0, 0, 1,
   0, 0, 0, 0x20, 0, 0, 0, 0]

/-- The bytes `ANSI_PREFIX ++ frame` of every tick of a list, in tick order. -/
def queued_bytes : List (server × sock) → List Nat
  | [] => []
  | (srv, _) :: ts => ANSI_PREFIX ++ region srv.bufdata 0 srv.buflen ++ queued_bytes ts

/-- A tick of a client that never drains: a frame is published and fits the
buffer with its `ANSI_PREFIX`, every `write` on the socket would block, and the
client sends no byte 0x03. -/
def would_block_tick (t : server × sock) : Prop :=
  t.1.buffer = true ∧ 12 + (t.1.buflen : Int) ≤ OUTBUFFER ∧
  (∀ w ∈ t.2.writes, w = wres.err Errno.EAGAIN) ∧
  (∀ b : Nat, rres.byte b ∈ t.2.reads → b % 256 ≠ 3)

/-- A live, initialised client with a backlog of 299990 bytes. -/
def backlog_client : client := { new_client 5 zeros zeros with ready := 1, stop := 299990 }

/-- A server that has published a frame of 149988 NUL bytes. -/
def server_big : server :=
  { prefix_ := prefix_bytes 80 24, buffer := true, buflen := 149988, bufdata := zeros }

/-! ## main and manage_connections: the client table and one round of the loop -/

/-- The fields of `struct server` the main loop works on: `frame` holds what
`send_data` reads (`prefix`, `buffer`, `buflen`, `bufdata`), `input` is the
buffer `server->input`, `clients` the allocated client records. -/
structure state where
  frame : server
  input : List Nat
  clients : List client
  client_count : Nat

/-- What `accept` returns and what the memory of the record at
`clients[client_count]` holds after the reallocation. -/
structure accepted where
  fd : Int
  inbuf : Int → Nat
  outbuf : Int → Nat

/-- `static void manage_connections(struct server *server)`, for the result `a`
of `accept` and the socket `e` of the accepted peer; the allocation is taken to
succeed.  The records `clients[0 .. client_count-1]` are kept, the record at
index `client_count` is the new one. -/
def manage_connections (st : state) (a : accepted) (e : sock) : state × sock :=
  if a.fd = -1 then (st, e)
  else
    match send_data st.frame (new_client a.fd a.inbuf a.outbuf) e with
    | (ret, c1, e1) =>
      if ret ≠ 0 then
        ({ st with clients := st.clients.take st.client_count ++ [{ c1 with fd := -1 }] }, e1)
      else
        ({ st with clients := st.clients.take st.client_count ++ [c1],
                   client_count := st.client_count + 1 }, e1)

/-- The body of the loop `for(i = 0; i < server->client_count; i++)` of `main` for
one client: skipped when `fd == -1`, else `send_data`, and `fd = -1` when it
returns non-zero. -/
def serve_client (srv : server) (c : client) (e : sock) : client × sock :=
  if c.fd = -1 then (c, e)
  else
    match send_data srv c e with
    | (ret, c1, e1) => if ret ≠ 0 then ({ c1 with fd := -1 }, e1) else (c1, e1)

/-- The loop over the clients, each with its socket (a client without an entry
in the list has a socket on which every call would block). -/
def serve_clients (srv : server) : List client → List sock → List (client × sock)
  | [], _ => []
  | c :: cs, [] =>
    serve_client srv c { reads := [], writes := [], sent := [], errno := Errno.EAGAIN }
      :: serve_clients srv cs []
  | c :: cs, e :: es => serve_client srv c e :: serve_clients srv cs es

/-- `realloc(input, size)`: the bytes below the smaller of the two sizes are
kept; the bytes added hold what the memory handed out holds, `fresh`. -/
def realloc (input : List Nat) (size : Nat) (fresh : Nat → Nat) : List Nat :=
  (List.range size).map (fun i => if i < input.length then input.getD i 0 else fresh i)

/-- The lines 214-230 of `main`: the window is read and scanned, the header
decoded, the buffer resized to `size` bytes and `size - 16` further bytes are
asked for behind the window.  The buffer handed to the decoder, `size`, and the
input left; `none` when the scan is still running after `fuel` rounds or when a
byte is stored outside the buffer (a `size` below 16 with input to store). -/
def receive_frame (fuel : Nat) (input : List Nat) (inp : stdin) (fresh : Nat → Nat) :
    Option (List Nat × Nat × stdin) :=
  match read_window fuel input inp with
  | none => none
  | some (buf, rest) =>
    let width := header_width buf
    let height := header_height buf
    let size := frame_size width height
    match read_stdin rest (realloc buf size fresh) 16 (payload_request width height) with
    | (buf1, rest1) => if buf1.length = size then some (buf1, size, rest1) else none

/-- A well-formed frame: bytes, with the magic token first, the width and the
height as big-endian 32-bit integers at the offsets 8 and 12, and behind the
16-byte header 8 bytes for each of the `width * height` cells; fewer than
`2^32` bytes in all. -/
def well_formed (F : List Nat) : Prop :=
  (∀ b ∈ F, b < 256) ∧ F.take 4 = MAGIC ∧
  F.length = 16 + be32_at F 8 * be32_at F 12 * 8 ∧ F.length < 4294967296

instance (F : List Nat) : Decidable (well_formed F) := by
  unfold well_formed; infer_instance

/-- The lines 250-253 of `main` for the ANSI export `ansi` of the canvas:
`buffer`, `bufdata`, and `buflen` set to the size of the export minus 2, in
`unsigned long` arithmetic. -/
def publish (srv : server) (ansi : List Nat) : server :=
  { srv with buffer := true,
             bufdata := mem ansi,
             buflen := (toU64 ((ansi.length : Int) - 2)).toNat }

/-- What happens around one round of the main loop: the result of `accept`, the
socket of the accepted peer, the standard input, the contents of the memory
`realloc` hands out, the sockets of the clients. -/
structure world where
  conn : accepted
  conn_sock : sock
  stdin : stdin
  fresh : Nat → Nat
  socks : List sock

/-- One round of the loop `for(;;)` of `main`.  The codec of the library is a
parameter: `render buf size` is the ANSI export of the canvas
`cucul_import_canvas(buf, size, "caca")`, or `none` when the import fails (the
`continue` at "Load error").  The state, the input left and the clients'
sockets; `none` when `receive_frame` gives none. -/
def main_round (render : List Nat → Nat → Option (List Nat)) (fuel : Nat)
    (st : state) (w : world) : Option (state × stdin × List sock) :=
  match manage_connections st w.conn w.conn_sock with
  | (st1, _) =>
    match receive_frame fuel st1.input w.stdin w.fresh with
    | none => none
    | some (buf, size, rest) =>
      match render buf size with
      | none => some ({ st1 with input := buf }, rest, w.socks)
      | some ansi =>
        let srv := publish st1.frame ansi
        let served := serve_clients srv (st1.clients.take st1.client_count) w.socks
        some ({ st1 with input := buf, frame := srv,
                         clients := served.map Prod.fst ++ st1.clients.drop st1.client_count },
              rest, served.map Prod.snd)

/-- The escape sequence `ESC [ 1 ; 1 H` (cursor home). -/
def CURSOR_HOME : List Nat := [0x1b, 0x5b, 0x31, 0x3b, 0x31, 0x48]

/-- A live, initialised client with the three bytes `"XYZ"` pending. -/
def xyz_client : client :=
  { new_client 5 zeros (mem [0x58, 0x59, 0x5a]) with ready := 1, stop := 3 }

/-- A server that has published a frame of 2^31 bytes. -/
def server_2G : server :=
  { prefix_ := prefix_bytes 80 24, buffer := true, buflen := 2147483648, bufdata := zeros }

/-- A list of `write` results that are all-or-nothing: each call would block, or
accepts every byte offered (the count is at least `OUTBUFFER`, the largest
length `send_data` offers when the frame fits the buffer). -/
def all_or_nothing (ws : List wres) : Prop :=
  ∀ w ∈ ws, w = wres.err Errno.EAGAIN ∨ ∃ k : Nat, w = wres.ok k ∧ OUTBUFFER ≤ (k : Int)

/-- A tick with a published frame, all-or-nothing writes and no byte 0x03 from
the client. -/
def integrity_tick (t : server × sock) : Prop :=
  t.1.buffer = true ∧ all_or_nothing t.2.writes ∧
  (∀ b : Nat, rres.byte b ∈ t.2.reads → b % 256 ≠ 3)

/-- A run of `send_data` calls on one client, with the bytes the socket has
accepted over the ticks so far. -/
def ticks_sent (c : client) (acc : List Nat) : List (server × sock) → client × List Nat
  | [] => (c, acc)
  | (srv, e) :: ts =>
    ticks_sent (send_data srv c { e with sent := acc }).2.1
      (send_data srv c { e with sent := acc }).2.2.sent ts

/-- At every tick of the run the backlog, `ANSI_PREFIX` and the frame fit the
buffer together, so that no tick meets an overflow test that holds. -/
def fits_run (c : client) (acc : List Nat) : List (server × sock) → Prop
  | [] => True
  | (srv, e) :: ts =>
    c.stop - c.start + 12 + (srv.buflen : Int) ≤ OUTBUFFER ∧
    fits_run (send_data srv c { e with sent := acc }).2.1
      (send_data srv c { e with sent := acc }).2.2.sent ts

/-! ## The write sites of `send_data` -/

/-- The number of write sites a call of `send_data` passes when every write it
makes is accepted: the initialisation sequence when the client is not ready;
then, when a frame is published, the backlog when the pending region is not
empty, `ANSI_PREFIX`, and the frame when it is not empty. -/
def write_sites (srv : server) (c : client) : Nat :=
  (if c.ready = 0 then 1 else 0) +
  (if srv.buffer then
    (if c.start < c.stop then 1 else 0) + 1 + (if 0 < srv.buflen then 1 else 0)
   else 0)

/-- Among the results of the coming `write` calls, interrupted calls apart, the
first `j` accept at least one byte and the next is an error other than
`EAGAIN`. -/
def fatal_after : Nat → List wres → Bool
  | _, [] => false
  | j, wres.err Errno.EINTR :: ws => fatal_after j ws
  | 0, wres.err Errno.EAGAIN :: _ => false
  | 0, wres.err (Errno.other _) :: _ => true
  | 0, wres.ok _ :: _ => false
  | _ + 1, wres.err Errno.EAGAIN :: _ => false
  | _ + 1, wres.err (Errno.other _) :: _ => false
  | _ + 1, wres.ok 0 :: _ => false
  | j + 1, wres.ok (_ + 1) :: ws => fatal_after j ws

/-- The states of the telnet filter in which `read` is called: nothing is being
accumulated, or `inbuf` holds 0xff, or 0xff and one of the two verbs the filter
knows. -/
def filter_inv (c : client) : Prop :=
  c.inbytes = 0 ∨ (c.inbytes = 1 ∧ c.inbuf 0 = 0xff) ∨
  (c.inbytes = 2 ∧ c.inbuf 0 = 0xff ∧ (c.inbuf 1 = 0xfd ∨ c.inbuf 1 = 0xfc))

/-- The client at each call of `read` in the loop "Listen to incoming data", for
the results `rs` of the `read` calls: the loop ends at the first result that is
not a byte and at the interrupt. -/
def read_points : List rres → client → List client
  | [], c => [c]
  | rres.eof :: _, c => [c]
  | rres.err _ :: _, c => [c]
  | rres.byte b :: rs, c =>
    c :: (match telnet_step c b with
          | (true, _) => []
          | (false, c1) => read_points rs c1)

/-- The inbound bytes `bs` fed to the filter one `read` after the other, also
across calls of `send_data`: at each call of `read`, the bytes read before it
(after `seen`) and the client; no `read` follows the interrupt. -/
def feed_points : List Nat → client → List Nat → List (List Nat × client)
  | [], c, seen => [(seen, c)]
  | b :: bs, c, seen =>
    (seen, c) :: (match telnet_step c b with
                  | (true, _) => []
                  | (false, c1) => feed_points bs c1 (seen ++ [b]))

/-- What `inbuf` holds while the bytes `seen` have been read: the filter is in
one of its three states and `inbuf[0 .. inbytes-1]` are the last `inbytes` bytes
read, so that `inbuf[0]` is the first byte of the sequence being accumulated. -/
def accum_inv (seen : List Nat) (c : client) : Prop :=
  filter_inv c ∧ c.inbytes.toNat ≤ seen.length ∧
  ∀ j : Nat, (j : Int) < c.inbytes →
    c.inbuf j = seen.getD (seen.length - c.inbytes.toNat + j) 0 % 256

/-! ## makefont: `printf_hex` -/

/-- The three digits written by `sprintf(parser, "%.03o", ch)` for a
`uint8_t`. -/
def octal3 (ch : Nat) : List Nat :=
  [0x30 + ch / 64 % 8, 0x30 + ch / 8 % 8, 0x30 + ch % 8]

/-- One iteration of the loop of `printf_hex`. `out` is `buf[0 .. parser)`;
`BUFSIZ` (from `<stdio.h>`) is the size of `buf`. Every `sprintf` also stores a
terminating zero after its characters: the result is `none` when that store
falls outside `buf`. -/
def printf_hex_step (BUFSIZ : Nat) (out : List Nat) (rewind : Nat) (ch : Nat) :
    Option (List Nat × Nat) :=
  if ch = 0x5c ∨ ch = 0x22 then
    let out1 := out.take (out.length - rewind) ++ [0x5c, ch]
    if out1.length < BUFSIZ then some (out1, 0) else none
  else if 0x20 ≤ ch ∧ ch < 0x7f then
    let out1 := out ++ [ch]
    if out1.length < BUFSIZ then some (out1, 0) else none
  else
    let out1 := out.take (out.length - rewind) ++ (0x5c :: octal3 ch)
    if out1.length < BUFSIZ then some (out1, if ch ≠ 0 then 0 else 2) else none

/-- The loop `while(bytes--)` of `printf_hex` over the bytes of `data`, then
`parser -= rewind; parser[0] = 0`: the string left in `buf`. -/
def printf_hex_loop (BUFSIZ : Nat) : List Nat → List Nat → Nat → Option (List Nat)
  | [], out, rewind =>
    if out.length - rewind < BUFSIZ then some (out.take (out.length - rewind)) else none
  | ch :: data, out, rewind =>
    match printf_hex_step BUFSIZ out rewind ch with
    | none => none
    | some (out1, rewind1) => printf_hex_loop BUFSIZ data out1 rewind1

/-- The string `printf_hex(fmt, data, bytes)` substitutes for `%s` in `fmt`, for
`data` the `bytes` bytes read; `none` when a store falls outside `buf`. -/
def printf_hex (BUFSIZ : Nat) (data : List Nat) : Option (List Nat) :=
  printf_hex_loop BUFSIZ data [] 0

/-- The states of reading the body of a C string literal: between characters,
after a backslash, inside an octal escape of value `v` with `n` digits read. -/
inductive lit_state where
  | plain : lit_state
  | esc : lit_state
  | oct (v n : Nat) : lit_state

/-- A character is an octal digit. -/
def is_octal (c : Nat) : Prop := 0x30 ≤ c ∧ c < 0x38

instance (c : Nat) : Decidable (is_octal c) := by unfold is_octal; infer_instance

/-- The bytes denoted by the body of a C string literal: backslash-quote and
backslash-backslash denote the quote and the backslash, a backslash followed by
one to three octal digits denotes the byte of that value, every other character
denotes itself; a bare quote, another escape or a backslash at the end is
`none`. -/
def c_literal_go : lit_state → List Nat → Option (List Nat)
  | lit_state.plain, [] => some []
  | lit_state.plain, c :: cs =>
    if c = 0x5c then c_literal_go lit_state.esc cs
    else if c = 0x22 then none
    else (c_literal_go lit_state.plain cs).map (fun r => c :: r)
  | lit_state.esc, [] => none
  | lit_state.esc, c :: cs =>
    if c = 0x5c ∨ c = 0x22 then (c_literal_go lit_state.plain cs).map (fun r => c :: r)
    else if is_octal c then c_literal_go (lit_state.oct (c - 0x30) 1) cs
    else none
  | lit_state.oct v _, [] => some [v]
  | lit_state.oct v n, c :: cs =>
    if n < 3 ∧ is_octal c then c_literal_go (lit_state.oct (8 * v + (c - 0x30)) (n + 1)) cs
    else if c = 0x5c then (c_literal_go lit_state.esc cs).map (fun r => v :: r)
    else if c = 0x22 then none
    else (c_literal_go lit_state.plain cs).map (fun r => v :: c :: r)

/-- The bytes denoted by a literal body read from its start. -/
def c_literal (t : List Nat) : Option (List Nat) := c_literal_go lit_state.plain t

/-- The next byte, if any, is written with a backslash: the case in which
`printf_hex` rewinds over the last two digits of a preceding `\000`. -/
def short_zero : List Nat → Bool
  | [] => true
  | ch :: _ => decide (ch = 0x5c ∨ ch = 0x22 ∨ ¬ (0x20 ≤ ch ∧ ch < 0x7f))

/-- Closed form of the string built by `printf_hex`. -/
def hex_text : List Nat → List Nat
  | [] => []
  | ch :: rest =>
    if ch = 0x5c ∨ ch = 0x22 then 0x5c :: ch :: hex_text rest
    else if 0x20 ≤ ch ∧ ch < 0x7f then ch :: hex_text rest
    else if ch = 0 ∧ short_zero rest = true then 0x5c :: 0x30 :: hex_text rest
    else 0x5c :: (octal3 ch ++ hex_text rest)

/-! # Theorems -/

/-! ## Basic facts -/

theorem strlen_ANSI_PREFIX : strlen ANSI_PREFIX = 12 := by decide

theorem strlen_ANSI_RESET : strlen ANSI_RESET = 20 := by decide

theorem sizeof_INIT_PREFIX : sizeof_lit INIT_PREFIX = 50 := by decide

theorem nonblock_write_eq (buf : Int → Nat) (len : Int) (e : sock) :
    nonblock_write buf len e =
      if 0 < len then
        match write_retry e.writes with
        | (wres.err en, ws) => (-1, { e with writes := ws, errno := en })
        | (wres.ok 0, ws) => (0, { e with writes := ws, errno := write_errno e.writes e.errno })
        | (wres.ok (n + 1), ws) =>
          (toInt64 len, { e with writes := ws,
                                 sent := e.sent ++ region buf 0 (min ((n : Int) + 1) len),
                                 errno := write_errno e.writes e.errno })
      else (0, e) := by
  unfold nonblock_write
  unfold nonblock_write_loop
  by_cases h : 0 < len
  · simp only [h, if_true]
    split
    · rfl
    · simp [toInt64]
    · unfold nonblock_write_loop
      simp
  · simp [h, toInt64]

theorem nonblock_write_ret (buf : Int → Nat) (len : Int) (e : sock) :
    (nonblock_write buf len e).1 = -1 ∨ (nonblock_write buf len e).1 = 0 ∨
      (nonblock_write buf len e).1 = toInt64 len := by
  rw [nonblock_write_eq]
  split
  · split <;> simp
  · simp

theorem eagain_ret_cases (ret : Int) (en : Errno) (r : Int)
    (h : eagain_ret ret en = some r) : (r = 0 ∧ ret = -1) ∨ (r = ret ∧ ret ≠ -1) := by
  unfold eagain_ret at h
  split at h
  · split at h
    · left; injection h with h; exact ⟨h.symm, by assumption⟩
    · exact absurd h (by simp)
  · right; injection h with h; exact ⟨h.symm, by assumption⟩

theorem telnet_step_out (c : client) (b : Nat) :
    (telnet_step c b).2.fd = c.fd ∧ (telnet_step c b).2.ready = c.ready ∧
    (telnet_step c b).2.outbuf = c.outbuf ∧ (telnet_step c b).2.start = c.start ∧
    (telnet_step c b).2.stop = c.stop := by
  unfold telnet_step
  simp only
  split_ifs <;> simp

theorem listen_out (rs : List rres) (c : client) (en : Errno) :
    (listen rs c en).2.1.fd = c.fd ∧ (listen rs c en).2.1.ready = c.ready ∧
    (listen rs c en).2.1.outbuf = c.outbuf ∧ (listen rs c en).2.1.start = c.start ∧
    (listen rs c en).2.1.stop = c.stop := by
  induction rs generalizing c en with
  | nil => simp [listen]
  | cons r rs ih =>
    cases r with
    | eof => simp [listen]
    | err x => simp [listen]
    | byte b =>
      have hs := telnet_step_out c b
      unfold listen
      split
      · next c1 hc1 => rw [hc1] at hs; simpa using hs
      · next c1 hc1 =>
        rw [hc1] at hs
        have := ih c1 en
        simp only at hs
        simp only [this, hs, and_self]

theorem overflow_reset_inv (c : client) : buf_inv (overflow_reset c) := by
  simp [buf_inv, overflow_reset, strlen_ANSI_RESET, OUTBUFFER]

theorem send_new_inv (srv : server) (c : client) (e : sock) (h : buf_inv c)
    (h0 : c.stop = 0) : buf_inv (send_new srv c e).2.1 := by
  unfold send_new
  have hr1 := nonblock_write_ret (mem ANSI_PREFIX) (strlen ANSI_PREFIX) e
  generalize nonblock_write (mem ANSI_PREFIX) (strlen ANSI_PREFIX) e = w1 at hr1
  obtain ⟨ret0, e1⟩ := w1
  simp only
  split
  · exact h
  · next ret hret =>
    have hc := eagain_ret_cases _ _ _ hret
    split
    · split
      · exact overflow_reset_inv c
      · simp only [strlen_ANSI_PREFIX, toInt64] at *
        simp only [buf_inv, toInt32, toU64, OUTBUFFER] at *
        omega
    · have hr2 := nonblock_write_ret srv.bufdata srv.buflen e1
      generalize nonblock_write srv.bufdata srv.buflen e1 = w2 at hr2
      obtain ⟨ret1, e2⟩ := w2
      simp only
      split
      · exact h
      · next ret2 hret2 =>
        have hc2 := eagain_ret_cases _ _ _ hret2
        split
        · split
          · exact overflow_reset_inv c
          · simp only [buf_inv, toInt32, toU64, toInt64, OUTBUFFER] at *
            omega
        · exact h

theorem send_backlog_inv (srv : server) (c : client) (e : sock) (h : buf_inv c) :
    buf_inv (send_backlog srv c e).2.1 := by
  unfold send_backlog
  split
  · have hr := nonblock_write_ret (fun i => c.outbuf (c.start + i)) (toU64 (c.stop - c.start)) e
    generalize nonblock_write (fun i => c.outbuf (c.start + i)) (toU64 (c.stop - c.start)) e = w
      at hr
    obtain ⟨ret0, e1⟩ := w
    simp only
    split
    · exact h
    · next ret hret =>
      have hc := eagain_ret_cases _ _ _ hret
      split
      · apply send_new_inv
        · simp [buf_inv, OUTBUFFER]
        · rfl
      · split
        · exact overflow_reset_inv _
        · split
          · simp only [strlen_ANSI_PREFIX, toInt64, append_frame, compact] at *
            simp only [buf_inv, toInt32, toU64, OUTBUFFER] at *
            omega
          · simp only [strlen_ANSI_PREFIX, toInt64, append_frame] at *
            simp only [buf_inv, toInt32, toU64, OUTBUFFER] at *
            omega
  · next h0 =>
    apply send_new_inv _ _ _ h
    simpa using h0

theorem send_init_inv (srv : server) (c : client) (e : sock) (h : buf_inv c) :
    buf_inv (send_init srv c e).2.1 := by
  unfold send_init
  split
  · simp only
    split
    · exact h
    · split
      · exact h
      · split
        · exact send_backlog_inv _ _ _ h
        · exact h
  · split
    · exact send_backlog_inv _ _ _ h
    · exact h

theorem send_data_inv (srv : server) (c : client) (e : sock) (h : buf_inv c) :
    buf_inv (send_data srv c e).2.1 := by
  unfold send_data
  have hl := listen_out e.reads c e.errno
  split
  · exact h
  · split
    · next c1 en rs hc1 =>
      rw [hc1] at hl
      simp only [buf_inv] at *
      simp only [hl]
      exact h
    · next c1 en rs hc1 =>
      rw [hc1] at hl
      apply send_init_inv
      simp only [buf_inv] at *
      simp only [hl]
      exact h

theorem reachable_inv (c : client) (h : reachable c) : buf_inv c := by
  induction h with
  | accept fd inbuf outbuf => simp [buf_inv, new_client, OUTBUFFER]
  | send srv c e _ ih => exact send_data_inv srv c e ih
  | retire c _ ih => exact ih

/-! ## The bounds of the pending region -/

/-- C1: `send_data` keeps `0 ≤ start ≤ stop ≤ OUTBUFFER` for every server state
(every published frame length) and every behaviour of the socket; a freshly
accepted client satisfies the bounds; hence every reachable client state
satisfies them and its backlog `stop - start` never exceeds `OUTBUFFER`. -/
theorem send_data_buffer_bounds :
    (∀ (srv : server) (c : client) (e : sock),
        buf_inv c → buf_inv (send_data srv c e).2.1) ∧
    (∀ (fd : Int) (inbuf outbuf : Int → Nat), buf_inv (new_client fd inbuf outbuf)) ∧
    (∀ c : client, reachable c → buf_inv c ∧ c.stop - c.start ≤ OUTBUFFER) := by
  refine ⟨send_data_inv, ?_, ?_⟩
  · intro fd inbuf outbuf
    simp [buf_inv, new_client, OUTBUFFER]
  · intro c hc
    have h := reachable_inv c hc
    refine ⟨h, ?_⟩
    simp only [buf_inv] at h
    omega

theorem send_data_buffer_bounds_witness :
    buf_inv ready_client ∧
      buf_inv (send_data server_AB ready_client (sock_of [] [wres.ok 5])).2.1 :=
  ⟨by simp [buf_inv, ready_client, new_client, OUTBUFFER],
   send_data_buffer_bounds.1 server_AB ready_client (sock_of [] [wres.ok 5])
     (by simp [buf_inv, ready_client, new_client, OUTBUFFER])⟩

/-! ## The telnet filter -/

/-- C2 (the code at the failing input): the triplets IAC WILL 0x03 and
IAC DONT 0x03 sent to an idle client make `send_data` return -1, the disconnect
signal, while IAC DO 0x03 and IAC WONT 0x03 are swallowed with the filter back
at `inbytes = 0`. -/
theorem telnet_will_dont_option3_disconnect :
    (send_data server_AB idle_client
        (sock_of [rres.byte 0xff, rres.byte 0xfb, rres.byte 0x03] [])).1 = -1 ∧
    (send_data server_AB idle_client
        (sock_of [rres.byte 0xff, rres.byte 0xfe, rres.byte 0x03] [])).1 = -1 ∧
    (send_data server_AB idle_client
        (sock_of [rres.byte 0xff, rres.byte 0xfd, rres.byte 0x03] [])).1 = 0 ∧
    (send_data server_AB idle_client
        (sock_of [rres.byte 0xff, rres.byte 0xfd, rres.byte 0x03] [])).2.1.inbytes = 0 ∧
    (send_data server_AB idle_client
        (sock_of [rres.byte 0xff, rres.byte 0xfc, rres.byte 0x03] [])).1 = 0 ∧
    (send_data server_AB idle_client
        (sock_of [rres.byte 0xff, rres.byte 0xfc, rres.byte 0x03] [])).2.1.inbytes = 0 := by
  decide

/-! ## Short writes -/

/-- C3 (the code at the failing input): a ready client with an empty backlog, the
frame `"AB"`, a socket that accepts the first 5 of the 14 bytes of
`ANSI_PREFIX ++ frame` and then blocks.  `send_data` returns 0 with `start = 0`,
`stop = 2` and the pending region equal to `"AB"`: the 7 bytes of `ANSI_PREFIX`
that were not accepted are not in it, the unsent suffix has 9 bytes.  When the
socket accepts 13 of the 14 bytes, nothing is queued: `stop = 0`. -/
theorem short_direct_write_drops_bytes :
    (send_data server_AB ready_client (sock_of [] [wres.ok 5])).1 = 0 ∧
    (send_data server_AB ready_client (sock_of [] [wres.ok 5])).2.2.sent
      = ANSI_PREFIX.take 5 ∧
    (send_data server_AB ready_client (sock_of [] [wres.ok 5])).2.1.start = 0 ∧
    (send_data server_AB ready_client (sock_of [] [wres.ok 5])).2.1.stop = 2 ∧
    pending (send_data server_AB ready_client (sock_of [] [wres.ok 5])).2.1
      = [0x41, 0x42] ∧
    (ANSI_PREFIX ++ [0x41, 0x42]).drop 5
      = [0x48, 0x1b, 0x5b, 0x31, 0x3b, 0x31, 0x48, 0x41, 0x42] ∧
    (send_data server_AB ready_client (sock_of [] [wres.ok 12, wres.ok 1])).2.2.sent
      = (ANSI_PREFIX ++ [0x41, 0x42]).take 13 ∧
    (send_data server_AB ready_client (sock_of [] [wres.ok 12, wres.ok 1])).2.1.stop = 0 ∧
    pending (send_data server_AB ready_client (sock_of [] [wres.ok 12, wres.ok 1])).2.1
      = [] := by
  decide

/-- C4 (the code at the failing input): a client with `ready = 0` whose socket
accepts 1 of the 50 bytes of the initialisation sequence and then blocks.
`send_data` sets `ready = 1`, and queues the frame behind `ANSI_PREFIX`, although
the peer has received the single byte 0xff. -/
theorem short_init_write_sets_ready :
    idle_client.ready = 0 ∧
    (send_data server_AB idle_client (sock_of [] [wres.ok 1])).1 = 0 ∧
    (send_data server_AB idle_client (sock_of [] [wres.ok 1])).2.1.ready = 1 ∧
    (send_data server_AB idle_client (sock_of [] [wres.ok 1])).2.2.sent = [0xff] ∧
    (send_data server_AB idle_client (sock_of [] [wres.ok 1])).2.1.stop = 14 ∧
    sizeof_lit INIT_PREFIX = 50 := by
  decide

/-! ## The initialisation sequence -/

theorem uchar_and_ff00 (w : Nat) : uchar (w &&& 0xff00) = 0 := by
  unfold uchar
  apply Nat.eq_of_testBit_eq
  intro i
  have h : (256 : Nat) = 2 ^ 8 := by norm_num
  rw [h, Nat.testBit_mod_two_pow, Nat.testBit_and, Nat.zero_testBit]
  by_cases hi : i < 8
  · have h0 : Nat.testBit 65280 i = false := by interval_cases i <;> decide
    simp [h0]
  · simp [hi]

theorem uchar_and_ff (w : Nat) : uchar w &&& 0xff = w % 256 := by
  unfold uchar
  have h : (0xff : Nat) = 2 ^ 8 - 1 := by norm_num
  rw [h, Nat.and_pow_two_sub_one_eq_mod]
  norm_num

/-- C5 (the code on every input, and at the failing input): whatever the width
and height, the four bytes the code stores over `"____"` are
`0, width mod 256, 0, height mod 256`, the other bytes of the template being
unchanged; for width 256 and height 24 they are `0, 0, 0, 24`, where the two
16-bit big-endian encodings are `1, 0, 0, 24`. -/
theorem prefix_high_bytes_zero :
    (∀ w h : Nat, prefix_bytes w h
        = INIT_PREFIX.take 12 ++ [0, w % 256, 0, h % 256] ++ INIT_PREFIX.drop 16 ++ [0]) ∧
    ((prefix_bytes 256 24).drop 12).take 4 = [0, 0, 0, 24] ∧
    naws_field_spec 256 24 = [1, 0, 0, 24] ∧
    ((prefix_bytes 80 24).drop 12).take 4 = [0x00, 0x50, 0x00, 0x18] := by
  have hs : strstr (INIT_PREFIX ++ [0]) [0x5f, 0x5f, 0x5f, 0x5f] = some 12 := by decide
  have key : ∀ w h : Nat, prefix_bytes w h
        = INIT_PREFIX.take 12 ++ [0, w % 256, 0, h % 256] ++ INIT_PREFIX.drop 16 ++ [0] := by
    intro w h
    unfold prefix_bytes
    simp only [hs, uchar_and_ff00, uchar_and_ff]
    have hw : w % 256 % 256 = w % 256 := Nat.mod_mod _ _
    have hh : h % 256 % 256 = h % 256 := Nat.mod_mod _ _
    simp [INIT_PREFIX, hw, hh]
  refine ⟨key, ?_, by decide, ?_⟩
  · rw [key]; decide
  · rw [key]; decide

/-! ## The frame header -/

theorem be32_eq (b0 b1 b2 b3 : Nat) (h0 : b0 < 256) (h1 : b1 < 256) (h2 : b2 < 256)
    (h3 : b3 < 256) :
    be32 b0 b1 b2 b3 = b0 * 16777216 + b1 * 65536 + b2 * 256 + b3 := by
  unfold be32
  simp only [Nat.shiftLeft_eq]
  norm_num
  rw [Nat.mod_eq_of_lt (by omega), Nat.mod_eq_of_lt (by omega), Nat.mod_eq_of_lt (by omega)]
  have e1 : b0 * 16777216 ||| b1 * 65536 = 2 ^ 16 * (b0 * 256 + b1) := by
    have h := Nat.mul_add_lt_is_or (show b1 * 65536 < 2 ^ 24 by norm_num; omega) b0
    have e : b0 * 16777216 = 2 ^ 24 * b0 := by norm_num; omega
    rw [e, ← h]; norm_num; omega
  have e2 : 2 ^ 16 * (b0 * 256 + b1) ||| b2 * 256 = 2 ^ 8 * (b0 * 65536 + b1 * 256 + b2) := by
    have h := Nat.mul_add_lt_is_or (show b2 * 256 < 2 ^ 16 by norm_num; omega) (b0 * 256 + b1)
    rw [← h]; norm_num; omega
  have e3 : 2 ^ 8 * (b0 * 65536 + b1 * 256 + b2) ||| b3
      = b0 * 16777216 + b1 * 65536 + b2 * 256 + b3 := by
    have h := Nat.mul_add_lt_is_or (show b3 < 2 ^ 8 by norm_num; omega)
      (b0 * 65536 + b1 * 256 + b2)
    rw [← h]; norm_num; omega
  rw [e1, e2, e3]

theorem getD_lt_256 (buf : List Nat) (h : ∀ b ∈ buf, b < 256) (i : Nat) :
    buf.getD i 0 < 256 := by
  rw [List.getD_eq_getElem?_getD]
  cases hi : buf[i]? with
  | none => simp
  | some b =>
    have hb : b ∈ buf := List.getElem?_mem hi
    simpa using h b hb

/-- C6 (counterexample): on the header of an 80 x 24 frame, which starts with the
magic token, the width the server computes is 80 and the height 24, while the
big-endian integers at the frame offsets 4..7 and 8..11 are 0x43414e56 and 80. -/
theorem header_fields_not_at_4_and_8 :
    header_80x24.take 4 = MAGIC ∧ window_ok header_80x24 = true ∧
    header_width header_80x24 = 80 ∧ be32_at header_80x24 4 = 0x43414e56 ∧
    header_height header_80x24 = 24 ∧ be32_at header_80x24 8 = 80 ∧
    header_width header_80x24 ≠ be32_at header_80x24 4 ∧
    header_height header_80x24 ≠ be32_at header_80x24 8 := by
  decide

/-- C6 (amended): for every window of bytes, the width the server uses is the
big-endian 32-bit integer at the frame offsets 8..11 and the height the one at
the offsets 12..15. -/
theorem header_fields_at_8_and_12 (buf : List Nat) (hb : ∀ b ∈ buf, b < 256) :
    header_width buf = be32_at buf 8 ∧ header_height buf = be32_at buf 12 := by
  have g := getD_lt_256 buf hb
  unfold header_width header_height be32_at
  exact ⟨be32_eq _ _ _ _ (g 8) (g 9) (g 10) (g 11),
         be32_eq _ _ _ _ (g 12) (g 13) (g 14) (g 15)⟩

theorem header_fields_at_8_and_12_witness :
    (∀ b ∈ header_80x24, b < 256) ∧
      header_width header_80x24 = be32_at header_80x24 8 ∧
      header_height header_80x24 = be32_at header_80x24 12 :=
  ⟨by decide, header_fields_at_8_and_12 header_80x24 (by decide)⟩

/-! ## The payload length -/

/-- C7 (counterexample): for the 32-bit header values width = height = 65536 the
server requests 0 further bytes and hands a buffer of 16 bytes to the decoder,
where `width * height * 8` is 34359738368. -/
theorem payload_request_wraps :
    (65536 : Nat) < 4294967296 ∧
    payload_request 65536 65536 = 0 ∧ frame_size 65536 65536 = 16 ∧
    65536 * 65536 * 8 = 34359738368 ∧
    payload_request 65536 65536 ≠ 65536 * 65536 * 8 ∧
    frame_size 65536 65536 ≠ 16 + 65536 * 65536 * 8 := by
  decide

/-- C7 (amended): for every pair of header values the number of further bytes
requested is `width * height * 8` reduced modulo 2^32 and the length of the
buffer handed to the decoder is `16 + width * height * 8` reduced modulo 2^32;
whenever `16 + width * height * 8` is below 2^32 these are exactly
`width * height * 8` and `16 + width * height * 8`. -/
theorem payload_request_mod (width height : Nat) :
    payload_request width height = (width * height * 8) % 4294967296 ∧
    frame_size width height = (16 + width * height * 8) % 4294967296 ∧
    (16 + width * height * 8 < 4294967296 →
      payload_request width height = width * height * 8 ∧
      frame_size width height = 16 + width * height * 8) := by
  unfold payload_request frame_size
  generalize width * height = p
  refine ⟨by omega, by omega, fun h => ⟨by omega, by omega⟩⟩

theorem payload_request_mod_witness :
    16 + 80 * 24 * 8 < 4294967296 ∧
      payload_request 80 24 = 80 * 24 * 8 ∧ frame_size 80 24 = 16 + 80 * 24 * 8 :=
  ⟨by decide, (payload_request_mod 80 24).2.2 (by decide)⟩

/-! ## The scan for the magic token -/

theorem window_ok_iff (buf : List Nat) : window_ok buf = true ↔ buf.take 4 = MAGIC := by
  rcases buf with _ | ⟨a, _ | ⟨b, _ | ⟨c, _ | ⟨d, t⟩⟩⟩⟩ <;> simp [window_ok, MAGIC, and_assoc]

theorem scan_of_window_ok (fuel : Nat) (buf : List Nat) (inp : stdin)
    (h : window_ok buf = true) : scan fuel buf inp = some (buf, inp) := by
  cases fuel <;> simp [scan, h]

theorem drop_take_length (l : List Nat) (n : Nat) : l.drop (l.take n).length = l.drop n := by
  rw [List.length_take]
  by_cases h : n ≤ l.length
  · rw [Nat.min_eq_left h]
  · rw [Nat.min_eq_right (by omega), List.drop_eq_nil_of_le (le_refl _),
      List.drop_eq_nil_of_le (by omega)]

theorem read_stdin_all (inp : stdin) (buf : List Nat) (off n : Nat)
    (h : ∀ k ∈ inp.limits, n ≤ k) :
    read_stdin inp buf off n =
      (buf.take off ++ inp.bytes.take n ++ buf.drop (off + (inp.bytes.take n).length),
       { bytes := inp.bytes.drop n, limits := inp.limits.tail }) := by
  have hk : (match inp.limits with
             | [] => n
             | k :: _ => min k n) = n := by
    cases hl : inp.limits with
    | nil => rfl
    | cons k L =>
      have := h k (by rw [hl]; exact List.mem_cons_self _ _)
      simp only
      omega
  unfold read_stdin
  dsimp only
  rw [hk, drop_take_length]

theorem scan_shift (s t L : List Nat) (h : 17 ≤ s.length) (hL : ∀ k ∈ L, 1 ≤ k) :
    read_stdin { bytes := s.drop 16, limits := L } (shift_window (s.take 16 ++ t)) 15 1
      = ((s.drop 1).take 16 ++ t, { bytes := (s.drop 1).drop 16, limits := L.tail }) := by
  rw [read_stdin_all _ _ _ _ hL]
  obtain ⟨a, u, rfl⟩ : ∃ a u, s = a :: u := by
    cases s with
    | nil => simp at h
    | cons a u => exact ⟨a, u, rfl⟩
  have hu : 16 ≤ u.length := by simpa using h
  have e1 : u.take 16 = u.take 15 ++ (u.drop 15).take 1 := by
    rw [show (16 : Nat) = 15 + 1 by rfl, List.take_add]
  have hl : ((u.drop 15).take 1).length = 1 := by
    rw [List.length_take, List.length_drop]; omega
  have hl15 : (u.take 15).length = 15 := by
    rw [List.length_take]; omega
  have hv : ((u.take 15).drop 14).length = 1 := by
    rw [List.length_drop, hl15]
  have hs : shift_window ((a :: u).take 16 ++ t) = u.take 15 ++ ((u.take 15).drop 14 ++ t) := by
    unfold shift_window
    simp only [List.take_succ_cons, List.cons_append, List.drop_succ_cons, List.drop_zero]
    rw [List.take_left' hl15, List.drop_append_of_le_length (by omega)]
  have e2 : (u.take 15 ++ ((u.take 15).drop 14 ++ t)).take 15 = u.take 15 :=
    List.take_left' hl15
  have e3 : (u.take 15 ++ ((u.take 15).drop 14 ++ t)).drop (15 + 1) = t := by
    rw [← List.append_assoc]
    apply List.drop_left'
    rw [List.length_append, hl15, hv]
  simp only [List.drop_succ_cons, List.drop_zero]
  rw [hs, hl, e2, e3, e1, List.drop_drop]

theorem scan_first (p : Nat) : ∀ (fuel : Nat) (s t L : List Nat), p ≤ fuel →
    p + 16 ≤ s.length → (∀ k ∈ L, 1 ≤ k) →
    (∀ i, i < p → (s.drop i).take 4 ≠ MAGIC) → (s.drop p).take 4 = MAGIC →
    scan fuel (s.take 16 ++ t) { bytes := s.drop 16, limits := L } =
      some ((s.drop p).take 16 ++ t, { bytes := s.drop (p + 16), limits := L.drop p }) := by
  induction p with
  | zero =>
    intro fuel s t L _ hs _ _ hm
    rw [List.drop_zero] at hm
    rw [scan_of_window_ok]
    · simp
    · rw [window_ok_iff, List.take_append_of_le_length (by rw [List.length_take]; omega),
        List.take_take]
      exact hm
  | succ p ih =>
    intro fuel s t L hf hs hL hno hm
    obtain ⟨fuel, rfl⟩ : ∃ f, fuel = f + 1 := ⟨fuel - 1, by omega⟩
    have h0 : window_ok (s.take 16 ++ t) = false := by
      have h := hno 0 (by omega)
      rw [List.drop_zero] at h
      cases hw : window_ok (s.take 16 ++ t) with
      | false => rfl
      | true =>
        rw [window_ok_iff, List.take_append_of_le_length (by rw [List.length_take]; omega),
          List.take_take] at hw
        exact absurd hw h
    unfold scan
    rw [h0, scan_shift s t L (by omega) hL]
    simp only [Bool.false_eq_true, if_false]
    have h := ih fuel (s.drop 1) t L.tail (by omega) (by rw [List.length_drop]; omega)
      (fun k hk => hL k (List.mem_of_mem_tail hk))
      (fun i hi => by rw [List.drop_drop, Nat.add_comm]; exact hno (i + 1) (by omega))
      (by rw [List.drop_drop, Nat.add_comm]; exact hm)
    rw [h, List.drop_drop, List.drop_drop]
    have e1 : 1 + p = p + 1 := by omega
    have e2 : 1 + (p + 16) = p + 1 + 16 := by omega
    rw [e1, e2, List.drop_tail]

theorem read_stdin_full (inp : stdin) (buf : List Nat) (hb : 16 ≤ buf.length)
    (hi : 16 ≤ inp.bytes.length) (hL : ∀ k ∈ inp.limits, 16 ≤ k) :
    read_stdin inp buf 0 16 =
      (inp.bytes.take 16 ++ buf.drop 16,
       { bytes := inp.bytes.drop 16, limits := inp.limits.tail }) := by
  rw [read_stdin_all _ _ _ _ hL]
  have hl : (inp.bytes.take 16).length = 16 := by rw [List.length_take]; omega
  rw [hl]
  simp

theorem read_window_first (p fuel : Nat) (s buf0 L : List Nat) (hbuf : 16 ≤ buf0.length)
    (hp : p ≤ fuel) (hs : p + 16 ≤ s.length) (hL : ∀ k ∈ L, 16 ≤ k)
    (hno : ∀ i, i < p → (s.drop i).take 4 ≠ MAGIC) (hm : (s.drop p).take 4 = MAGIC) :
    read_window fuel buf0 { bytes := s, limits := L } =
      some ((s.drop p).take 16 ++ buf0.drop 16,
            { bytes := s.drop (p + 16), limits := L.drop (p + 1) }) := by
  unfold read_window
  rw [if_neg (by omega), read_stdin_full _ _ hbuf (by simpa using (by omega : 16 ≤ s.length)) hL]
  simp only
  rw [scan_first p fuel s (buf0.drop 16) L.tail hp hs
    (fun k hk => by have := hL k (List.mem_of_mem_tail hk); omega) hno hm]
  rw [List.drop_tail]

theorem getD_window (F t : List Nat) (i : Nat) (hi : i < 16) (hF : 16 ≤ F.length) :
    (F.take 16 ++ t).getD i 0 = F.getD i 0 := by
  have hl : i < (F.take 16).length := by rw [List.length_take]; omega
  rw [List.getD_eq_getElem?_getD, List.getD_eq_getElem?_getD, List.getElem?_append_left hl,
    List.getElem?_take_of_lt hi]

theorem header_window (F t : List Nat) (hF : 16 ≤ F.length) :
    header_width (F.take 16 ++ t) = header_width F ∧
    header_height (F.take 16 ++ t) = header_height F := by
  unfold header_width header_height
  simp only [getD_window F t _ (by decide : 8 < 16) hF, getD_window F t _ (by decide : 9 < 16) hF,
    getD_window F t _ (by decide : 10 < 16) hF, getD_window F t _ (by decide : 11 < 16) hF,
    getD_window F t _ (by decide : 12 < 16) hF, getD_window F t _ (by decide : 13 < 16) hF,
    getD_window F t _ (by decide : 14 < 16) hF, getD_window F t _ (by decide : 15 < 16) hF,
    and_self]

theorem header_be32 (buf : List Nat) (hb : ∀ b ∈ buf, b < 256) :
    header_width buf = be32_at buf 8 ∧ header_height buf = be32_at buf 12 := by
  have g := getD_lt_256 buf hb
  unfold header_width header_height be32_at
  exact ⟨be32_eq _ _ _ _ (g 8) (g 9) (g 10) (g 11),
         be32_eq _ _ _ _ (g 12) (g 13) (g 14) (g 15)⟩

theorem realloc_length (input : List Nat) (size : Nat) (fresh : Nat → Nat) :
    (realloc input size fresh).length = size := by
  simp [realloc]

theorem realloc_take (input : List Nat) (size : Nat) (fresh : Nat → Nat)
    (h1 : 16 ≤ input.length) (h2 : 16 ≤ size) :
    (realloc input size fresh).take 16 = input.take 16 := by
  apply List.ext_getElem
  · rw [List.length_take, List.length_take, realloc_length]; omega
  · intro i hi1 hi2
    have hi : i < 16 := by rw [List.length_take] at hi2; omega
    have hl : i < input.length := by omega
    simp [realloc, hl, List.getD_eq_getElem?_getD, List.getElem?_eq_getElem hl]

theorem well_formed_size (F : List Nat) (hF : well_formed F) :
    16 ≤ F.length ∧ frame_size (header_width F) (header_height F) = F.length ∧
    payload_request (header_width F) (header_height F) = F.length - 16 := by
  obtain ⟨hb, -, hlen, hmax⟩ := hF
  obtain ⟨hw, hh⟩ := header_be32 F hb
  rw [hw, hh]
  unfold payload_request frame_size
  generalize be32_at F 8 * be32_at F 12 = m at hlen
  omega

theorem receive_frame_resync (g F buf0 L : List Nat) (fresh : Nat → Nat) (fuel : Nat)
    (hbuf : 16 ≤ buf0.length) (hF : well_formed F)
    (hg : ∀ i, i < g.length → ((g ++ F).drop i).take 4 ≠ MAGIC)
    (hL : ∀ k ∈ L, F.length ≤ k) (hfuel : g.length ≤ fuel) :
    read_window fuel buf0 { bytes := g ++ F, limits := L } =
      some (F.take 16 ++ buf0.drop 16,
            { bytes := F.drop 16, limits := L.drop (g.length + 1) }) ∧
    receive_frame fuel buf0 { bytes := g ++ F, limits := L } fresh =
      some (F, F.length, { bytes := [], limits := L.drop (g.length + 2) }) := by
  obtain ⟨h16, hsize, hpay⟩ := well_formed_size F hF
  have hw : read_window fuel buf0 { bytes := g ++ F, limits := L } =
      some (F.take 16 ++ buf0.drop 16,
            { bytes := F.drop 16, limits := L.drop (g.length + 1) }) := by
    have h := read_window_first g.length fuel (g ++ F) buf0 L hbuf hfuel
      (by rw [List.length_append]; omega) (fun k hk => by have := hL k hk; omega) hg
      (by rw [List.drop_left]; exact hF.2.1)
    rw [h, List.drop_left, ← List.drop_drop, List.drop_left]
  refine ⟨hw, ?_⟩
  obtain ⟨hhw, hhh⟩ := header_window F (buf0.drop 16) h16
  unfold receive_frame
  rw [hw]
  simp only [hhw, hhh, hsize, hpay]
  have hL2 : ∀ k ∈ ({ bytes := F.drop 16, limits := L.drop (g.length + 1) } : stdin).limits,
      F.length - 16 ≤ k := by
    intro k hk
    have := hL k (List.mem_of_mem_drop hk)
    omega
  rw [read_stdin_all _ _ _ _ hL2]
  have ht : (F.drop 16).take (F.length - 16) = F.drop 16 :=
    List.take_of_length_le (by rw [List.length_drop])
  have hd : (F.drop 16).drop (F.length - 16) = [] :=
    List.drop_eq_nil_of_le (by rw [List.length_drop])
  have hr : (realloc (F.take 16 ++ buf0.drop 16) F.length fresh).take 16 = F.take 16 := by
    rw [realloc_take _ _ _ (by rw [List.length_append, List.length_take]; omega) h16,
      List.take_left' (by rw [List.length_take]; omega)]
  have hdr : (realloc (F.take 16 ++ buf0.drop 16) F.length fresh).drop
      (16 + (F.drop 16).length) = [] :=
    List.drop_eq_nil_of_le (by rw [realloc_length, List.length_drop]; omega)
  simp only [ht, hd, hr, hdr, List.append_nil, List.take_append_drop, if_true, List.drop_drop]
  have e : g.length + 1 + 1 = g.length + 2 := rfl
  simp [List.tail_drop, e]

/-- C8 (counterexample): the garbage `"CA"` followed by a well-formed 1 x 1 frame,
every `read` delivering the bytes asked for.  The scan stops at once with the
window holding the first 16 bytes of the stream, the two garbage bytes included:
nothing is discarded, the window differs from the first 16 bytes of the frame,
and what is handed to the decoder is this window with `size = 16`, not the
frame. -/
theorem scan_stops_inside_garbage :
    well_formed frame_1x1 ∧
    read_window 100 (List.replicate 16 0)
        { bytes := [0x43, 0x41] ++ frame_1x1, limits := [] }
      = some (([0x43, 0x41] ++ frame_1x1).take 16,
              { bytes := ([0x43, 0x41] ++ frame_1x1).drop 16, limits := [] }) ∧
    ([0x43, 0x41] ++ frame_1x1).take 16 ≠ frame_1x1.take 16 ∧
    receive_frame 100 (List.replicate 16 0)
        { bytes := [0x43, 0x41] ++ frame_1x1, limits := [] } (fun _ => 0)
      = some (([0x43, 0x41] ++ frame_1x1).take 16, 16,
              { bytes := ([0x43, 0x41] ++ frame_1x1).drop 16, limits := [] }) ∧
    receive_frame 100 (List.replicate 16 0)
        { bytes := [0x43, 0x41] ++ frame_1x1, limits := [] } (fun _ => 0)
      ≠ some (frame_1x1, frame_1x1.length, { bytes := [], limits := [] }) := by
  decide

/-- C8 (amended): for every byte string `g` and every well-formed frame `F`, if
the magic token occurs at no offset of `g ++ F` below the length of `g` and every
`read` of the standard input delivers the bytes asked for, then on the stream
`g ++ F`, whatever the buffer `server->input` (of at least 16 bytes) held, the
scan stops (any fuel of at least the length of `g` is enough) with the window
equal to the first 16 bytes of `F`, having consumed exactly `g` and these 16
bytes, and the buffer handed to the decoder is exactly `F`, with `size` its
length. -/
theorem scan_resynchronizes (g F buf0 L : List Nat) (fresh : Nat → Nat) (fuel : Nat)
    (hbuf : 16 ≤ buf0.length) (hF : well_formed F)
    (hg : ∀ i, i < g.length → ((g ++ F).drop i).take 4 ≠ MAGIC)
    (hL : ∀ k ∈ L, F.length ≤ k) (hfuel : g.length ≤ fuel) :
    read_window fuel buf0 { bytes := g ++ F, limits := L } =
      some (F.take 16 ++ buf0.drop 16,
            { bytes := F.drop 16, limits := L.drop (g.length + 1) }) ∧
    receive_frame fuel buf0 { bytes := g ++ F, limits := L } fresh =
      some (F, F.length, { bytes := [], limits := L.drop (g.length + 2) }) :=
  receive_frame_resync g F buf0 L fresh fuel hbuf hF hg hL hfuel

theorem scan_resynchronizes_witness :
    read_window 3 (List.replicate 24 7)
        { bytes := [1, 2, 3] ++ frame_1x1, limits := [24, 24, 30, 24, 24] } =
      some (frame_1x1.take 16 ++ (List.replicate 24 7).drop 16,
            { bytes := frame_1x1.drop 16,
              limits := [24, 24, 30, 24, 24].drop ([1, 2, 3].length + 1) }) ∧
    receive_frame 3 (List.replicate 24 7)
        { bytes := [1, 2, 3] ++ frame_1x1, limits := [24, 24, 30, 24, 24] } (fun _ => 9) =
      some (frame_1x1, frame_1x1.length,
            { bytes := [], limits := [24, 24, 30, 24, 24].drop ([1, 2, 3].length + 2) }) :=
  scan_resynchronizes [1, 2, 3] frame_1x1 (List.replicate 24 7) [24, 24, 30, 24, 24]
    (fun _ => 9) 3 (by decide) (by decide) (by decide) (by decide) (by decide)

/-! ## Regions of memory -/

theorem region_length (m : Int → Nat) (a b : Int) : (region m a b).length = (b - a).toNat := by
  simp [region]

theorem region_congr (m m' : Int → Nat) (a a' : Int) (n : Nat)
    (h : ∀ k : Nat, k < n → m (a + k) = m' (a' + k)) :
    region m a (a + n) = region m' a' (a' + n) := by
  unfold region
  have e1 : (a + (n : Int) - a).toNat = n := by simp
  have e2 : (a' + (n : Int) - a').toNat = n := by simp
  rw [e1, e2]
  apply List.map_congr_left
  intro k hk
  exact h k (List.mem_range.mp hk)

theorem region_mem (L : List Nat) : region (mem L) 0 (L.length : Nat) = L := by
  apply List.ext_getElem
  · simp [region]
  · intro i h1 h2
    simp [region, mem, List.getD_eq_getElem?_getD, List.getElem?_eq_getElem h2]

theorem toInt32_id (x : Int) (h0 : 0 ≤ x) (h1 : x ≤ 300000) : toInt32 x = x := by
  unfold toInt32; omega

theorem write_retry_blocked (buf : Int → Nat) (len : Int) (e : sock) (hlen : 0 < len)
    (hblock : (write_retry e.writes).1 = wres.err Errno.EAGAIN ∨
      (write_retry e.writes).1 = wres.ok 0) :
    eagain_ret (nonblock_write buf len e).1 (nonblock_write buf len e).2.errno = some 0 ∧
    (nonblock_write buf len e).2.sent = e.sent ∧
    (nonblock_write buf len e).2.reads = e.reads := by
  rw [nonblock_write_eq]
  simp only [hlen, if_true]
  rcases hw : write_retry e.writes with ⟨w, ws⟩
  rw [hw] at hblock
  simp only at hblock
  rcases hblock with h | h
  · subst h; simp [eagain_ret]
  · subst h; simp [eagain_ret]

theorem send_backlog_blocked (srv : server) (c : client) (e : sock) (hinv : buf_inv c)
    (hback : c.start < c.stop)
    (hblock : (write_retry e.writes).1 = wres.err Errno.EAGAIN ∨
      (write_retry e.writes).1 = wres.ok 0) :
    (send_backlog srv c e).1 = 0 ∧ (send_backlog srv c e).2.2.sent = e.sent ∧
    (send_backlog srv c e).2.1 =
      if toU64 (c.stop - c.start + 12 + srv.buflen) > OUTBUFFER then overflow_reset c
      else append_frame srv
        (if toU64 (c.stop + 12 + srv.buflen) > OUTBUFFER then compact c else c) := by
  have hstop : c.stop ≠ 0 := by
    simp only [buf_inv] at hinv; omega
  have hlen : 0 < toU64 (c.stop - c.start) := by
    simp only [buf_inv, OUTBUFFER] at hinv; unfold toU64; omega
  have hw := write_retry_blocked (fun i => c.outbuf (c.start + i)) (toU64 (c.stop - c.start)) e
    hlen hblock
  have hs : toInt32 (c.start + 0) = c.start := by
    simp only [buf_inv, OUTBUFFER] at hinv; unfold toInt32; omega
  have hc1 : ({ c with start := toInt32 (c.start + 0) } : client) = c := by
    rw [hs]
  unfold send_backlog
  simp only [hstop, ne_eq, not_false_eq_true, if_true]
  generalize nonblock_write (fun i => c.outbuf (c.start + i)) (toU64 (c.stop - c.start)) e = w
    at hw
  obtain ⟨ret0, e1⟩ := w
  simp only at hw
  simp only [hw.1]
  have hne : ¬ (0 = c.stop - c.start) := by omega
  simp only [hne, if_false, hc1, hs, strlen_ANSI_PREFIX]
  by_cases hov : toU64 (c.stop - c.start + 12 + srv.buflen) > OUTBUFFER
  · simp only [hov, if_true, and_true, true_and]
    exact hw.2.1
  · simp only [hov, if_false, and_true, true_and]
    exact hw.2.1

theorem send_data_live (srv : server) (c : client) (e : sock) (hfd : 0 ≤ c.fd)
    (hquiet : (listen e.reads c e.errno).1 = false) :
    send_data srv c e = send_init srv (listen e.reads c e.errno).2.1
      { e with reads := (listen e.reads c e.errno).2.2.2,
               errno := (listen e.reads c e.errno).2.2.1 } := by
  unfold send_data
  have h : ¬ c.fd < 0 := by omega
  simp only [h, if_false]
  rcases hl : listen e.reads c e.errno with ⟨q, c1, en, rs⟩
  rw [hl] at hquiet
  simp only at hquiet
  subst hquiet
  rfl

theorem region_overflow_reset (c : client) :
    region (overflow_reset c).outbuf 0 20 = ANSI_RESET := by
  have h := region_congr (overflow_reset c).outbuf (mem ANSI_RESET) 0 0 20 (by
    intro k hk
    simp only [overflow_reset, memcpy, strlen_ANSI_RESET]
    have hin : (0 : Int) ≤ 0 + (k : Int) ∧ 0 + (k : Int) < 0 + 20 := by omega
    rw [if_pos hin]
    simp)
  simp only [Nat.cast_ofNat, zero_add] at h
  rw [h]
  exact region_mem ANSI_RESET

theorem region_ext (m m' : Int → Nat) (a b : Int)
    (h : ∀ i : Int, a ≤ i → i < b → m i = m' i) : region m a b = region m' a b := by
  unfold region
  apply List.map_congr_left
  intro k hk
  have hk' := List.mem_range.mp hk
  apply h <;> omega

theorem region_append (m : Int → Nat) (a b c : Int) (hab : a ≤ b) (hbc : b ≤ c) :
    region m a c = region m a b ++ region m b c := by
  unfold region
  have e : (c - a).toNat = (b - a).toNat + (c - b).toNat := by omega
  rw [e, List.range_add, List.map_append, List.map_map]
  congr 1
  apply List.map_congr_left
  intro k _
  simp only [Function.comp]
  congr 1
  push_cast
  omega

theorem region_src (dst src : Int → Nat) (off n : Int) :
    region (memcpy dst off src n) off (off + n) = region src 0 n := by
  unfold region memcpy
  have e : (off + n - off).toNat = (n - 0).toNat := by congr 1; omega
  rw [e]
  apply List.map_congr_left
  intro k hk
  have hk' := List.mem_range.mp hk
  have hin : off ≤ off + (k : Int) ∧ off + (k : Int) < off + n := by omega
  rw [if_pos hin]
  congr 1
  omega

theorem region_prefix_mem : region (mem ANSI_PREFIX) 0 12 = ANSI_PREFIX :=
  region_mem ANSI_PREFIX

theorem pending_compact (c : client) (h0 : 0 ≤ c.start) (h1 : c.start ≤ c.stop)
    (h2 : c.stop ≤ OUTBUFFER) :
    pending (compact c) = pending c ∧ (compact c).start = 0 ∧
      (compact c).stop = c.stop - c.start := by
  refine ⟨?_, rfl, rfl⟩
  have hu : toU64 (c.stop - c.start) = c.stop - c.start := by
    unfold toU64; simp only [OUTBUFFER] at h2; omega
  unfold pending compact
  simp only [hu]
  have h := region_src c.outbuf (fun i => c.outbuf (c.start + i)) 0 (c.stop - c.start)
  simp only [zero_add] at h
  rw [h]
  unfold region
  have e : (c.stop - c.start - 0).toNat = (c.stop - c.start).toNat := by congr 1; omega
  rw [e]
  apply List.map_congr_left
  intro k _
  simp

theorem pending_append_frame (srv : server) (c : client) (h0 : 0 ≤ c.start)
    (h1 : c.start ≤ c.stop) (h2 : c.stop + 12 + (srv.buflen : Int) ≤ OUTBUFFER) :
    pending (append_frame srv c)
        = pending c ++ ANSI_PREFIX ++ region srv.bufdata 0 srv.buflen ∧
      (append_frame srv c).start = c.start ∧
      (append_frame srv c).stop = c.stop + 12 + srv.buflen := by
  have hs1 : toInt32 (toU64 (c.stop + 12)) = c.stop + 12 := by
    unfold toInt32 toU64; simp only [OUTBUFFER] at h2; omega
  have hs2 : toInt32 (toU64 (c.stop + 12 + (srv.buflen : Int))) = c.stop + 12 + srv.buflen := by
    unfold toInt32 toU64; simp only [OUTBUFFER] at h2; omega
  have hstart : (append_frame srv c).start = c.start := rfl
  have hstop : (append_frame srv c).stop = c.stop + 12 + srv.buflen := by
    simp only [append_frame, strlen_ANSI_PREFIX, hs1, hs2]
  have hout : (append_frame srv c).outbuf
      = memcpy (memcpy c.outbuf c.stop (mem ANSI_PREFIX) 12) (c.stop + 12) srv.bufdata
          srv.buflen := by
    simp only [append_frame, strlen_ANSI_PREFIX, hs1]
  refine ⟨?_, hstart, hstop⟩
  unfold pending
  rw [hstart, hstop, hout]
  rw [region_append _ c.start (c.stop + 12) (c.stop + 12 + srv.buflen) (by omega) (by omega),
    region_append _ c.start c.stop (c.stop + 12) (by omega) (by omega), region_src]
  congr 1
  congr 1
  · apply region_ext
    intro i _ hi
    unfold memcpy
    rw [if_neg (by omega), if_neg (by omega)]
  · have h := region_src c.outbuf (mem ANSI_PREFIX) c.stop 12
    refine Eq.trans ?_ (h.trans region_prefix_mem)
    apply region_ext
    intro i _ hi
    unfold memcpy
    rw [if_neg (by omega)]

theorem send_data_ready (srv : server) (c : client) (e : sock) (hfd : 0 ≤ c.fd)
    (hready : c.ready ≠ 0) (hbuf : srv.buffer = true)
    (hquiet : (listen e.reads c e.errno).1 = false) :
    ∃ (c1 : client) (e1 : sock), send_data srv c e = send_backlog srv c1 e1 ∧
      c1.fd = c.fd ∧ c1.ready = c.ready ∧ c1.outbuf = c.outbuf ∧ c1.start = c.start ∧
      c1.stop = c.stop ∧ e1.writes = e.writes ∧ e1.sent = e.sent := by
  have hl := listen_out e.reads c e.errno
  refine ⟨(listen e.reads c e.errno).2.1,
    { e with reads := (listen e.reads c e.errno).2.2.2,
             errno := (listen e.reads c e.errno).2.2.1 }, ?_, hl.1, hl.2.1, hl.2.2.1,
    hl.2.2.2.1, hl.2.2.2.2, rfl, rfl⟩
  rw [send_data_live srv c e hfd hquiet]
  unfold send_init
  have hr : ¬ (listen e.reads c e.errno).2.1.ready = 0 := by rw [hl.2.1]; exact hready
  simp only [hr, if_false, hbuf, if_true]

/-! ## The overflow policy -/

/-- C9: a live, ready client with a non-empty backlog `outbuf[start, stop)` of
`r = stop - start` bytes, a published frame of `buflen` bytes, and a flush attempt
that leaves the backlog in place (the write would block or accepts nothing).  If
`r + 12 + buflen > OUTBUFFER`, `send_data` returns 0 with `start = 0`, `stop = 20`,
the pending region equal to `ANSI_RESET`, and nothing written to the socket; if
`r + 12 + buflen ≤ OUTBUFFER` there is no reset: the backlog is kept and
`ANSI_PREFIX` and the frame are queued behind it. -/
theorem overflow_policy_single_tick (srv : server) (c : client) (e : sock)
    (hfd : 0 ≤ c.fd) (hready : c.ready ≠ 0) (hbuf : srv.buffer = true)
    (hinv : buf_inv c) (hback : c.start < c.stop)
    (hlen : (srv.buflen : Int) < 9223372036854775808)
    (hquiet : (listen e.reads c e.errno).1 = false)
    (hblock : (write_retry e.writes).1 = wres.err Errno.EAGAIN ∨
      (write_retry e.writes).1 = wres.ok 0) :
    (c.stop - c.start + 12 + srv.buflen > OUTBUFFER →
      (send_data srv c e).1 = 0 ∧ (send_data srv c e).2.1.start = 0 ∧
      (send_data srv c e).2.1.stop = 20 ∧
      pending (send_data srv c e).2.1 = ANSI_RESET ∧
      (send_data srv c e).2.2.sent = e.sent) ∧
    (c.stop - c.start + 12 + srv.buflen ≤ OUTBUFFER →
      (send_data srv c e).1 = 0 ∧
      pending (send_data srv c e).2.1
        = pending c ++ ANSI_PREFIX ++ region srv.bufdata 0 srv.buflen ∧
      (send_data srv c e).2.1.stop - (send_data srv c e).2.1.start
        = c.stop - c.start + 12 + srv.buflen ∧
      (send_data srv c e).2.2.sent = e.sent) := by
  obtain ⟨c1, e1, hsd, -, -, hout, hstart, hstop, hwr, hsent⟩ :=
    send_data_ready srv c e hfd hready hbuf hquiet
  have hinv1 : buf_inv c1 := by
    simp only [buf_inv, hstart, hstop]; exact hinv
  obtain ⟨hret, hs, hcl⟩ := send_backlog_blocked srv c1 e1 hinv1 (by rw [hstart, hstop]; exact hback)
    (by rw [hwr]; exact hblock)
  have hp1 : pending c1 = pending c := by unfold pending; rw [hout, hstart, hstop]
  simp only [buf_inv, OUTBUFFER] at hinv
  rw [hsd, hret, hs, hsent, hcl, hstart, hstop]
  constructor
  · intro hov
    have hu : toU64 (c.stop - c.start + 12 + srv.buflen) > OUTBUFFER := by
      unfold toU64; simp only [OUTBUFFER] at hov ⊢; omega
    rw [if_pos hu]
    refine ⟨rfl, rfl, ?_, ?_, rfl⟩
    · simp [overflow_reset, strlen_ANSI_RESET]
    · have h := region_overflow_reset c1
      unfold pending
      simpa [overflow_reset, strlen_ANSI_RESET] using h
  · intro hno
    have hu : ¬ toU64 (c.stop - c.start + 12 + srv.buflen) > OUTBUFFER := by
      unfold toU64; simp only [OUTBUFFER] at hno ⊢; omega
    rw [if_neg hu]
    refine ⟨rfl, ?_, ?_, rfl⟩
    · by_cases hmv : toU64 (c.stop + 12 + srv.buflen) > OUTBUFFER
      · rw [if_pos hmv]
        obtain ⟨hpc, hcs, hce⟩ := pending_compact c1 (by omega) (by omega)
          (by simp only [OUTBUFFER]; omega)
        obtain ⟨hpa, -, -⟩ := pending_append_frame srv (compact c1) (by omega) (by omega)
          (by rw [hce, hstart, hstop]; exact hno)
        rw [hpa, hpc, hp1]
      · rw [if_neg hmv]
        obtain ⟨hpa, -, -⟩ := pending_append_frame srv c1 (by omega) (by omega)
          (by unfold toU64 at hmv; simp only [OUTBUFFER] at hmv ⊢; omega)
        rw [hpa, hp1]
    · by_cases hmv : toU64 (c.stop + 12 + srv.buflen) > OUTBUFFER
      · rw [if_pos hmv]
        obtain ⟨-, hcs, hce⟩ := pending_compact c1 (by omega) (by omega)
          (by simp only [OUTBUFFER]; omega)
        obtain ⟨-, has, hae⟩ := pending_append_frame srv (compact c1) (by omega) (by omega)
          (by rw [hce, hstart, hstop]; exact hno)
        rw [has, hae, hcs, hce]; omega
      · rw [if_neg hmv]
        obtain ⟨-, has, hae⟩ := pending_append_frame srv c1 (by omega) (by omega)
          (by unfold toU64 at hmv; simp only [OUTBUFFER] at hmv ⊢; omega)
        rw [has, hae]; omega

theorem overflow_policy_single_tick_witness :
    (send_data server_AB backlog_client (sock_of [] [])).2.1.stop = 20 ∧
      pending (send_data server_AB backlog_client (sock_of [] [])).2.1 = ANSI_RESET :=
  have h := (overflow_policy_single_tick server_AB backlog_client (sock_of [] [])
    (by decide) (by decide) (by decide) (by unfold buf_inv; decide) (by decide) (by decide)
    (by decide) (by decide)).1 (by decide)
  ⟨h.2.2.1, h.2.2.2.1⟩

/-! ## A client that never drains -/

theorem telnet_step_quit (c : client) (b : Nat) (h : (telnet_step c b).1 = true) :
    b % 256 = 3 := by
  unfold telnet_step at h
  simp only at h
  split_ifs at h with h1 h2 h3 h4 h5 h6
  all_goals first
    | (simp at h; done)
    | (have hi : c.inbytes = 0 := by omega
       rw [hi] at h6
       simpa using h6)

theorem listen_quiet (rs : List rres) (c : client) (en : Errno)
    (h : ∀ b : Nat, rres.byte b ∈ rs → b % 256 ≠ 3) : (listen rs c en).1 = false := by
  induction rs generalizing c en with
  | nil => simp [listen]
  | cons r rs ih =>
    cases r with
    | eof => simp [listen]
    | err x => simp [listen]
    | byte b =>
      have hb : b % 256 ≠ 3 := h b (List.mem_cons_self _ _)
      unfold listen
      split
      · next c1 hc1 =>
        have hq := telnet_step_quit c b (by rw [hc1])
        exact absurd hq hb
      · next c1 hc1 =>
        exact ih c1 en (fun b' hb' => h b' (List.mem_cons_of_mem _ hb'))

theorem write_retry_all_blocked (ws : List wres) (h : ∀ w ∈ ws, w = wres.err Errno.EAGAIN) :
    (write_retry ws).1 = wres.err Errno.EAGAIN := by
  cases ws with
  | nil => rfl
  | cons w ws =>
    have hw := h w (List.mem_cons_self _ _)
    subst hw
    rfl

theorem send_new_blocked_fit (srv : server) (c : client) (e : sock) (hstop : c.stop = 0)
    (hfit : 12 + (srv.buflen : Int) ≤ OUTBUFFER)
    (hblock : (write_retry e.writes).1 = wres.err Errno.EAGAIN) :
    (send_new srv c e).2.1 = append_frame srv c := by
  have hw := write_retry_blocked (mem ANSI_PREFIX) 12 e (by decide) (Or.inl hblock)
  have hu : ¬ toU64 (12 + (srv.buflen : Int)) > OUTBUFFER := by
    unfold toU64; simp only [OUTBUFFER] at hfit ⊢; omega
  have e1 : toU64 (12 - 0) = 12 := by decide
  have e2 : toInt32 12 = 12 := by decide
  have e3 : toInt32 (toU64 (0 + 12)) = 12 := by decide
  unfold send_new
  simp only [strlen_ANSI_PREFIX]
  generalize nonblock_write (mem ANSI_PREFIX) 12 e = w at hw
  obtain ⟨ret0, e1'⟩ := w
  simp only at hw
  simp only [hw.1, show (0 : Int) < 12 by decide, if_true, hu, if_false, e1, e2]
  simp only [append_frame, hstop, strlen_ANSI_PREFIX, e3]

theorem send_backlog_blocked_fit (srv : server) (c : client) (e : sock) (hstart : c.start = 0)
    (hstop : 0 ≤ c.stop) (hfit : c.stop + 12 + (srv.buflen : Int) ≤ OUTBUFFER)
    (hblock : (write_retry e.writes).1 = wres.err Errno.EAGAIN) :
    (send_backlog srv c e).2.1 = append_frame srv c := by
  by_cases h0 : c.stop = 0
  · have hs : send_backlog srv c e = send_new srv c e := by
      unfold send_backlog; simp [h0]
    rw [hs]
    exact send_new_blocked_fit srv c e h0 (by rw [h0] at hfit; simpa using hfit) hblock
  · have hinv : buf_inv c := by
      simp only [buf_inv, OUTBUFFER] at hfit ⊢; omega
    obtain ⟨-, -, hcl⟩ := send_backlog_blocked srv c e hinv (by omega) (Or.inl hblock)
    have hu1 : ¬ toU64 (c.stop - c.start + 12 + srv.buflen) > OUTBUFFER := by
      unfold toU64; simp only [OUTBUFFER] at hfit ⊢; omega
    have hu2 : ¬ toU64 (c.stop + 12 + srv.buflen) > OUTBUFFER := by
      unfold toU64; simp only [OUTBUFFER] at hfit ⊢; omega
    rw [hcl, if_neg hu1, if_neg hu2]

theorem tick_appends (t : server × sock) (c : client) (hfd : 0 ≤ c.fd) (hready : c.ready ≠ 0)
    (hstart : c.start = 0) (hstop : 0 ≤ c.stop) (ht : would_block_tick t)
    (hfit : c.stop + 12 + (t.1.buflen : Int) ≤ OUTBUFFER) :
    (send_data t.1 c t.2).2.1.fd = c.fd ∧ (send_data t.1 c t.2).2.1.ready = c.ready ∧
    (send_data t.1 c t.2).2.1.start = 0 ∧
    (send_data t.1 c t.2).2.1.stop = c.stop + 12 + t.1.buflen ∧
    pending (send_data t.1 c t.2).2.1
      = pending c ++ ANSI_PREFIX ++ region t.1.bufdata 0 t.1.buflen := by
  obtain ⟨hbuf, -, hws, hrs⟩ := ht
  obtain ⟨c1, e1, hsd, hfd1, hr1, hout, hst1, hsp1, hwr, -⟩ :=
    send_data_ready t.1 c t.2 hfd hready hbuf (listen_quiet _ _ _ hrs)
  have hcl := send_backlog_blocked_fit t.1 c1 e1 (by rw [hst1, hstart]) (by rw [hsp1]; exact hstop)
    (by rw [hsp1]; exact hfit) (by rw [hwr]; exact write_retry_all_blocked _ hws)
  obtain ⟨hp, hs, he⟩ := pending_append_frame t.1 c1 (by rw [hst1, hstart])
    (by rw [hst1, hsp1, hstart]; exact hstop) (by rw [hsp1]; exact hfit)
  have hp1 : pending c1 = pending c := by unfold pending; rw [hout, hst1, hsp1]
  rw [hsd, hcl]
  refine ⟨hfd1, hr1, ?_, ?_, ?_⟩
  · rw [hs, hst1, hstart]
  · rw [he, hsp1]
  · rw [hp, hp1]

theorem tick_resets (t : server × sock) (c : client) (hfd : 0 ≤ c.fd) (hready : c.ready ≠ 0)
    (hstart : c.start = 0) (hstop : 0 < c.stop) (hcap : c.stop ≤ OUTBUFFER)
    (ht : would_block_tick t)
    (hover : c.stop + 12 + (t.1.buflen : Int) > OUTBUFFER) :
    (send_data t.1 c t.2).2.1.start = 0 ∧ (send_data t.1 c t.2).2.1.stop = 20 ∧
    pending (send_data t.1 c t.2).2.1 = ANSI_RESET := by
  obtain ⟨hbuf, hsz, hws, hrs⟩ := ht
  obtain ⟨c1, e1, hsd, -, -, -, hst1, hsp1, hwr, -⟩ :=
    send_data_ready t.1 c t.2 hfd hready hbuf (listen_quiet _ _ _ hrs)
  have hinv : buf_inv c1 := by
    simp only [buf_inv, hst1, hsp1]; omega
  obtain ⟨-, -, hcl⟩ := send_backlog_blocked t.1 c1 e1 hinv (by omega)
    (Or.inl (by rw [hwr]; exact write_retry_all_blocked _ hws))
  have hu : toU64 (c1.stop - c1.start + 12 + t.1.buflen) > OUTBUFFER := by
    unfold toU64; simp only [OUTBUFFER] at hover hsz hcap ⊢; omega
  rw [hsd, hcl, if_pos hu]
  refine ⟨rfl, ?_, ?_⟩
  · simp [overflow_reset, strlen_ANSI_RESET]
  · have h := region_overflow_reset c1
    unfold pending
    simpa [overflow_reset, strlen_ANSI_RESET] using h

theorem ticks_append (c : client) (ts : List (server × sock)) (t : server × sock) :
    ticks c (ts ++ [t]) = (send_data t.1 (ticks c ts) t.2).2.1 := by
  induction ts generalizing c with
  | nil => rfl
  | cons t0 ts ih =>
    obtain ⟨srv, e⟩ := t0
    simp only [List.cons_append, ticks]
    exact ih _

theorem queued_total_append (ts : List (server × sock)) (t : server × sock) :
    queued_total (ts ++ [t]) = queued_total ts + 12 + t.1.buflen := by
  induction ts with
  | nil => obtain ⟨srv, e⟩ := t; simp [queued_total]
  | cons t0 ts ih =>
    obtain ⟨srv, e⟩ := t0
    rw [List.cons_append]
    unfold queued_total
    rw [ih]
    omega

theorem queued_total_nonneg (ts : List (server × sock)) : 0 ≤ queued_total ts := by
  induction ts with
  | nil => simp [queued_total]
  | cons t0 ts ih =>
    obtain ⟨srv, e⟩ := t0
    simp only [queued_total]
    omega

theorem ticks_queue (ts : List (server × sock)) : ∀ (c : client), 0 ≤ c.fd → c.ready ≠ 0 →
    c.start = 0 → 0 ≤ c.stop → (∀ t ∈ ts, would_block_tick t) →
    c.stop + queued_total ts ≤ OUTBUFFER →
    (ticks c ts).fd = c.fd ∧ (ticks c ts).ready = c.ready ∧ (ticks c ts).start = 0 ∧
    (ticks c ts).stop = c.stop + queued_total ts ∧
    pending (ticks c ts) = pending c ++ queued_bytes ts := by
  induction ts with
  | nil =>
    intro c _ _ hstart _ _ _
    simp [ticks, queued_total, queued_bytes, hstart]
  | cons t0 ts ih =>
    intro c hfd hready hstart hstop hts hfit
    obtain ⟨srv, e⟩ := t0
    have hq := queued_total_nonneg ts
    simp only [queued_total] at hfit
    obtain ⟨h1, h2, h3, h4, h5⟩ := tick_appends (srv, e) c hfd hready hstart hstop
      (hts _ (List.mem_cons_self _ _)) (by simp only; omega)
    simp only at h1 h2 h3 h4 h5
    obtain ⟨g1, g2, g3, g4, g5⟩ := ih (send_data srv c e).2.1 (by rw [h1]; exact hfd)
      (by rw [h2]; exact hready) h3 (by rw [h4]; omega)
      (fun t ht => hts t (List.mem_cons_of_mem _ ht)) (by rw [h4]; omega)
    simp only [ticks, queued_total, queued_bytes]
    refine ⟨by rw [g1, h1], by rw [g2, h2], g3, by rw [g4, h4]; omega, ?_⟩
    rw [g5, h5]
    simp only [List.append_assoc]

/-- C10: a live, ready client with an empty backlog, and a run of ticks in each of
which a frame with `12 + buflen ≤ OUTBUFFER` is published, every write would
block and the client sends no byte 0x03.  As long as the sum of `12 + buflen`
over the ticks run so far does not exceed `OUTBUFFER`, the backlog size is that
sum (and the pending bytes are the `ANSI_PREFIX ++ frame` of all these ticks, so
no reset has occurred); at the first tick that takes the sum above `OUTBUFFER`
the reset occurs: the backlog size after it is 20 and the pending bytes are
`ANSI_RESET`. -/
theorem never_draining_client (c : client) (ts : List (server × sock))
    (hfd : 0 ≤ c.fd) (hready : c.ready ≠ 0) (hstart : c.start = 0) (hstop : c.stop = 0)
    (hts : ∀ t ∈ ts, would_block_tick t) (hsum : queued_total ts ≤ OUTBUFFER) :
    ((ticks c ts).stop - (ticks c ts).start = queued_total ts ∧
      pending (ticks c ts) = queued_bytes ts) ∧
    (∀ t : server × sock, would_block_tick t → queued_total (ts ++ [t]) > OUTBUFFER →
      (ticks c (ts ++ [t])).stop - (ticks c (ts ++ [t])).start = 20 ∧
      pending (ticks c (ts ++ [t])) = ANSI_RESET) := by
  obtain ⟨h1, h2, h3, h4, h5⟩ := ticks_queue ts c hfd hready hstart (by omega) hts
    (by rw [hstop]; simpa using hsum)
  have hp : pending c = [] := by
    unfold pending region; rw [hstart, hstop]; rfl
  constructor
  · constructor
    · rw [h3, h4, hstop]; omega
    · rw [h5, hp]; rfl
  · intro t ht hover
    rw [queued_total_append] at hover
    have hsz := ht.2.1
    obtain ⟨g1, g2, g3⟩ := tick_resets t (ticks c ts) (by rw [h1]; exact hfd)
      (by rw [h2]; exact hready) h3
      (by rw [h4, hstop]; simp only [OUTBUFFER] at hover hsz; omega)
      (by rw [h4, hstop]; simpa using hsum)
      ht (by rw [h4, hstop]; simp only [OUTBUFFER] at hover ⊢; omega)
    rw [ticks_append]
    exact ⟨by rw [g1, g2]; rfl, g3⟩

theorem never_draining_client_witness :
    (ticks ready_client [(server_big, sock_of [] []), (server_big, sock_of [] [])]).stop
        - (ticks ready_client [(server_big, sock_of [] []), (server_big, sock_of [] [])]).start
      = 300000 ∧
    (ticks ready_client
        ([(server_big, sock_of [] []), (server_big, sock_of [] [])]
          ++ [(server_AB, sock_of [] [])])).stop
      - (ticks ready_client
        ([(server_big, sock_of [] []), (server_big, sock_of [] [])]
          ++ [(server_AB, sock_of [] [])])).start = 20 := by
  have hb : would_block_tick (server_big, sock_of [] []) := by
    refine ⟨rfl, by decide, ?_, ?_⟩
    · intro w hw; simp [sock_of] at hw
    · intro b hb; simp [sock_of] at hb
  have ha : would_block_tick (server_AB, sock_of [] []) := by
    refine ⟨rfl, by decide, ?_, ?_⟩
    · intro w hw; simp [sock_of] at hw
    · intro b hb; simp [sock_of] at hb
  have h := never_draining_client ready_client
    [(server_big, sock_of [] []), (server_big, sock_of [] [])]
    (by decide) (by decide) (by decide) (by decide)
    (by intro t ht
        simp only [List.mem_cons, List.mem_singleton, List.not_mem_nil, or_false, or_self] at ht
        rw [ht]; exact hb)
    (by decide)
  exact ⟨h.1.1, (h.2 (server_AB, sock_of [] []) ha (by decide)).1⟩

/-! ## The backlog flush -/

/-- C11 (the code at the failing input): a ready client with the backlog `"XYZ"`,
the frame `"AB"`, a socket that accepts 1 of the 3 backlog bytes (k = 1).  When
the following writes block, `send_data` returns 0 with the pending region equal
to `ANSI_PREFIX ++ "AB"`: the unsent `"YZ"` is not in it.  When the following
writes are accepted, `ANSI_PREFIX` and the frame `"AB"` go to the socket in this
same call, right behind `"X"`.  With a flush that blocks (k = 0) the pending
region is `"XYZ" ++ ANSI_PREFIX ++ "AB"`. -/
theorem short_flush_drops_backlog :
    pending xyz_client = [0x58, 0x59, 0x5a] ∧
    (send_data server_AB xyz_client (sock_of [] [wres.ok 1])).1 = 0 ∧
    (send_data server_AB xyz_client (sock_of [] [wres.ok 1])).2.2.sent = [0x58] ∧
    pending (send_data server_AB xyz_client (sock_of [] [wres.ok 1])).2.1
      = ANSI_PREFIX ++ [0x41, 0x42] ∧
    pending (send_data server_AB xyz_client (sock_of [] [wres.ok 1])).2.1
      ≠ [0x59, 0x5a] ++ ANSI_PREFIX ++ [0x41, 0x42] ∧
    (send_data server_AB xyz_client
        (sock_of [] [wres.ok 1, wres.ok 12, wres.ok 2])).2.2.sent
      = [0x58] ++ ANSI_PREFIX ++ [0x41, 0x42] ∧
    pending (send_data server_AB xyz_client
        (sock_of [] [wres.ok 1, wres.ok 12, wres.ok 2])).2.1 = [] ∧
    pending (send_data server_AB xyz_client (sock_of [] [])).2.1
      = [0x58, 0x59, 0x5a] ++ ANSI_PREFIX ++ [0x41, 0x42] := by
  decide

/-! ## The interrupt -/

/-- C12 (the code at the failing input): for an idle live client, the lone byte
0x03 makes `send_data` return -1 with no write attempted, and the caller sets
`fd = -1`; the byte 0x03 after 0xFF causes no disconnect; but 0x03 as the option
byte of the triplets IAC WILL 0x03 and IAC DONT 0x03 makes `send_data` return -1
and the caller set `fd = -1`, where the triplets IAC DO 0x03 and IAC WONT 0x03
leave the client live. -/
theorem option3_after_will_retires_client :
    (send_data server_AB idle_client (sock_of [rres.byte 0x03] [wres.ok 50])).1 = -1 ∧
    (send_data server_AB idle_client (sock_of [rres.byte 0x03] [wres.ok 50])).2.2.sent = [] ∧
    (send_data server_AB idle_client (sock_of [rres.byte 0x03] [wres.ok 50])).2.2.writes
      = [wres.ok 50] ∧
    (serve_client server_AB idle_client (sock_of [rres.byte 0x03] [wres.ok 50])).1.fd = -1 ∧
    (serve_client server_AB idle_client
        (sock_of [rres.byte 0xff, rres.byte 0x03] [wres.ok 50])).1.fd = 5 ∧
    (serve_client server_AB idle_client
        (sock_of [rres.byte 0xff, rres.byte 0xfd, rres.byte 0x03] [wres.ok 50])).1.fd = 5 ∧
    (serve_client server_AB idle_client
        (sock_of [rres.byte 0xff, rres.byte 0xfc, rres.byte 0x03] [wres.ok 50])).1.fd = 5 ∧
    (send_data server_AB idle_client
        (sock_of [rres.byte 0xff, rres.byte 0xfb, rres.byte 0x03] [wres.ok 50])).1 = -1 ∧
    (serve_client server_AB idle_client
        (sock_of [rres.byte 0xff, rres.byte 0xfb, rres.byte 0x03] [wres.ok 50])).1.fd = -1 ∧
    (serve_client server_AB idle_client
        (sock_of [rres.byte 0xff, rres.byte 0xfe, rres.byte 0x03] [wres.ok 50])).1.fd = -1 := by
  decide

/-! ## Fatal errors and retired clients -/

theorem overflow_reset_fd (c : client) :
    (overflow_reset c).fd = c.fd ∧ (overflow_reset c).ready = c.ready := ⟨rfl, rfl⟩

theorem append_frame_fd (srv : server) (c : client) :
    (append_frame srv c).fd = c.fd ∧ (append_frame srv c).ready = c.ready := ⟨rfl, rfl⟩

theorem send_new_fd (srv : server) (c : client) (e : sock) :
    (send_new srv c e).2.1.fd = c.fd ∧ (send_new srv c e).2.1.ready = c.ready := by
  unfold send_new
  split
  split
  · exact ⟨rfl, rfl⟩
  · split
    · split
      · exact ⟨rfl, rfl⟩
      · exact ⟨rfl, rfl⟩
    · split
      split
      · exact ⟨rfl, rfl⟩
      · split
        · split
          · exact ⟨rfl, rfl⟩
          · exact ⟨rfl, rfl⟩
        · exact ⟨rfl, rfl⟩

theorem send_backlog_fd (srv : server) (c : client) (e : sock) :
    (send_backlog srv c e).2.1.fd = c.fd ∧ (send_backlog srv c e).2.1.ready = c.ready := by
  unfold send_backlog
  split
  · split
    split
    · exact ⟨rfl, rfl⟩
    · split
      · exact send_new_fd srv _ _
      · dsimp only
        split
        · exact ⟨rfl, rfl⟩
        · split
          · exact ⟨rfl, rfl⟩
          · exact ⟨rfl, rfl⟩
  · exact send_new_fd srv c e

theorem send_init_fd (srv : server) (c : client) (e : sock) :
    (send_init srv c e).2.1.fd = c.fd := by
  unfold send_init
  split
  · split
    split
    · rfl
    · split
      · rfl
      · split
        · exact (send_backlog_fd srv _ _).1
        · rfl
  · split
    · exact (send_backlog_fd srv c e).1
    · rfl

theorem send_data_fd (srv : server) (c : client) (e : sock) :
    (send_data srv c e).2.1.fd = c.fd := by
  unfold send_data
  have hl := listen_out e.reads c e.errno
  split
  · rfl
  · split
    · next c1 en rs hc1 => rw [hc1] at hl; exact hl.1
    · next c1 en rs hc1 =>
      rw [hc1] at hl
      rw [send_init_fd]
      exact hl.1

theorem send_data_retired (srv : server) (c : client) (e : sock) (h : c.fd = -1) :
    send_data srv c e = (-1, c, e) := by
  unfold send_data
  have h0 : c.fd < 0 := by omega
  simp only [h0, if_true]

theorem serve_client_retired (srv : server) (c : client) (e : sock) (h : c.fd = -1) :
    serve_client srv c e = (c, e) := by
  unfold serve_client
  simp only [h, if_true]

theorem serve_client_fatal (srv : server) (c : client) (e : sock) (h : c.fd ≠ -1)
    (hret : (send_data srv c e).1 ≠ 0) : (serve_client srv c e).1.fd = -1 := by
  unfold serve_client
  simp only [h, if_false]
  rcases hs : send_data srv c e with ⟨ret, c1, e1⟩
  rw [hs] at hret
  simp only at hret
  simp only [hret, ne_eq, not_false_eq_true, if_true]

theorem write_retry_fatal (buf : Int → Nat) (len : Int) (e : sock) (x : Errno) (hlen : 0 < len)
    (hx : x ≠ Errno.EAGAIN) (hw : (write_retry e.writes).1 = wres.err x) :
    (nonblock_write buf len e).1 = -1 ∧ (nonblock_write buf len e).2.errno = x ∧
    eagain_ret (nonblock_write buf len e).1 (nonblock_write buf len e).2.errno = none := by
  rw [nonblock_write_eq]
  simp only [hlen, if_true]
  rcases hr : write_retry e.writes with ⟨w, ws⟩
  rw [hr] at hw
  simp only at hw
  subst hw
  simp [eagain_ret, hx]

theorem send_data_listen (srv : server) (c : client) (e : sock) (hfd : 0 ≤ c.fd)
    (hquiet : (listen e.reads c e.errno).1 = false) :
    ∃ (c1 : client) (e1 : sock), send_data srv c e = send_init srv c1 e1 ∧
      c1.fd = c.fd ∧ c1.ready = c.ready ∧ c1.outbuf = c.outbuf ∧ c1.start = c.start ∧
      c1.stop = c.stop ∧ e1.writes = e.writes ∧ e1.sent = e.sent := by
  have hl := listen_out e.reads c e.errno
  exact ⟨(listen e.reads c e.errno).2.1,
    { e with reads := (listen e.reads c e.errno).2.2.2,
             errno := (listen e.reads c e.errno).2.2.1 },
    send_data_live srv c e hfd hquiet, hl.1, hl.2.1, hl.2.2.1, hl.2.2.2.1, hl.2.2.2.2, rfl, rfl⟩

theorem send_init_fatal (srv : server) (c : client) (e : sock) (x : Errno)
    (hready : c.ready = 0) (hx : x ≠ Errno.EAGAIN)
    (hw : (write_retry e.writes).1 = wres.err x) : (send_init srv c e).1 = -1 := by
  obtain ⟨h1, h2, -⟩ := write_retry_fatal (mem srv.prefix_) (sizeof_lit INIT_PREFIX) e x
    (by decide) hx hw
  unfold send_init
  simp only [hready, if_true]
  generalize nonblock_write (mem srv.prefix_) (sizeof_lit INIT_PREFIX) e = w at h1 h2
  obtain ⟨ret, e1⟩ := w
  simp only at h1 h2
  simp only [h1, h2, hx, if_true, if_false]

theorem send_backlog_fatal (srv : server) (c : client) (e : sock) (x : Errno)
    (hinv : buf_inv c) (hback : c.start < c.stop) (hx : x ≠ Errno.EAGAIN)
    (hw : (write_retry e.writes).1 = wres.err x) : (send_backlog srv c e).1 = -1 := by
  have hstop : c.stop ≠ 0 := by simp only [buf_inv] at hinv; omega
  have hlen : 0 < toU64 (c.stop - c.start) := by
    simp only [buf_inv, OUTBUFFER] at hinv; unfold toU64; omega
  obtain ⟨-, -, h3⟩ := write_retry_fatal (fun i => c.outbuf (c.start + i))
    (toU64 (c.stop - c.start)) e x hlen hx hw
  unfold send_backlog
  simp only [hstop, ne_eq, not_false_eq_true, if_true]
  generalize nonblock_write (fun i => c.outbuf (c.start + i)) (toU64 (c.stop - c.start)) e = w
    at h3
  obtain ⟨ret, e1⟩ := w
  simp only at h3
  simp only [h3]

theorem send_new_fatal_first (srv : server) (c : client) (e : sock) (x : Errno)
    (hx : x ≠ Errno.EAGAIN) (hw : (write_retry e.writes).1 = wres.err x) :
    (send_new srv c e).1 = -1 := by
  obtain ⟨-, -, h3⟩ := write_retry_fatal (mem ANSI_PREFIX) (strlen ANSI_PREFIX) e x
    (by decide) hx hw
  unfold send_new
  generalize nonblock_write (mem ANSI_PREFIX) (strlen ANSI_PREFIX) e = w at h3
  obtain ⟨ret, e1⟩ := w
  simp only at h3
  simp only [h3]

theorem send_new_fatal_second (srv : server) (c : client) (e : sock) (x : Errno) (n : Nat)
    (ws : List wres) (hx : x ≠ Errno.EAGAIN) (hlen : 0 < srv.buflen)
    (hw1 : write_retry e.writes = (wres.ok (n + 1), ws))
    (hw2 : (write_retry ws).1 = wres.err x) : (send_new srv c e).1 = -1 := by
  have h1 : nonblock_write (mem ANSI_PREFIX) (strlen ANSI_PREFIX) e
      = (12, { e with writes := ws,
                      sent := e.sent ++ region (mem ANSI_PREFIX) 0 (min ((n : Int) + 1) 12),
                      errno := write_errno e.writes e.errno }) := by
    rw [nonblock_write_eq, strlen_ANSI_PREFIX, hw1]
    simp [toInt64]
  obtain ⟨-, -, h3⟩ := write_retry_fatal srv.bufdata srv.buflen
    { e with writes := ws,
             sent := e.sent ++ region (mem ANSI_PREFIX) 0 (min ((n : Int) + 1) 12),
             errno := write_errno e.writes e.errno } x
    (by omega) hx hw2
  unfold send_new
  rw [h1]
  simp only [eagain_ret, strlen_ANSI_PREFIX]
  simp only [show ¬ ((12 : Int) = -1) by decide, if_false, show ¬ ((12 : Int) < 12) by decide]
  generalize nonblock_write srv.bufdata srv.buflen
    { e with writes := ws,
             sent := e.sent ++ region (mem ANSI_PREFIX) 0 (min ((n : Int) + 1) 12),
             errno := write_errno e.writes e.errno } = w at h3
  obtain ⟨ret, e1⟩ := w
  simp only at h3
  simp only [eagain_ret] at h3
  simp only [h3]

theorem fatal_after_zero (ws : List wres) (h : fatal_after 0 ws = true) :
    ∃ (x : Errno) (rest : List wres), write_retry ws = (wres.err x, rest) ∧
      x ≠ Errno.EAGAIN := by
  induction ws with
  | nil => simp [fatal_after] at h
  | cons w ws ih =>
    cases w with
    | ok n => simp [fatal_after] at h
    | err x =>
      cases x with
      | EINTR =>
        simp only [fatal_after] at h
        simp only [write_retry]
        exact ih h
      | EAGAIN => simp [fatal_after] at h
      | other code =>
        refine ⟨Errno.other code, ws, ?_, ?_⟩
        · rfl
        · intro hc; cases hc

theorem fatal_after_succ (j : Nat) (ws : List wres) (h : fatal_after (j + 1) ws = true) :
    ∃ (n : Nat) (rest : List wres), write_retry ws = (wres.ok (n + 1), rest) ∧
      fatal_after j rest = true := by
  induction ws with
  | nil => simp [fatal_after] at h
  | cons w ws ih =>
    cases w with
    | ok n =>
      cases n with
      | zero => simp [fatal_after] at h
      | succ n =>
        simp only [fatal_after] at h
        exact ⟨n, ws, rfl, h⟩
    | err x =>
      cases x with
      | EINTR =>
        simp only [fatal_after] at h
        simp only [write_retry]
        exact ih h
      | EAGAIN => simp [fatal_after] at h
      | other code => simp [fatal_after] at h

theorem nonblock_write_positive (buf : Int → Nat) (len : Int) (e : sock) (n : Nat)
    (ws : List wres) (h0 : 0 < len) (hmax : len < 9223372036854775808)
    (hw : write_retry e.writes = (wres.ok (n + 1), ws)) :
    (nonblock_write buf len e).1 = len ∧ (nonblock_write buf len e).2.writes = ws := by
  rw [nonblock_write_eq, hw]
  simp only [h0, if_true, and_true]
  unfold toInt64
  omega

theorem send_new_trace (srv : server) (c : client) (e : sock) (j : Nat)
    (hf : fatal_after j e.writes = true)
    (hj : j < 1 + (if 0 < srv.buflen then 1 else 0)) : (send_new srv c e).1 = -1 := by
  cases j with
  | zero =>
    obtain ⟨x, rest, hw, hx⟩ := fatal_after_zero _ hf
    exact send_new_fatal_first srv c e x hx (by rw [hw])
  | succ j =>
    have hlen : 0 < srv.buflen := by
      by_contra hc
      rw [if_neg hc] at hj
      omega
    have hj0 : j = 0 := by rw [if_pos hlen] at hj; omega
    subst hj0
    obtain ⟨n, rest, hw1, hf1⟩ := fatal_after_succ _ _ hf
    obtain ⟨x, rest2, hw2, hx⟩ := fatal_after_zero _ hf1
    exact send_new_fatal_second srv c e x n rest hx hlen hw1 (by rw [hw2])

theorem send_backlog_trace (srv : server) (c : client) (e : sock) (j : Nat)
    (hinv : buf_inv c) (hf : fatal_after j e.writes = true)
    (hj : j < (if c.start < c.stop then 1 else 0) + 1 + (if 0 < srv.buflen then 1 else 0)) :
    (send_backlog srv c e).1 = -1 := by
  have hb := hinv
  simp only [buf_inv, OUTBUFFER] at hb
  by_cases hback : c.start < c.stop
  · rw [if_pos hback] at hj
    cases j with
    | zero =>
      obtain ⟨x, rest, hw, hx⟩ := fatal_after_zero _ hf
      exact send_backlog_fatal srv c e x hinv hback hx (by rw [hw])
    | succ j =>
      obtain ⟨n, rest, hw1, hf1⟩ := fatal_after_succ _ _ hf
      have hlen : toU64 (c.stop - c.start) = c.stop - c.start := by unfold toU64; omega
      obtain ⟨h1, h2⟩ := nonblock_write_positive (fun i => c.outbuf (c.start + i))
        (toU64 (c.stop - c.start)) e n rest (by rw [hlen]; omega) (by rw [hlen]; omega) hw1
      have hstop : c.stop ≠ 0 := by omega
      unfold send_backlog
      simp only [hstop, ne_eq, not_false_eq_true, if_true]
      generalize nonblock_write (fun i => c.outbuf (c.start + i)) (toU64 (c.stop - c.start)) e
        = w at h1 h2
      obtain ⟨ret, e1⟩ := w
      simp only at h1 h2
      rw [hlen] at h1
      subst h1
      have hne : ¬ (c.stop - c.start = -1) := by omega
      simp only [eagain_ret, hne, if_false, if_true]
      exact send_new_trace srv _ e1 j (by rw [h2]; exact hf1) (by omega)
  · rw [if_neg hback] at hj
    by_cases hstop : c.stop = 0
    · have hs : send_backlog srv c e = send_new srv c e := by
        unfold send_backlog; simp [hstop]
      rw [hs]
      exact send_new_trace srv c e j hf (by omega)
    · have hlen : toU64 (c.stop - c.start) = 0 := by
        have : c.stop - c.start = 0 := by omega
        rw [this]; rfl
      have hn : nonblock_write (fun i => c.outbuf (c.start + i)) (toU64 (c.stop - c.start)) e
          = (0, e) := by
        rw [nonblock_write_eq, hlen]; simp
      unfold send_backlog
      simp only [hstop, ne_eq, not_false_eq_true, if_true]
      rw [hn]
      have h0 : (0 : Int) = c.stop - c.start := by omega
      simp only [eagain_ret, show ¬ ((0 : Int) = -1) by decide, if_false, h0, if_true]
      rw [← h0]
      exact send_new_trace srv _ e j hf (by omega)

theorem send_init_trace (srv : server) (c : client) (e : sock) (j : Nat)
    (hinv : buf_inv c) (hf : fatal_after j e.writes = true) (hj : j < write_sites srv c) :
    (send_init srv c e).1 = -1 := by
  unfold write_sites at hj
  by_cases hready : c.ready = 0
  · rw [if_pos hready] at hj
    cases j with
    | zero =>
      obtain ⟨x, rest, hw, hx⟩ := fatal_after_zero _ hf
      exact send_init_fatal srv c e x hready hx (by rw [hw])
    | succ j =>
      have hbuf : srv.buffer = true := by
        by_contra hc
        have hb : srv.buffer = false := by simpa using hc
        simp only [hb, Bool.false_eq_true, if_false] at hj
        omega
      simp only [hbuf, if_true] at hj
      obtain ⟨n, rest, hw1, hf1⟩ := fatal_after_succ _ _ hf
      obtain ⟨h1, h2⟩ := nonblock_write_positive (mem srv.prefix_) (sizeof_lit INIT_PREFIX) e n
        rest (by decide) (by decide) hw1
      unfold send_init
      simp only [hready, if_true]
      generalize nonblock_write (mem srv.prefix_) (sizeof_lit INIT_PREFIX) e = w at h1 h2
      obtain ⟨ret, e1⟩ := w
      simp only at h1 h2
      have hs : sizeof_lit INIT_PREFIX = 50 := by decide
      rw [hs] at h1
      simp only [h1, hs, show ¬ ((50 : Int) = -1) by decide, if_false,
        show ¬ ((50 : Int) < 50) by decide, hbuf, if_true]
      exact send_backlog_trace srv { c with ready := 1 } e1 j hinv (by rw [h2]; exact hf1)
        (by simpa using (by omega : j < (if c.start < c.stop then 1 else 0) + 1 +
          (if 0 < srv.buflen then 1 else 0)))
  · rw [if_neg hready] at hj
    have hbuf : srv.buffer = true := by
      by_contra hc
      have hb : srv.buffer = false := by simpa using hc
      simp only [hb, Bool.false_eq_true, if_false] at hj
      omega
    simp only [hbuf, if_true] at hj
    unfold send_init
    simp only [hready, if_false, hbuf, if_true]
    exact send_backlog_trace srv c e j hinv hf (by omega)

theorem send_data_trace (srv : server) (c : client) (e : sock) (j : Nat)
    (hfd : 0 ≤ c.fd) (hinv : buf_inv c)
    (hquiet : (listen e.reads c e.errno).1 = false)
    (hf : fatal_after j e.writes = true) (hj : j < write_sites srv c) :
    (send_data srv c e).1 = -1 := by
  obtain ⟨c1, e1, hsd, -, hr, -, hs, hp, hw, -⟩ := send_data_listen srv c e hfd hquiet
  rw [hsd]
  apply send_init_trace srv c1 e1 j
  · simp only [buf_inv, hs, hp]; exact hinv
  · rw [hw]; exact hf
  · unfold write_sites at hj ⊢
    rw [hr, hs, hp]; exact hj

theorem serve_clients_get (srv : server) (cs : List client) : ∀ (es : List sock) (i : Nat)
    (c : client) (e : sock), cs[i]? = some c → es[i]? = some e →
    (serve_clients srv cs es)[i]? = some (serve_client srv c e) := by
  induction cs with
  | nil => intro es i c e h; simp at h
  | cons c0 cs ih =>
    intro es i c e h he
    cases es with
    | nil => simp at he
    | cons e0 es =>
      cases i with
      | zero =>
        simp only [List.getElem?_cons_zero, Option.some.injEq] at h he
        subst h he
        simp [serve_clients]
      | succ i =>
        simp only [List.getElem?_cons_succ] at h he
        simp only [serve_clients, List.getElem?_cons_succ]
        exact ih es i c e h he

theorem getElem?_take_append_one (l : List client) (n i : Nat) (x c : client) (hi : i < n)
    (h : l[i]? = some c) : (l.take n ++ [x])[i]? = some c := by
  have hl : i < l.length := by
    obtain ⟨hlt, -⟩ := List.getElem?_eq_some.mp h
    exact hlt
  have ht : i < (l.take n).length := by
    rw [List.length_take]; omega
  rw [List.getElem?_append_left ht, List.getElem?_take_of_lt hi]
  exact h

theorem manage_connections_keeps (st : state) (a : accepted) (e : sock) (i : Nat) (c : client)
    (hi : i < st.client_count) (h : st.clients[i]? = some c) :
    (manage_connections st a e).1.clients[i]? = some c ∧
    st.client_count ≤ (manage_connections st a e).1.client_count ∧
    (manage_connections st a e).1.frame = st.frame := by
  unfold manage_connections
  split
  · exact ⟨h, le_refl _, rfl⟩
  · split
    split
    · exact ⟨getElem?_take_append_one _ _ _ _ _ hi h, le_refl _, rfl⟩
    · exact ⟨getElem?_take_append_one _ _ _ _ _ hi h, Nat.le_succ _, rfl⟩

theorem serve_clients_retired (srv : server) (cs : List client) : ∀ (es : List sock) (i : Nat)
    (c : client), cs[i]? = some c → c.fd = -1 →
    ((serve_clients srv cs es).map Prod.fst)[i]? = some c := by
  induction cs with
  | nil => intro es i c h; simp at h
  | cons c0 cs ih =>
    intro es i c h hfd
    cases i with
    | zero =>
      simp only [List.getElem?_cons_zero, Option.some.injEq] at h
      subst h
      cases es with
      | nil => simp [serve_clients, serve_client_retired _ _ _ hfd]
      | cons e es => simp [serve_clients, serve_client_retired _ _ _ hfd]
    | succ i =>
      simp only [List.getElem?_cons_succ] at h
      cases es with
      | nil =>
        simp only [serve_clients, List.map_cons, List.getElem?_cons_succ]
        exact ih [] i c h hfd
      | cons e es =>
        simp only [serve_clients, List.map_cons, List.getElem?_cons_succ]
        exact ih es i c h hfd

theorem serve_clients_length (srv : server) (cs : List client) : ∀ (es : List sock),
    (serve_clients srv cs es).length = cs.length := by
  induction cs with
  | nil => intro es; simp [serve_clients]
  | cons c0 cs ih =>
    intro es
    cases es with
    | nil => simp [serve_clients, ih]
    | cons e es => simp [serve_clients, ih]

theorem manage_connections_frame (st : state) (a : accepted) (e : sock) :
    (manage_connections st a e).1.frame = st.frame ∧
    (manage_connections st a e).1.input = st.input := by
  unfold manage_connections
  split
  · exact ⟨rfl, rfl⟩
  · split
    split <;> exact ⟨rfl, rfl⟩

theorem main_round_retired (render : List Nat → Nat → Option (List Nat)) (fuel : Nat)
    (st : state) (w : world) (st' : state) (rest : stdin) (socks : List sock) (i : Nat)
    (c : client) (hr : main_round render fuel st w = some (st', rest, socks))
    (hi : i < st.client_count) (h : st.clients[i]? = some c) (hfd : c.fd = -1) :
    st'.clients[i]? = some c := by
  obtain ⟨hk, hc, -⟩ := manage_connections_keeps st w.conn w.conn_sock i c hi h
  unfold main_round at hr
  generalize manage_connections st w.conn w.conn_sock = m at hr hk hc
  obtain ⟨st1, e1⟩ := m
  simp only at hr hk hc
  split at hr
  · exact absurd hr (by simp)
  · next buf size rest' hrf =>
    split at hr
    · simp only [Option.some.injEq, Prod.mk.injEq] at hr
      obtain ⟨hst, -, -⟩ := hr
      rw [← hst]
      exact hk
    · next ansi hrn =>
      simp only [Option.some.injEq, Prod.mk.injEq] at hr
      obtain ⟨hst, -, -⟩ := hr
      rw [← hst]
      simp only
      have h1 : (st1.clients.take st1.client_count)[i]? = some c := by
        rw [List.getElem?_take_of_lt (by omega)]; exact hk
      have h2 := serve_clients_retired (publish st1.frame ansi)
        (st1.clients.take st1.client_count) w.socks i c h1 hfd
      have hlen : i < ((serve_clients (publish st1.frame ansi)
          (st1.clients.take st1.client_count) w.socks).map Prod.fst).length := by
        obtain ⟨hlt, -⟩ := List.getElem?_eq_some.mp h2
        exact hlt
      rw [List.getElem?_append_left hlen]
      exact h2

theorem main_round_serves (render : List Nat → Nat → Option (List Nat)) (fuel : Nat)
    (st : state) (w : world) (buf ansi : List Nat) (size : Nat) (rest : stdin) (i : Nat)
    (c : client) (e : sock)
    (hrecv : receive_frame fuel st.input w.stdin w.fresh = some (buf, size, rest))
    (hdec : render buf size = some ansi)
    (hi : i < st.client_count) (h : st.clients[i]? = some c) (he : w.socks[i]? = some e) :
    ∃ (st' : state) (socks : List sock),
      main_round render fuel st w = some (st', rest, socks) ∧
      st'.clients[i]? = some (serve_client (publish st.frame ansi) c e).1 ∧
      socks[i]? = some (serve_client (publish st.frame ansi) c e).2 := by
  obtain ⟨hk, hc, -⟩ := manage_connections_keeps st w.conn w.conn_sock i c hi h
  obtain ⟨hf, hin⟩ := manage_connections_frame st w.conn w.conn_sock
  unfold main_round
  generalize manage_connections st w.conn w.conn_sock = m at hk hc hf hin
  obtain ⟨st1, e1⟩ := m
  simp only at hk hc hf hin
  simp only [hin, hrecv, hdec, hf]
  have h1 : (st1.clients.take st1.client_count)[i]? = some c := by
    rw [List.getElem?_take_of_lt (by omega)]; exact hk
  have h2 := serve_clients_get (publish st.frame ansi)
    (st1.clients.take st1.client_count) w.socks i c e h1 he
  have hlen : i < (serve_clients (publish st.frame ansi)
      (st1.clients.take st1.client_count) w.socks).length := by
    obtain ⟨hlt, -⟩ := List.getElem?_eq_some.mp h2
    exact hlt
  refine ⟨_, _, rfl, ?_, ?_⟩
  · simp only
    rw [List.getElem?_append_left (by rw [List.length_map]; exact hlen), List.getElem?_map, h2]
    rfl
  · rw [List.getElem?_map, h2]
    rfl

/-- C13: for a live client whose pending region is within its bounds and whose
telnet filter asks for no disconnect: when the writes `send_data` makes are
accepted up to some write site and the write at that site (the initialisation
sequence, the backlog flush, `ANSI_PREFIX` or the frame, whichever comes at that
point of this call) fails with an error other than `EAGAIN`, interrupted calls
being retried, `send_data` returns -1 and the loop body sets `fd = -1`.  The
main loop serves every registered client with its own socket and the frame just
published, so a round in which a frame is decoded retires such a client.  The
caller sets `fd = -1` whenever `send_data` returns non-zero.  For a client with
`fd = -1`, `send_data` returns at once with the client and the socket untouched
and the main loop skips it; `send_data` never changes `fd`, and a round of the
main loop leaves a registered client with `fd = -1` as it is. -/
theorem fatal_write_retires_client :
    (∀ (srv : server) (c : client) (e : sock) (j : Nat), 0 ≤ c.fd → buf_inv c →
        (listen e.reads c e.errno).1 = false → fatal_after j e.writes = true →
        j < write_sites srv c →
        (send_data srv c e).1 = -1 ∧ (serve_client srv c e).1.fd = -1) ∧
    (∀ (render : List Nat → Nat → Option (List Nat)) (fuel : Nat) (st : state) (w : world)
        (buf ansi : List Nat) (size : Nat) (rest : stdin) (i j : Nat) (c : client) (e : sock),
        receive_frame fuel st.input w.stdin w.fresh = some (buf, size, rest) →
        render buf size = some ansi → i < st.client_count → st.clients[i]? = some c →
        w.socks[i]? = some e → 0 ≤ c.fd → buf_inv c →
        (listen e.reads c e.errno).1 = false → fatal_after j e.writes = true →
        j < write_sites (publish st.frame ansi) c →
        ∃ (st' : state) (socks : List sock) (c' : client),
          main_round render fuel st w = some (st', rest, socks) ∧
          st'.clients[i]? = some c' ∧ c'.fd = -1) ∧
    (∀ (srv : server) (cs : List client) (es : List sock) (i : Nat) (c : client) (e : sock),
        cs[i]? = some c → es[i]? = some e →
        (serve_clients srv cs es)[i]? = some (serve_client srv c e)) ∧
    (∀ (srv : server) (c : client) (e : sock), c.fd ≠ -1 → (send_data srv c e).1 ≠ 0 →
        (serve_client srv c e).1.fd = -1) ∧
    (∀ (srv : server) (c : client) (e : sock), c.fd = -1 →
        send_data srv c e = (-1, c, e) ∧ serve_client srv c e = (c, e)) ∧
    (∀ (srv : server) (c : client) (e : sock), (send_data srv c e).2.1.fd = c.fd) ∧
    (∀ (render : List Nat → Nat → Option (List Nat)) (fuel : Nat) (st : state) (w : world)
        (st' : state) (rest : stdin) (socks : List sock) (i : Nat) (c : client),
        main_round render fuel st w = some (st', rest, socks) → i < st.client_count →
        st.clients[i]? = some c → c.fd = -1 → st'.clients[i]? = some c) := by
  have hsite : ∀ (srv : server) (c : client) (e : sock) (j : Nat), 0 ≤ c.fd → buf_inv c →
      (listen e.reads c e.errno).1 = false → fatal_after j e.writes = true →
      j < write_sites srv c →
      (send_data srv c e).1 = -1 ∧ (serve_client srv c e).1.fd = -1 := by
    intro srv c e j hfd hinv hq hf hj
    have h1 := send_data_trace srv c e j hfd hinv hq hf hj
    exact ⟨h1, serve_client_fatal srv c e (by omega) (by rw [h1]; decide)⟩
  refine ⟨hsite, ?_, serve_clients_get, serve_client_fatal, ?_, send_data_fd,
    main_round_retired⟩
  · intro render fuel st w buf ansi size rest i j c e hrecv hdec hi h he hfd hinv hq hf hj
    obtain ⟨st', socks, hm, hc, -⟩ :=
      main_round_serves render fuel st w buf ansi size rest i c e hrecv hdec hi h he
    exact ⟨st', socks, _, hm, hc, (hsite (publish st.frame ansi) c e j hfd hinv hq hf hj).2⟩
  · intro srv c e h
    exact ⟨send_data_retired srv c e h, serve_client_retired srv c e h⟩

theorem fatal_write_retires_client_witness :
    (send_data server_AB idle_client
      (sock_of [] [wres.ok 50, wres.err Errno.EINTR, wres.err (Errno.other 32)])).1 = -1 ∧
    (serve_client server_AB idle_client
      (sock_of [] [wres.ok 50, wres.err Errno.EINTR, wres.err (Errno.other 32)])).1.fd = -1 ∧
    (send_data server_AB xyz_client
      (sock_of [] [wres.ok 3, wres.ok 12, wres.err (Errno.other 104)])).1 = -1 ∧
    (serve_client server_AB xyz_client
      (sock_of [] [wres.ok 3, wres.ok 12, wres.err (Errno.other 104)])).1.fd = -1 :=
  have h1 := fatal_write_retires_client.1 server_AB idle_client
      (sock_of [] [wres.ok 50, wres.err Errno.EINTR, wres.err (Errno.other 32)]) 1
      (by decide) (by unfold buf_inv; decide) (by decide) (by decide) (by decide)
  have h2 := fatal_write_retires_client.1 server_AB xyz_client
      (sock_of [] [wres.ok 3, wres.ok 12, wres.err (Errno.other 104)]) 2
      (by decide) (by unfold buf_inv; decide) (by decide) (by decide) (by decide)
  ⟨h1.1, h1.2, h2.1, h2.2⟩

/-! ## Failed reads -/

theorem write_retry_rest_blocked (ws : List wres) (h : ∀ w ∈ ws, w = wres.err Errno.EAGAIN) :
    ∀ w ∈ (write_retry ws).2, w = wres.err Errno.EAGAIN := by
  cases ws with
  | nil => intro w hw; simp [write_retry] at hw
  | cons w0 ws =>
    have hw0 := h w0 (List.mem_cons_self _ _)
    subst hw0
    intro w hw
    exact h w (List.mem_cons_of_mem _ hw)

theorem nonblock_write_all_blocked (buf : Int → Nat) (len : Int) (e : sock)
    (h : ∀ w ∈ e.writes, w = wres.err Errno.EAGAIN) :
    eagain_ret (nonblock_write buf len e).1 (nonblock_write buf len e).2.errno = some 0 ∧
    ((nonblock_write buf len e).1 = -1 → (nonblock_write buf len e).2.errno = Errno.EAGAIN) ∧
    (∀ w ∈ (nonblock_write buf len e).2.writes, w = wres.err Errno.EAGAIN) ∧
    (nonblock_write buf len e).2.sent = e.sent := by
  rw [nonblock_write_eq]
  by_cases hlen : 0 < len
  · simp only [hlen, if_true]
    have h1 := write_retry_all_blocked e.writes h
    have h2 := write_retry_rest_blocked e.writes h
    rcases hr : write_retry e.writes with ⟨w, ws⟩
    rw [hr] at h1 h2
    simp only at h1 h2
    subst h1
    exact ⟨by simp [eagain_ret], fun _ => rfl, h2, rfl⟩
  · simp only [hlen, if_false]
    refine ⟨by simp [eagain_ret], fun h0 => absurd h0 (by decide), h, ?_⟩
    trivial

theorem send_new_all_blocked (srv : server) (c : client) (e : sock)
    (h : ∀ w ∈ e.writes, w = wres.err Errno.EAGAIN) : (send_new srv c e).1 = 0 := by
  obtain ⟨h1, -, h3, -⟩ := nonblock_write_all_blocked (mem ANSI_PREFIX) (strlen ANSI_PREFIX) e h
  unfold send_new
  generalize nonblock_write (mem ANSI_PREFIX) (strlen ANSI_PREFIX) e = w at h1 h3
  obtain ⟨ret0, e1⟩ := w
  simp only at h1 h3
  simp only [h1, strlen_ANSI_PREFIX, show (0 : Int) < 12 by decide, if_true]
  split <;> rfl

theorem send_backlog_all_blocked (srv : server) (c : client) (e : sock)
    (h : ∀ w ∈ e.writes, w = wres.err Errno.EAGAIN) : (send_backlog srv c e).1 = 0 := by
  unfold send_backlog
  split
  · obtain ⟨h1, -, h3, -⟩ := nonblock_write_all_blocked (fun i => c.outbuf (c.start + i))
      (toU64 (c.stop - c.start)) e h
    generalize nonblock_write (fun i => c.outbuf (c.start + i)) (toU64 (c.stop - c.start)) e = w
      at h1 h3
    obtain ⟨ret0, e1⟩ := w
    simp only at h1 h3
    simp only [h1]
    split
    · exact send_new_all_blocked srv _ e1 h3
    · dsimp only
      split <;> rfl
  · exact send_new_all_blocked srv c e h

theorem send_init_all_blocked (srv : server) (c : client) (e : sock)
    (h : ∀ w ∈ e.writes, w = wres.err Errno.EAGAIN) : (send_init srv c e).1 = 0 := by
  unfold send_init
  split
  · obtain ⟨-, h2, h3, -⟩ := nonblock_write_all_blocked (mem srv.prefix_)
      (sizeof_lit INIT_PREFIX) e h
    have hr := nonblock_write_ret (mem srv.prefix_) (sizeof_lit INIT_PREFIX) e
    generalize nonblock_write (mem srv.prefix_) (sizeof_lit INIT_PREFIX) e = w at h2 h3 hr
    obtain ⟨ret, e1⟩ := w
    simp only at h2 h3 hr
    by_cases hm1 : ret = -1
    · simp only [hm1, if_true, h2 hm1]
    · simp only [hm1, if_false]
      split
      · rfl
      · split
        · exact send_backlog_all_blocked srv _ e1 h3
        · rfl
  · split
    · exact send_backlog_all_blocked srv c e h
    · rfl

theorem region_mem_take (L : List Nat) (n : Nat) (h : n ≤ L.length) :
    region (mem L) 0 (n : Int) = L.take n := by
  apply List.ext_getElem
  · simp [region, h]
  · intro i h1 h2
    have hi : i < L.length := by
      simp only [List.length_take] at h2; omega
    simp [region, mem, List.getD_eq_getElem?_getD, List.getElem?_eq_getElem hi, List.getElem_take]

theorem nonblock_write_accepted (buf : Int → Nat) (len : Int) (e : sock) (k : Nat)
    (ws : List wres) (h0 : 0 < len) (hmax : len < 9223372036854775808)
    (hw : write_retry e.writes = (wres.ok k, ws)) (hk : len ≤ k) :
    nonblock_write buf len e
      = (len, { e with writes := ws, sent := e.sent ++ region buf 0 len,
                       errno := write_errno e.writes e.errno }) := by
  obtain ⟨n, rfl⟩ : ∃ n, k = n + 1 := ⟨k - 1, by omega⟩
  rw [nonblock_write_eq, hw]
  simp only [h0, if_true]
  have e1 : toInt64 len = len := by unfold toInt64; omega
  have e2 : min ((n : Int) + 1) len = len := by
    push_cast at hk; omega
  rw [e1, e2]

theorem send_new_accepted (srv : server) (c : client) (e : sock) (k1 k2 : Nat) (ws : List wres)
    (hmax : (srv.buflen : Int) < 9223372036854775808)
    (hw : e.writes = wres.ok k1 :: wres.ok k2 :: ws) (h1 : 12 ≤ k1) (h2 : srv.buflen ≤ k2) :
    (send_new srv c e).1 = 0 ∧ (send_new srv c e).2.1 = c ∧
    (send_new srv c e).2.2.sent = e.sent ++ ANSI_PREFIX ++ region srv.bufdata 0 srv.buflen := by
  have hk1 : k1 ≠ 0 := by omega
  have hr1 : write_retry e.writes = (wres.ok k1, wres.ok k2 :: ws) := by
    rw [hw]; rfl
  have hn1 := nonblock_write_accepted (mem ANSI_PREFIX) 12 e k1 (wres.ok k2 :: ws) (by decide)
    (by decide) hr1 (by omega)
  have he1 : write_errno e.writes e.errno = e.errno := by rw [hw]; rfl
  rw [he1] at hn1
  unfold send_new
  rw [strlen_ANSI_PREFIX, hn1]
  simp only [eagain_ret, show ¬ ((12 : Int) = -1) by decide, if_false,
    show ¬ ((12 : Int) < 12) by decide]
  rw [region_prefix_mem]
  by_cases hb : srv.buflen = 0
  · have hz : nonblock_write srv.bufdata (srv.buflen : Int)
        { e with writes := wres.ok k2 :: ws, sent := e.sent ++ ANSI_PREFIX }
        = (0, { e with writes := wres.ok k2 :: ws, sent := e.sent ++ ANSI_PREFIX }) := by
      rw [nonblock_write_eq, hb]; simp
    rw [hz]
    simp only [show ¬ ((0 : Int) = -1) by decide, if_false, hb]
    simp [toInt32, region]
  · have hr2 : write_retry
        ({ e with writes := wres.ok k2 :: ws, sent := e.sent ++ ANSI_PREFIX } : sock).writes
        = (wres.ok k2, ws) := rfl
    have hn2 := nonblock_write_accepted srv.bufdata srv.buflen
      { e with writes := wres.ok k2 :: ws, sent := e.sent ++ ANSI_PREFIX } k2 ws
      (by omega) hmax hr2 (by omega)
    have he2 : write_errno
        ({ e with writes := wres.ok k2 :: ws, sent := e.sent ++ ANSI_PREFIX } : sock).writes
        ({ e with writes := wres.ok k2 :: ws, sent := e.sent ++ ANSI_PREFIX } : sock).errno
        = e.errno := rfl
    rw [he2] at hn2
    rw [hn2]
    have hne : ¬ ((srv.buflen : Int) = -1) := by omega
    have hlt : ¬ ((srv.buflen : Int) < toInt32 srv.buflen) := by
      unfold toInt32; omega
    simp only [hne, if_false, hlt]
    simp

theorem send_data_accepted (srv : server) (c : client) (e : sock) (k1 k2 : Nat)
    (ws : List wres) (hfd : 0 ≤ c.fd) (hready : c.ready ≠ 0) (hbuf : srv.buffer = true)
    (hstop : c.stop = 0)
    (hmax : (srv.buflen : Int) < 9223372036854775808)
    (hq : ∀ b : Nat, rres.byte b ∈ e.reads → b % 256 ≠ 3)
    (hw : e.writes = wres.ok k1 :: wres.ok k2 :: ws) (h1 : 12 ≤ k1) (h2 : srv.buflen ≤ k2) :
    (send_data srv c e).1 = 0 ∧ (send_data srv c e).2.1.fd = c.fd ∧
    (send_data srv c e).2.1.ready = c.ready ∧ (send_data srv c e).2.1.start = c.start ∧
    (send_data srv c e).2.1.stop = c.stop ∧
    (send_data srv c e).2.2.sent = e.sent ++ ANSI_PREFIX ++ region srv.bufdata 0 srv.buflen := by
  obtain ⟨c1, e1, hsd, hf1, hr1, -, hs1, hp1, hwr, hse⟩ :=
    send_data_ready srv c e hfd hready hbuf (listen_quiet _ _ _ hq)
  have hs : send_backlog srv c1 e1 = send_new srv c1 e1 := by
    unfold send_backlog; simp [hp1, hstop]
  obtain ⟨g1, g2, g3⟩ := send_new_accepted srv c1 e1 k1 k2 ws hmax (by rw [hwr]; exact hw) h1 h2
  rw [hsd, hs, g1, g2, g3, hse]
  exact ⟨rfl, hf1, hr1, hs1, hp1, rfl⟩

theorem publish_frame (srv0 : server) (ansi : List Nat) (h2 : 2 ≤ ansi.length)
    (hmax : ansi.length < 9223372036854775808) :
    (publish srv0 ansi).buffer = true ∧ (publish srv0 ansi).buflen = ansi.length - 2 ∧
    region (publish srv0 ansi).bufdata 0 (publish srv0 ansi).buflen
      = ansi.take (ansi.length - 2) := by
  have hb : (publish srv0 ansi).buflen = ansi.length - 2 := by
    simp only [publish, toU64]
    omega
  refine ⟨rfl, hb, ?_⟩
  rw [hb]
  exact region_mem_take ansi (ansi.length - 2) (by omega)

/-- C15 (counterexample): the export `"AB\r\n"`, a ready client with an empty
backlog, a socket that accepts every byte.  `send_data` writes the cursor-home
sequence `ESC [ 1 ; 1 H` twice and then `"AB"`, 14 bytes, not the 8 bytes of one
cursor-home sequence followed by `"AB"`. -/
theorem frame_output_has_two_cursor_homes :
    (send_data (publish server_AB [0x41, 0x42, 0x0d, 0x0a]) ready_client
        (sock_of [] [wres.ok 12, wres.ok 2])).2.2.sent
      = CURSOR_HOME ++ CURSOR_HOME ++ [0x41, 0x42] ∧
    (send_data (publish server_AB [0x41, 0x42, 0x0d, 0x0a]) ready_client
        (sock_of [] [wres.ok 12, wres.ok 2])).2.2.sent
      ≠ CURSOR_HOME ++ [0x41, 0x42] ∧
    ANSI_PREFIX = CURSOR_HOME ++ CURSOR_HOME := by
  decide

/-- C15 (amended): for every export of at least 2 bytes published by `main`, every
live ready client with an empty backlog that sends no byte 0x03, and a socket
that accepts every byte offered, `send_data` writes `ANSI_PREFIX`, which is the
cursor-home sequence twice, followed by the export without its last 2 bytes,
returns 0 and leaves `ready`, `start` and `stop` unchanged; a second `send_data`
with the same export then writes the same bytes. -/
theorem frame_output_idempotent (srv0 : server) (ansi : List Nat) (c : client)
    (e e' : sock) (k1 k2 k1' k2' : Nat) (ws ws' : List wres)
    (hlen : 2 ≤ ansi.length) (hmax : ansi.length < 9223372036854775808)
    (hfd : 0 ≤ c.fd) (hready : c.ready ≠ 0) (hstop : c.stop = 0)
    (hq : ∀ b : Nat, rres.byte b ∈ e.reads → b % 256 ≠ 3)
    (hw : e.writes = wres.ok k1 :: wres.ok k2 :: ws) (h1 : 12 ≤ k1)
    (h2 : ansi.length - 2 ≤ k2)
    (hq' : ∀ b : Nat, rres.byte b ∈ e'.reads → b % 256 ≠ 3)
    (hw' : e'.writes = wres.ok k1' :: wres.ok k2' :: ws') (h1' : 12 ≤ k1')
    (h2' : ansi.length - 2 ≤ k2') :
    (send_data (publish srv0 ansi) c e).1 = 0 ∧
    (send_data (publish srv0 ansi) c e).2.2.sent
      = e.sent ++ CURSOR_HOME ++ CURSOR_HOME ++ ansi.take (ansi.length - 2) ∧
    (send_data (publish srv0 ansi) c e).2.1.ready = c.ready ∧
    (send_data (publish srv0 ansi) c e).2.1.start = c.start ∧
    (send_data (publish srv0 ansi) c e).2.1.stop = c.stop ∧
    (send_data (publish srv0 ansi) (send_data (publish srv0 ansi) c e).2.1 e').1 = 0 ∧
    (send_data (publish srv0 ansi) (send_data (publish srv0 ansi) c e).2.1 e').2.2.sent
      = e'.sent ++ CURSOR_HOME ++ CURSOR_HOME ++ ansi.take (ansi.length - 2) := by
  obtain ⟨hb, hl, hreg⟩ := publish_frame srv0 ansi hlen hmax
  have hpre : ANSI_PREFIX = CURSOR_HOME ++ CURSOR_HOME := by decide
  have hm : ((publish srv0 ansi).buflen : Int) < 9223372036854775808 := by
    rw [hl]; omega
  obtain ⟨g1, g2, g3, g4, g5, g6⟩ := send_data_accepted (publish srv0 ansi) c e k1 k2 ws hfd
    hready hb hstop hm hq hw h1 (by rw [hl]; exact h2)
  obtain ⟨f1, -, -, -, -, f6⟩ := send_data_accepted (publish srv0 ansi)
    (send_data (publish srv0 ansi) c e).2.1 e' k1' k2' ws' (by rw [g2]; exact hfd)
    (by rw [g3]; exact hready) hb (by rw [g5]; exact hstop) hm hq' hw' h1'
    (by rw [hl]; exact h2')
  refine ⟨g1, ?_, g3, g4, g5, f1, ?_⟩
  · rw [g6, hreg, hpre]; simp only [List.append_assoc]
  · rw [f6, hreg, hpre]; simp only [List.append_assoc]

theorem frame_output_idempotent_witness :
    (send_data (publish server_AB [0x41, 0x42, 0x0d, 0x0a]) ready_client
        (sock_of [] [wres.ok 12, wres.ok 2])).2.2.sent
      = [] ++ CURSOR_HOME ++ CURSOR_HOME ++ [0x41, 0x42, 0x0d, 0x0a].take 2 :=
  (frame_output_idempotent server_AB [0x41, 0x42, 0x0d, 0x0a] ready_client
    (sock_of [] [wres.ok 12, wres.ok 2]) (sock_of [] [wres.ok 12, wres.ok 2]) 12 2 12 2 [] []
    (by decide) (by decide) (by decide) (by decide) (by decide)
    (by intro b hb; simp [sock_of] at hb) rfl (by decide) (by decide)
    (by intro b hb; simp [sock_of] at hb) rfl (by decide) (by decide)).2.1

/-! ## The main loop -/

/-- C17: when `accept` returns a descriptor, the record handed to the first
`send_data` has `ready = 0`, `inbytes = 0`, `start = stop = 0`; if that
`send_data` returns non-zero the record is stored with `fd = -1` behind the
registered clients and `client_count` is unchanged, otherwise the record is
stored as `send_data` left it and `client_count` grows by exactly 1.  When
`accept` returns -1 nothing changes.  In every case `client_count` grows by at
most one and the registered clients are kept. -/
theorem registration_on_accept (st : state) (a : accepted) (e : sock) :
    (a.fd ≠ -1 →
      (new_client a.fd a.inbuf a.outbuf).fd = a.fd ∧
      (new_client a.fd a.inbuf a.outbuf).ready = 0 ∧
      (new_client a.fd a.inbuf a.outbuf).inbytes = 0 ∧
      (new_client a.fd a.inbuf a.outbuf).start = 0 ∧
      (new_client a.fd a.inbuf a.outbuf).stop = 0 ∧
      ((send_data st.frame (new_client a.fd a.inbuf a.outbuf) e).1 ≠ 0 →
        (manage_connections st a e).1.client_count = st.client_count ∧
        (manage_connections st a e).1.clients
          = st.clients.take st.client_count ++
            [{ (send_data st.frame (new_client a.fd a.inbuf a.outbuf) e).2.1 with fd := -1 }]) ∧
      ((send_data st.frame (new_client a.fd a.inbuf a.outbuf) e).1 = 0 →
        (manage_connections st a e).1.client_count = st.client_count + 1 ∧
        (manage_connections st a e).1.clients
          = st.clients.take st.client_count ++
            [(send_data st.frame (new_client a.fd a.inbuf a.outbuf) e).2.1])) ∧
    (a.fd = -1 → manage_connections st a e = (st, e)) ∧
    st.client_count ≤ (manage_connections st a e).1.client_count ∧
    (manage_connections st a e).1.client_count ≤ st.client_count + 1 ∧
    (manage_connections st a e).1.frame = st.frame := by
  refine ⟨?_, ?_, ?_, ?_, (manage_connections_frame st a e).1⟩
  · intro hfd
    refine ⟨rfl, rfl, rfl, rfl, rfl, ?_, ?_⟩
    · intro hret
      unfold manage_connections
      simp only [hfd, if_false]
      rcases hs : send_data st.frame (new_client a.fd a.inbuf a.outbuf) e with ⟨ret, c1, e1⟩
      rw [hs] at hret
      simp only at hret
      simp only [hret, ne_eq, not_false_eq_true, if_true, and_self]
    · intro hret
      unfold manage_connections
      simp only [hfd, if_false]
      rcases hs : send_data st.frame (new_client a.fd a.inbuf a.outbuf) e with ⟨ret, c1, e1⟩
      rw [hs] at hret
      simp only at hret
      simp only [hret, ne_eq, not_true_eq_false, if_false, and_self]
  · intro hfd
    unfold manage_connections
    simp only [hfd, if_true]
  · unfold manage_connections
    split
    · exact le_refl _
    · split
      split
      · exact le_refl _
      · exact Nat.le_succ _
  · unfold manage_connections
    split
    · exact Nat.le_succ _
    · split
      split
      · exact Nat.le_succ _
      · exact le_refl _

theorem registration_on_accept_witness :
    (manage_connections
        { frame := server_AB, input := [], clients := [], client_count := 0 }
        { fd := 7, inbuf := zeros, outbuf := zeros }
        (sock_of [] [wres.err (Errno.other 32)])).1.client_count = 0 ∧
    (manage_connections
        { frame := server_AB, input := [], clients := [], client_count := 0 }
        { fd := 7, inbuf := zeros, outbuf := zeros }
        (sock_of [] [wres.ok 50])).1.client_count = 1 :=
  have h1 := (registration_on_accept
    { frame := server_AB, input := [], clients := [], client_count := 0 }
    { fd := 7, inbuf := zeros, outbuf := zeros }
    (sock_of [] [wres.err (Errno.other 32)])).1 (by decide)
  have h2 := (registration_on_accept
    { frame := server_AB, input := [], clients := [], client_count := 0 }
    { fd := 7, inbuf := zeros, outbuf := zeros }
    (sock_of [] [wres.ok 50])).1 (by decide)
  ⟨(h1.2.2.2.2.2.1 (by decide)).1, (h2.2.2.2.2.2.2 (by decide)).1⟩

/-! ## The first occurrence of the magic token -/

/-- With every `read` delivering the bytes asked for: for every input stream in
which the magic token occurs, with `p` the least offset of an occurrence and the
16 bytes from `p` on present in the stream, the scan stops (any fuel of at least
`p` rounds is enough) with the window holding the stream bytes `p .. p+15` and
the input left being the stream from offset `p + 16` on. -/
theorem first_token_when_reads_are_full (s buf0 L : List Nat) (p fuel : Nat)
    (hbuf : 16 ≤ buf0.length) (hlen : p + 16 ≤ s.length)
    (hL : ∀ k ∈ L, 16 ≤ k)
    (hp : (s.drop p).take 4 = MAGIC)
    (hmin : ∀ i, i < p → (s.drop i).take 4 ≠ MAGIC)
    (hfuel : p ≤ fuel) :
    read_window fuel buf0 { bytes := s, limits := L } =
      some ((s.drop p).take 16 ++ buf0.drop 16,
            { bytes := s.drop (p + 16), limits := L.drop (p + 1) }) ∧
    s = s.take p ++ (s.drop p).take 16 ++ s.drop (p + 16) := by
  refine ⟨read_window_first p fuel s buf0 L hbuf hfuel hlen hL hmin hp, ?_⟩
  have h1 : s.drop (p + 16) = (s.drop p).drop 16 := by
    rw [List.drop_drop, Nat.add_comm]
  rw [h1, List.append_assoc, List.take_append_drop, List.take_append_drop]

/-- C18 (the code at the failing input): the stream is a well-formed 1 x 1 frame,
so the magic token occurs first at `p = 0`, and the first `read(0, buf, 16)`
delivers 4 bytes only.  `main` does not look at the count: the loop stops at
once with the window holding the token followed by the 12 bytes the buffer held
before, having consumed 4 bytes, not `p + 16 = 16`; the window is not the stream
bytes `0 .. 15`.  The width and the height are then taken from the stale
bytes. -/
theorem short_read_leaves_stale_window :
    (frame_1x1.drop 0).take 4 = MAGIC ∧
    read_window 100 (List.replicate 16 0) { bytes := frame_1x1, limits := [4] }
      = some ([0x43, 0x41, 0x43, 0x41] ++ List.replicate 12 0,
              { bytes := frame_1x1.drop 4, limits := [] }) ∧
    [0x43, 0x41, 0x43, 0x41] ++ List.replicate 12 0 ≠ (frame_1x1.drop 0).take 16 ∧
    frame_1x1.drop 4 ≠ frame_1x1.drop (0 + 16) ∧
    read_window 100 (List.replicate 16 0) { bytes := frame_1x1, limits := [] }
      = some ((frame_1x1.drop 0).take 16,
              { bytes := frame_1x1.drop (0 + 16), limits := [] }) := by
  decide

/-! ## nonblock_write -/

theorem nonblock_write_fuel (buf : Int → Nat) (len : Int) (e : sock) (fuel : Nat)
    (h : 2 ≤ fuel) : nonblock_write_loop buf len fuel 0 0 e = nonblock_write buf len e := by
  obtain ⟨f, rfl⟩ : ∃ f, fuel = f + 2 := ⟨fuel - 2, by omega⟩
  unfold nonblock_write
  unfold nonblock_write_loop
  by_cases h0 : 0 < len
  · simp only [h0, if_true]
    split
    · rfl
    · rfl
    · unfold nonblock_write_loop
      simp
  · simp only [h0, if_false]

theorem write_retry_intr (k : Nat) (ws : List wres) :
    write_retry (List.replicate k (wres.err Errno.EINTR) ++ ws) = write_retry ws := by
  induction k with
  | zero => rfl
  | succ k ih =>
    rw [List.replicate_succ, List.cons_append, write_retry]
    exact ih

theorem write_errno_intr (k : Nat) (ws : List wres) : ∀ en : Errno,
    write_errno (List.replicate k (wres.err Errno.EINTR) ++ ws) en =
      write_errno ws (if k = 0 then en else Errno.EINTR) := by
  induction k with
  | zero => intro en; rfl
  | succ k ih =>
    intro en
    rw [List.replicate_succ, List.cons_append, write_errno, ih]
    by_cases hk : k = 0
    · simp [hk]
    · simp [hk]

theorem write_retry_err (x : Errno) (ws : List wres) (hx : x ≠ Errno.EINTR) :
    write_retry (wres.err x :: ws) = (wres.err x, ws) := by
  cases x with
  | EINTR => exact absurd rfl hx
  | EAGAIN => rfl
  | other code => rfl

/-- C19: for every `len > 0` (at most `SSIZE_MAX`) and every list of results of
the `write` calls: the value returned is always -1, 0 or `len`.  After any
number `k` of interrupted calls, which are retried, `nonblock_write` returns -1
with the error in `errno` when the next call fails, 0 when it returns 0, and
`len` when it returns a positive count `c`, whatever `c` is; the bytes accepted
by the socket are then the first `min c len` of the buffer, so the value
returned is the number of bytes accepted only when `c = len`.  In the last two
cases `errno` is `EINTR` when a call was interrupted and unchanged otherwise.
When the list holds interrupted calls only, the call after it would block.  Two
rounds of the loop are always enough. -/
theorem nonblock_write_all_or_nothing (buf : Int → Nat) (len : Int) (e : sock)
    (h0 : 0 < len) (hmax : len < 9223372036854775808) :
    ((nonblock_write buf len e).1 = -1 ∨ (nonblock_write buf len e).1 = 0 ∨
      (nonblock_write buf len e).1 = len) ∧
    (∀ (k : Nat) (x : Errno) (ws : List wres), x ≠ Errno.EINTR →
      e.writes = List.replicate k (wres.err Errno.EINTR) ++ wres.err x :: ws →
      nonblock_write buf len e = (-1, { e with writes := ws, errno := x })) ∧
    (∀ (k : Nat) (ws : List wres),
      e.writes = List.replicate k (wres.err Errno.EINTR) ++ wres.ok 0 :: ws →
      nonblock_write buf len e =
        (0, { e with writes := ws,
                     errno := if k = 0 then e.errno else Errno.EINTR })) ∧
    (∀ (k c : Nat) (ws : List wres), 0 < c →
      e.writes = List.replicate k (wres.err Errno.EINTR) ++ wres.ok c :: ws →
      nonblock_write buf len e =
        (len, { e with writes := ws,
                       sent := e.sent ++ region buf 0 (min (c : Int) len),
                       errno := if k = 0 then e.errno else Errno.EINTR }) ∧
      ((c : Int) ≤ len →
        (region buf 0 (min (c : Int) len)).length = c ∧
        ((nonblock_write buf len e).1 = c ↔ (c : Int) = len))) ∧
    (∀ k : Nat, e.writes = List.replicate k (wres.err Errno.EINTR) →
      nonblock_write buf len e = (-1, { e with writes := [], errno := Errno.EAGAIN })) ∧
    (∀ fuel : Nat, 2 ≤ fuel →
      nonblock_write_loop buf len fuel 0 0 e = nonblock_write buf len e) := by
  have e1 : toInt64 len = len := by unfold toInt64; omega
  refine ⟨?_, ?_, ?_, ?_, ?_, nonblock_write_fuel buf len e⟩
  · have h := nonblock_write_ret buf len e
    rw [e1] at h
    exact h
  · intro k x ws hx hw
    rw [nonblock_write_eq, hw, write_retry_intr, write_retry_err x ws hx]
    simp only [h0, if_true]
  · intro k ws hw
    rw [nonblock_write_eq, hw, write_retry_intr, write_errno_intr]
    simp only [h0, if_true]
    rfl
  · intro k c ws hc hw
    obtain ⟨n, rfl⟩ : ∃ n, c = n + 1 := ⟨c - 1, by omega⟩
    have hn : nonblock_write buf len e
        = (len, { e with writes := ws,
                         sent := e.sent ++ region buf 0 (min (((n + 1 : Nat) : Int)) len),
                         errno := if k = 0 then e.errno else Errno.EINTR }) := by
      rw [nonblock_write_eq, hw, write_retry_intr, write_errno_intr]
      simp only [h0, if_true, e1]
      push_cast
      rfl
    refine ⟨hn, ?_⟩
    intro hle
    rw [hn]
    constructor
    · rw [region_length]
      push_cast at hle ⊢
      omega
    · simp only
      constructor <;> intro h <;> omega
  · intro k hw
    have hw2 : e.writes = List.replicate k (wres.err Errno.EINTR) ++ [] := by
      rw [hw, List.append_nil]
    rw [nonblock_write_eq, hw2, write_retry_intr]
    simp only [h0, if_true]
    rfl

theorem nonblock_write_all_or_nothing_witness :
    (0 : Int) < 12 ∧
    nonblock_write (mem ANSI_PREFIX) 12
        (sock_of [] [wres.err Errno.EINTR, wres.err Errno.EINTR, wres.ok 5]) =
      (12, { sock_of [] [wres.err Errno.EINTR, wres.err Errno.EINTR, wres.ok 5] with
              writes := [],
              sent := [] ++ region (mem ANSI_PREFIX) 0 (min ((5 : Nat) : Int) 12),
              errno := Errno.EINTR }) ∧
    nonblock_write (mem ANSI_PREFIX) 12 (sock_of [] [wres.err Errno.EINTR, wres.ok 0]) =
      (0, { sock_of [] [wres.err Errno.EINTR, wres.ok 0] with
              writes := [], errno := Errno.EINTR }) :=
  ⟨by decide,
   ((nonblock_write_all_or_nothing (mem ANSI_PREFIX) 12
      (sock_of [] [wres.err Errno.EINTR, wres.err Errno.EINTR, wres.ok 5])
      (by decide) (by decide)).2.2.2.1 2 5 [] (by decide) rfl).1,
   (nonblock_write_all_or_nothing (mem ANSI_PREFIX) 12
      (sock_of [] [wres.err Errno.EINTR, wres.ok 0])
      (by decide) (by decide)).2.2.1 1 [] rfl⟩

/-! ## Stream integrity -/

/-- C20 (the code at the failing input): a ready client with an empty backlog, a
published frame of 2^31 bytes, a socket that accepts all 12 bytes of
`ANSI_PREFIX` and on which the write of the frame would block.  The test
`ret < (int)server->buflen` compares 0 with -2^31, so `send_data` returns 0 with
nothing queued and no reset: the socket has accepted the 12 bytes of
`ANSI_PREFIX`, the pending region is empty, and the 2^31 bytes of the frame are
in neither. -/
theorem huge_frame_dropped_without_reset :
    server_2G.buflen = 2147483648 ∧ toInt32 server_2G.buflen = -2147483648 ∧
    (send_data server_2G ready_client (sock_of [] [wres.ok 12])).1 = 0 ∧
    (send_data server_2G ready_client (sock_of [] [wres.ok 12])).2.2.sent = ANSI_PREFIX ∧
    (send_data server_2G ready_client (sock_of [] [wres.ok 12])).2.1.start = 0 ∧
    (send_data server_2G ready_client (sock_of [] [wres.ok 12])).2.1.stop = 0 ∧
    pending (send_data server_2G ready_client (sock_of [] [wres.ok 12])).2.1 = [] ∧
    pending (send_data server_2G ready_client (sock_of [] [wres.ok 12])).2.1 ≠ ANSI_RESET := by
  decide

theorem all_or_nothing_cases (ws : List wres) (h : all_or_nothing ws) :
    ((write_retry ws).1 = wres.err Errno.EAGAIN) ∨
    ∃ (k : Nat) (ws' : List wres), ws = wres.ok k :: ws' ∧ OUTBUFFER ≤ (k : Int) ∧
      all_or_nothing ws' := by
  cases ws with
  | nil => left; rfl
  | cons w ws' =>
    rcases h w (List.mem_cons_self _ _) with hw | ⟨k, hw, hk⟩
    · left; subst hw; rfl
    · right
      exact ⟨k, ws', by rw [hw], hk, fun w' hw' => h w' (List.mem_cons_of_mem _ hw')⟩

theorem pending_empty (c : client) (h : c.stop = c.start) : pending c = [] := by
  unfold pending region
  rw [h]
  simp

theorem send_new_blocked_sent (srv : server) (c : client) (e : sock) (hstop : c.stop = 0)
    (hfit : 12 + (srv.buflen : Int) ≤ OUTBUFFER)
    (hblock : (write_retry e.writes).1 = wres.err Errno.EAGAIN) :
    (send_new srv c e).1 = 0 ∧ (send_new srv c e).2.1 = append_frame srv c ∧
    (send_new srv c e).2.2.sent = e.sent := by
  have hw := write_retry_blocked (mem ANSI_PREFIX) 12 e (by decide) (Or.inl hblock)
  have hu : ¬ toU64 (12 + (srv.buflen : Int)) > OUTBUFFER := by
    unfold toU64; simp only [OUTBUFFER] at hfit ⊢; omega
  have e1 : toU64 (12 - 0) = 12 := by decide
  have e2 : toInt32 12 = 12 := by decide
  have e3 : toInt32 (toU64 (0 + 12)) = 12 := by decide
  unfold send_new
  simp only [strlen_ANSI_PREFIX]
  generalize nonblock_write (mem ANSI_PREFIX) 12 e = w at hw
  obtain ⟨ret0, e1'⟩ := w
  simp only at hw
  simp only [hw.1, show (0 : Int) < 12 by decide, if_true, hu, if_false, e1, e2]
  refine ⟨trivial, ?_, hw.2.1⟩
  simp only [append_frame, hstop, strlen_ANSI_PREFIX, e3]

theorem send_new_frame_blocked (srv : server) (c : client) (e : sock) (k : Nat)
    (ws : List wres) (hk : 12 ≤ k) (hpos : 0 < srv.buflen)
    (hfit : 12 + (srv.buflen : Int) ≤ OUTBUFFER)
    (hw : e.writes = wres.ok k :: ws)
    (hblock : (write_retry ws).1 = wres.err Errno.EAGAIN) :
    (send_new srv c e).1 = 0 ∧ (send_new srv c e).2.2.sent = e.sent ++ ANSI_PREFIX ∧
    (send_new srv c e).2.1 =
      { c with outbuf := memcpy c.outbuf 0 srv.bufdata srv.buflen, stop := srv.buflen } := by
  have hr1 : write_retry e.writes = (wres.ok k, ws) := by
    have hk0 : k ≠ 0 := by omega
    rw [hw]; rfl
  have hn1 := nonblock_write_accepted (mem ANSI_PREFIX) 12 e k ws (by decide) (by decide) hr1
    (by omega)
  rw [show write_errno e.writes e.errno = e.errno by rw [hw]; rfl] at hn1
  have hb := write_retry_blocked srv.bufdata srv.buflen
    { e with writes := ws, sent := e.sent ++ region (mem ANSI_PREFIX) 0 12 } (by omega)
    (Or.inl hblock)
  have t1 : toInt32 (srv.buflen : Int) = srv.buflen := by
    unfold toInt32; simp only [OUTBUFFER] at hfit; omega
  have t2 : toU64 ((srv.buflen : Int) - 0) = srv.buflen := by
    unfold toU64; simp only [OUTBUFFER] at hfit; omega
  have t3 : ¬ ((srv.buflen : Int) > OUTBUFFER) := by omega
  unfold send_new
  rw [strlen_ANSI_PREFIX, hn1]
  simp only [eagain_ret, show ¬ ((12 : Int) = -1) by decide, if_false,
    show ¬ ((12 : Int) < 12) by decide]
  generalize nonblock_write srv.bufdata (srv.buflen : Int)
    { e with writes := ws, sent := e.sent ++ region (mem ANSI_PREFIX) 0 12 } = w at hb
  obtain ⟨ret1, e2⟩ := w
  simp only at hb
  have hb1 := hb.1
  simp only [eagain_ret] at hb1
  simp only [hb1, t1, t2, t3, if_false]
  have hlt : (0 : Int) < srv.buflen := by omega
  simp only [hlt, if_true]
  refine ⟨trivial, ?_, trivial⟩
  rw [hb.2.1, region_prefix_mem]

theorem send_new_integrity (srv : server) (c : client) (e : sock) (hstart : c.start = 0)
    (hstop : c.stop = 0) (hfit : 12 + (srv.buflen : Int) ≤ OUTBUFFER)
    (hw : all_or_nothing e.writes) :
    (send_new srv c e).1 = 0 ∧ (send_new srv c e).2.1.start = 0 ∧
    0 ≤ (send_new srv c e).2.1.stop ∧
    (send_new srv c e).2.2.sent ++ pending (send_new srv c e).2.1
      = e.sent ++ ANSI_PREFIX ++ region srv.bufdata 0 srv.buflen := by
  have hp0 : pending c = [] := pending_empty c (by rw [hstart, hstop])
  rcases all_or_nothing_cases e.writes hw with hb | ⟨k, ws, hws, hk, hw'⟩
  · obtain ⟨g1, g2, g3⟩ := send_new_blocked_sent srv c e hstop hfit hb
    obtain ⟨f1, f2, f3⟩ := pending_append_frame srv c (by omega) (by omega)
      (by rw [hstop]; simpa using hfit)
    rw [g1, g2, g3, f1, f2, f3, hp0]
    refine ⟨rfl, hstart, by omega, ?_⟩
    simp only [List.nil_append, List.append_assoc]
  · have hk12 : 12 ≤ k := by simp only [OUTBUFFER] at hk; omega
    by_cases hz : srv.buflen = 0
    · have hr1 : write_retry e.writes = (wres.ok k, ws) := by
        have hk0 : k ≠ 0 := by omega
        rw [hws]; rfl
      have hn1 := nonblock_write_accepted (mem ANSI_PREFIX) 12 e k ws (by decide) (by decide)
        hr1 (by omega)
      rw [show write_errno e.writes e.errno = e.errno by rw [hws]; rfl] at hn1
      have hn2 : nonblock_write srv.bufdata (srv.buflen : Int)
          { e with writes := ws, sent := e.sent ++ region (mem ANSI_PREFIX) 0 12 }
          = (0, { e with writes := ws, sent := e.sent ++ region (mem ANSI_PREFIX) 0 12 }) := by
        rw [nonblock_write_eq, hz]; simp
      have hs : send_new srv c e
          = (0, c, { e with writes := ws, sent := e.sent ++ region (mem ANSI_PREFIX) 0 12 }) := by
        unfold send_new
        rw [strlen_ANSI_PREFIX, hn1]
        simp only [eagain_ret, show ¬ ((12 : Int) = -1) by decide, if_false,
          show ¬ ((12 : Int) < 12) by decide]
        rw [hn2]
        simp only [show ¬ ((0 : Int) = -1) by decide, if_false, hz]
        simp [toInt32]
      rw [hs]
      simp only
      rw [hp0, region_prefix_mem, hz]
      refine ⟨trivial, hstart, by omega, ?_⟩
      simp [region]
    · rcases all_or_nothing_cases ws hw' with hb | ⟨k2, ws2, hws2, hk2, -⟩
      · obtain ⟨g1, g2, g3⟩ := send_new_frame_blocked srv c e k ws hk12 (by omega) hfit hws hb
        rw [g1, g2, g3]
        refine ⟨rfl, hstart, by simp, ?_⟩
        have hpend : pending ({ c with outbuf := memcpy c.outbuf 0 srv.bufdata srv.buflen,
                                       stop := srv.buflen } : client)
            = region srv.bufdata 0 srv.buflen := by
          unfold pending
          simp only [hstart]
          have h := region_src c.outbuf srv.bufdata 0 srv.buflen
          simpa using h
        rw [hpend]
      · obtain ⟨g1, g2, g3⟩ := send_new_accepted srv c e k k2 ws2
          (by simp only [OUTBUFFER] at hfit; omega) (by rw [hws, hws2]) hk12
          (by simp only [OUTBUFFER] at hfit hk2; omega)
        rw [g1, g2, g3, hp0]
        refine ⟨rfl, hstart, by omega, ?_⟩
        simp

theorem send_backlog_integrity (srv : server) (c : client) (e : sock) (hstart : c.start = 0)
    (hstop : 0 ≤ c.stop) (hfit : c.stop + 12 + (srv.buflen : Int) ≤ OUTBUFFER)
    (hw : all_or_nothing e.writes) :
    (send_backlog srv c e).1 = 0 ∧ (send_backlog srv c e).2.1.start = 0 ∧
    0 ≤ (send_backlog srv c e).2.1.stop ∧
    (send_backlog srv c e).2.2.sent ++ pending (send_backlog srv c e).2.1
      = e.sent ++ pending c ++ ANSI_PREFIX ++ region srv.bufdata 0 srv.buflen := by
  by_cases h0 : c.stop = 0
  · have hs : send_backlog srv c e = send_new srv c e := by
      unfold send_backlog; simp [h0]
    have hp0 : pending c = [] := pending_empty c (by rw [hstart, h0])
    rw [hs, hp0, List.append_nil]
    exact send_new_integrity srv c e hstart h0 (by rw [h0] at hfit; simpa using hfit) hw
  · have hinv : buf_inv c := by
      simp only [buf_inv, OUTBUFFER] at hfit ⊢; omega
    rcases all_or_nothing_cases e.writes hw with hb | ⟨k, ws, hws, hk, hw'⟩
    · obtain ⟨g1, g2, g3⟩ := send_backlog_blocked srv c e hinv (by omega) (Or.inl hb)
      have hu1 : ¬ toU64 (c.stop - c.start + 12 + srv.buflen) > OUTBUFFER := by
        unfold toU64; simp only [OUTBUFFER] at hfit ⊢; omega
      have hu2 : ¬ toU64 (c.stop + 12 + srv.buflen) > OUTBUFFER := by
        unfold toU64; simp only [OUTBUFFER] at hfit ⊢; omega
      rw [if_neg hu1, if_neg hu2] at g3
      obtain ⟨f1, f2, f3⟩ := pending_append_frame srv c (by omega) (by omega) hfit
      rw [g1, g2, g3, f1, f2, f3]
      refine ⟨rfl, hstart, by omega, ?_⟩
      simp only [List.append_assoc]
    · have hlen : toU64 (c.stop - c.start) = c.stop := by
        unfold toU64; simp only [OUTBUFFER] at hfit; omega
      have hr1 : write_retry e.writes = (wres.ok k, ws) := by
        have hk0 : k ≠ 0 := by simp only [OUTBUFFER] at hk; omega
        rw [hws]; rfl
      have hn1 := nonblock_write_accepted (fun i => c.outbuf (c.start + i)) c.stop e k ws
        (by omega) (by simp only [OUTBUFFER] at hfit; omega) hr1
        (by simp only [OUTBUFFER] at hfit hk; omega)
      rw [show write_errno e.writes e.errno = e.errno by rw [hws]; rfl] at hn1
      have hreg : region (fun i => c.outbuf (c.start + i)) 0 c.stop = pending c := by
        unfold pending
        rw [hstart]
        apply region_ext
        intro i _ _
        simp
      have hs : send_backlog srv c e
          = send_new srv { c with start := 0, stop := 0 }
              { e with writes := ws, sent := e.sent ++ pending c } := by
        unfold send_backlog
        simp only [h0, ne_eq, not_false_eq_true, if_true, hlen]
        rw [hn1, hreg]
        have hne : ¬ (c.stop = -1) := by omega
        simp only [eagain_ret, hne, if_false, hstart, sub_zero, if_true]
      rw [hs]
      exact send_new_integrity srv { c with start := 0, stop := 0 }
        { e with writes := ws, sent := e.sent ++ pending c } rfl rfl (by omega) hw'

theorem tick_integrity (t : server × sock) (c : client) (acc : List Nat) (hfd : 0 ≤ c.fd)
    (hready : c.ready ≠ 0) (hstart : c.start = 0) (hstop : 0 ≤ c.stop)
    (ht : integrity_tick t) (hfit : c.stop + 12 + (t.1.buflen : Int) ≤ OUTBUFFER) :
    (send_data t.1 c { t.2 with sent := acc }).1 = 0 ∧
    (send_data t.1 c { t.2 with sent := acc }).2.1.fd = c.fd ∧
    (send_data t.1 c { t.2 with sent := acc }).2.1.ready = c.ready ∧
    (send_data t.1 c { t.2 with sent := acc }).2.1.start = 0 ∧
    0 ≤ (send_data t.1 c { t.2 with sent := acc }).2.1.stop ∧
    (send_data t.1 c { t.2 with sent := acc }).2.2.sent
        ++ pending (send_data t.1 c { t.2 with sent := acc }).2.1
      = acc ++ pending c ++ ANSI_PREFIX ++ region t.1.bufdata 0 t.1.buflen := by
  obtain ⟨hbuf, hws, hrs⟩ := ht
  obtain ⟨c1, e1, hsd, hf1, hr1, hout, hs1, hp1, hwr, hse⟩ :=
    send_data_ready t.1 c { t.2 with sent := acc } hfd hready hbuf (listen_quiet _ _ _ hrs)
  obtain ⟨g1, g2, g3, g4⟩ := send_backlog_integrity t.1 c1 e1 (by rw [hs1, hstart])
    (by rw [hp1]; exact hstop) (by rw [hp1]; exact hfit) (by rw [hwr]; exact hws)
  have hb := send_backlog_fd t.1 c1 e1
  have hpc : pending c1 = pending c := by unfold pending; rw [hout, hs1, hp1]
  rw [hsd]
  refine ⟨g1, by rw [hb.1, hf1], by rw [hb.2, hr1], g2, g3, ?_⟩
  rw [g4, hse, hpc]

theorem ticks_sent_integrity (ts : List (server × sock)) : ∀ (c : client) (acc : List Nat),
    0 ≤ c.fd → c.ready ≠ 0 → c.start = 0 → 0 ≤ c.stop → (∀ t ∈ ts, integrity_tick t) →
    fits_run c acc ts →
    (ticks_sent c acc ts).2 ++ pending (ticks_sent c acc ts).1
      = acc ++ pending c ++ queued_bytes ts := by
  induction ts with
  | nil =>
    intro c acc _ _ _ _ _ _
    simp [ticks_sent, queued_bytes]
  | cons t0 ts ih =>
    intro c acc hfd hready hstart hstop hts hfit
    obtain ⟨srv, e⟩ := t0
    simp only [fits_run] at hfit
    obtain ⟨hf0, hf1⟩ := hfit
    obtain ⟨-, g2, g3, g4, g5, g6⟩ := tick_integrity (srv, e) c acc hfd hready hstart hstop
      (hts _ (List.mem_cons_self _ _)) (by simp only; rw [hstart] at hf0; omega)
    simp only at g2 g3 g4 g5 g6
    have h := ih (send_data srv c { e with sent := acc }).2.1
      (send_data srv c { e with sent := acc }).2.2.sent (by rw [g2]; exact hfd)
      (by rw [g3]; exact hready) g4 g5 (fun t ht => hts t (List.mem_cons_of_mem _ ht)) hf1
    simp only [ticks_sent, queued_bytes]
    rw [h, ← List.append_assoc, g6]
    simp only [List.append_assoc]

/-- Stream integrity where the frames fit: for a live ready client starting with
an empty backlog and a run of ticks with all-or-nothing writes in which, at every
tick, the backlog, `ANSI_PREFIX` and the frame fit the buffer together, the bytes
accepted by the socket followed by the pending region are the `ANSI_PREFIX ++ frame`
of all ticks in tick order. -/
theorem stream_integrity_when_fits (c : client) (ts : List (server × sock))
    (hfd : 0 ≤ c.fd) (hready : c.ready ≠ 0) (hstart : c.start = 0) (hstop : c.stop = 0)
    (hts : ∀ t ∈ ts, integrity_tick t) (hfit : fits_run c [] ts) :
    (ticks_sent c [] ts).2 ++ pending (ticks_sent c [] ts).1 = queued_bytes ts := by
  have h := ticks_sent_integrity ts c [] hfd hready hstart (by omega) hts hfit
  rw [h, pending_empty c (by rw [hstart, hstop])]
  rfl

/-- The interrupt, for every client: when the filter is idle and the first
inbound byte is 0x03, `send_data` returns -1 with nothing written and no `write`
result consumed, and the caller sets `fd = -1`. -/
theorem lone_interrupt_quits (srv : server) (c : client) (e : sock) (b : Nat)
    (rest : List rres) (hfd : 0 ≤ c.fd) (hidle : c.inbytes = 0)
    (hread : e.reads = rres.byte b :: rest) (hb : b % 256 = 3) :
    (send_data srv c e).1 = -1 ∧ (send_data srv c e).2.2.sent = e.sent ∧
    (send_data srv c e).2.2.writes = e.writes ∧ (serve_client srv c e).1.fd = -1 := by
  have hstep : (telnet_step c b).1 = true := by
    have hu : Function.update c.inbuf c.inbytes (b % 256) 0 = 3 := by
      rw [hidle, Function.update_same, hb]
    unfold telnet_step
    simp only [hu, hidle]
    simp
  have hsd : (send_data srv c e).1 = -1 ∧ (send_data srv c e).2.2.sent = e.sent ∧
      (send_data srv c e).2.2.writes = e.writes := by
    unfold send_data
    have h : ¬ c.fd < 0 := by omega
    simp only [h, if_false, hread, listen]
    rcases hs : telnet_step c b with ⟨q, c1⟩
    rw [hs] at hstep
    simp only at hstep
    subst hstep
    exact ⟨rfl, rfl, rfl⟩
  refine ⟨hsd.1, hsd.2.1, hsd.2.2, ?_⟩
  exact serve_client_fatal srv c e (by omega) (by rw [hsd.1]; decide)

/-! ## The backlog test -/

theorem send_new_start (srv : server) (c : client) (e : sock) (h : c.start = 0) :
    (send_new srv c e).2.1.start = 0 := by
  unfold send_new
  split
  split
  · exact h
  · split
    · split
      · rfl
      · exact h
    · split
      split
      · exact h
      · split
        · split
          · rfl
          · exact h
        · exact h

theorem send_backlog_start (srv : server) (c : client) (e : sock) (hinv : buf_inv c)
    (h : c.start = 0) : (send_backlog srv c e).2.1.start = 0 := by
  unfold send_backlog
  split
  · have hr := nonblock_write_ret (fun i => c.outbuf (c.start + i)) (toU64 (c.stop - c.start)) e
    generalize nonblock_write (fun i => c.outbuf (c.start + i)) (toU64 (c.stop - c.start)) e = w
      at hr
    obtain ⟨ret0, e1⟩ := w
    simp only
    split
    · exact h
    · next ret hret =>
      have hc := eagain_ret_cases _ _ _ hret
      split
      · exact send_new_start srv _ e1 rfl
      · dsimp only
        split
        · rfl
        · split
          · rfl
          · simp only [append_frame]
            simp only [buf_inv, toInt32, toU64, toInt64, OUTBUFFER] at *
            omega
  · exact send_new_start srv c e h

theorem send_init_start (srv : server) (c : client) (e : sock) (hinv : buf_inv c)
    (h : c.start = 0) : (send_init srv c e).2.1.start = 0 := by
  unfold send_init
  split
  · split
    split
    · exact h
    · split
      · exact h
      · split
        · exact send_backlog_start srv _ _ hinv h
        · exact h
  · split
    · exact send_backlog_start srv c e hinv h
    · exact h

theorem send_data_start (srv : server) (c : client) (e : sock) (hinv : buf_inv c)
    (h : c.start = 0) : (send_data srv c e).2.1.start = 0 := by
  unfold send_data
  have hl := listen_out e.reads c e.errno
  split
  · exact h
  · split
    · next c1 en rs hc1 =>
      rw [hc1] at hl
      simp only at hl ⊢
      rw [hl.2.2.2.1]; exact h
    · next c1 en rs hc1 =>
      rw [hc1] at hl
      simp only at hl
      apply send_init_start
      · simp only [buf_inv, hl.2.2.2.1, hl.2.2.2.2]; exact hinv
      · rw [hl.2.2.2.1]; exact h

theorem reachable_start (c : client) (h : reachable c) : c.start = 0 := by
  induction h with
  | accept fd inbuf outbuf => rfl
  | send srv c e hc ih => exact send_data_start srv c e (reachable_inv c hc) ih
  | retire c _ ih => exact ih

/-- C21: on every client state reachable from a freshly accepted client through
`send_data` (and the caller's `fd = -1`), `stop = 0` implies `start = 0` and
`stop > 0` implies `start < stop`; so the test `stop != 0` of the code holds
exactly when the pending region is non-empty, `start < stop`.  On these states
`start` is in fact always 0. -/
theorem backlog_test_agrees (c : client) (h : reachable c) :
    (c.stop = 0 → c.start = 0) ∧ (0 < c.stop → c.start < c.stop) ∧
    (c.stop ≠ 0 ↔ c.start < c.stop) ∧ c.start = 0 := by
  have h0 := reachable_start c h
  have hinv := reachable_inv c h
  simp only [buf_inv] at hinv
  refine ⟨fun _ => h0, fun hp => by omega, ?_, h0⟩
  constructor
  · intro hne; omega
  · intro hlt; omega

theorem backlog_test_agrees_witness :
    ((send_data server_AB (new_client 5 zeros zeros) (sock_of [] [wres.ok 50])).2.1.stop ≠ 0 ↔
      (send_data server_AB (new_client 5 zeros zeros) (sock_of [] [wres.ok 50])).2.1.start
        < (send_data server_AB (new_client 5 zeros zeros) (sock_of [] [wres.ok 50])).2.1.stop) :=
  (backlog_test_agrees _ (reachable.send server_AB (new_client 5 zeros zeros)
    (sock_of [] [wres.ok 50]) (reachable.accept 5 zeros zeros))).2.2.1

/-! ## The inbound scratch buffer -/

theorem telnet_step_accum (seen : List Nat) (c : client) (b : Nat) (h : accum_inv seen c)
    (hq : (telnet_step c b).1 = false) : accum_inv (seen ++ [b]) (telnet_step c b).2 := by
  obtain ⟨hf, hlen, hbuf⟩ := h
  have hidle : ∀ c' : client, c'.inbytes = 0 → accum_inv (seen ++ [b]) c' := by
    intro c' h0
    refine ⟨Or.inl h0, by rw [h0]; simp, ?_⟩
    intro j hj
    rw [h0] at hj
    omega
  rcases hf with h0 | ⟨h1, hff⟩ | ⟨h2, hff, hv⟩
  · -- nothing accumulated: the byte goes to inbuf[0]
    have hu : Function.update c.inbuf c.inbytes (b % 256) 0 = b % 256 := by
      rw [h0, Function.update_same]
    unfold telnet_step at hq ⊢
    simp only [hu, h0, zero_add] at hq ⊢
    by_cases hb : b % 256 = 255
    · rw [if_pos hb]
      refine ⟨Or.inr (Or.inl ⟨rfl, ?_⟩), by simp, ?_⟩
      · show Function.update c.inbuf 0 (b % 256) 0 = 255
        rw [Function.update_same]; exact hb
      · intro j hj
        have hj0 : j = 0 := by
          have : (j : Int) < 1 := hj
          omega
        subst hj0
        show Function.update c.inbuf 0 (b % 256) 0
          = (seen ++ [b]).getD ((seen ++ [b]).length - 1 + 0) 0 % 256
        rw [Function.update_same, List.getD_append_right _ _ _ _ (by simp)]
        simp
    · rw [if_neg hb] at hq ⊢
      by_cases h3 : b % 256 = 3
      · simp only [h3, if_true] at hq
        exact absurd hq (by simp)
      · simp only [h3, if_false]
        exact hidle _ rfl
  · -- 0xff accumulated: the byte goes to inbuf[1]
    have hu0 : Function.update c.inbuf c.inbytes (b % 256) 0 = 255 := by
      rw [h1, Function.update_noteq (by decide)]; exact hff
    have hu1 : Function.update c.inbuf c.inbytes (b % 256) 1 = b % 256 := by
      rw [h1, Function.update_same]
    have hl1 : 1 ≤ seen.length := by rw [h1] at hlen; simpa using hlen
    unfold telnet_step
    simp only [hu0, hu1, h1, if_true]
    simp only [show ¬ ((1 : Int) + 1 = 1) by decide, if_false,
      show ¬ ((1 : Int) + 1 = 3) by decide]
    by_cases hverb : b % 256 = 253 ∨ b % 256 = 252
    · simp only [hverb, if_true]
      refine ⟨Or.inr (Or.inr ⟨rfl, ?_, ?_⟩), by simp; omega, ?_⟩
      · show Function.update c.inbuf 1 (b % 256) 0 = 255
        rw [Function.update_noteq (by decide)]; exact hff
      · show Function.update c.inbuf 1 (b % 256) 1 = 253 ∨ Function.update c.inbuf 1 (b % 256) 1 = 252
        rw [Function.update_same]; exact hverb
      · intro j hj
        have hj2 : j = 0 ∨ j = 1 := by
          have : (j : Int) < 1 + 1 := hj
          omega
        rcases hj2 with rfl | rfl
        · show Function.update c.inbuf 1 (b % 256) 0
            = (seen ++ [b]).getD ((seen ++ [b]).length - 2 + 0) 0 % 256
          have hold : c.inbuf 0 = seen.getD (seen.length - 1 + 0) 0 % 256 := by
            have h := hbuf 0 (by rw [h1]; decide)
            rw [h1] at h
            exact h
          rw [Function.update_noteq (by decide), hold, List.length_append,
            List.length_singleton, List.getD_append _ _ _ _ (by omega)]
          have e : seen.length + 1 - 2 + 0 = seen.length - 1 + 0 := by omega
          rw [e]
        · show Function.update c.inbuf 1 (b % 256) 1
            = (seen ++ [b]).getD ((seen ++ [b]).length - 2 + 1) 0 % 256
          rw [Function.update_same, List.length_append, List.length_singleton,
            List.getD_append_right _ _ _ _ (by omega)]
          have e : seen.length + 1 - 2 + 1 - seen.length = 0 := by omega
          rw [e]
          rfl
    · simp only [hverb, if_false]
      exact hidle _ rfl
  · -- 0xff and a verb accumulated: the third byte ends the sequence
    have hu0 : Function.update c.inbuf c.inbytes (b % 256) 0 = 255 := by
      rw [h2, Function.update_noteq (by decide)]; exact hff
    have hu1 : Function.update c.inbuf c.inbytes (b % 256) 1 = 253 ∨
        Function.update c.inbuf c.inbytes (b % 256) 1 = 252 := by
      rw [h2, Function.update_noteq (by decide)]; exact hv
    unfold telnet_step
    simp only [hu0, hu1, h2, if_true]
    simp only [show ¬ ((2 : Int) + 1 = 1) by decide, if_false,
      show ((2 : Int) + 1 = 3) by decide, if_true]
    exact hidle _ rfl

theorem filter_inv_accum (c : client) (h : filter_inv c) : ∃ seen, accum_inv seen c := by
  rcases h with h0 | ⟨h1, hff⟩ | ⟨h2, hff, hv⟩
  · refine ⟨[], Or.inl h0, by rw [h0]; simp, ?_⟩
    intro j hj
    rw [h0] at hj; omega
  · refine ⟨[255], Or.inr (Or.inl ⟨h1, hff⟩), by rw [h1]; simp, ?_⟩
    intro j hj
    rw [h1] at hj ⊢
    have hj0 : j = 0 := by omega
    subst hj0
    exact hff
  · rcases hv with hv | hv
    · refine ⟨[255, 253], Or.inr (Or.inr ⟨h2, hff, Or.inl hv⟩), by rw [h2]; simp, ?_⟩
      intro j hj
      rw [h2] at hj ⊢
      have hj2 : j = 0 ∨ j = 1 := by omega
      rcases hj2 with rfl | rfl
      · exact hff
      · exact hv
    · refine ⟨[255, 252], Or.inr (Or.inr ⟨h2, hff, Or.inr hv⟩), by rw [h2]; simp, ?_⟩
      intro j hj
      rw [h2] at hj ⊢
      have hj2 : j = 0 ∨ j = 1 := by omega
      rcases hj2 with rfl | rfl
      · exact hff
      · exact hv

theorem telnet_step_filter (c : client) (b : Nat) (h : filter_inv c)
    (hq : (telnet_step c b).1 = false) : filter_inv (telnet_step c b).2 := by
  obtain ⟨seen, hs⟩ := filter_inv_accum c h
  exact (telnet_step_accum seen c b hs hq).1

theorem feed_points_accum (bs : List Nat) : ∀ (c : client) (seen : List Nat),
    accum_inv seen c → ∀ p ∈ feed_points bs c seen, accum_inv p.1 p.2 := by
  induction bs with
  | nil =>
    intro c seen h p hp
    simp only [feed_points, List.mem_singleton] at hp
    rw [hp]; exact h
  | cons b bs ih =>
    intro c seen h p hp
    simp only [feed_points, List.mem_cons] at hp
    rcases hp with hp | hp
    · rw [hp]; exact h
    · rcases hs : telnet_step c b with ⟨q, c1⟩
      rw [hs] at hp
      cases q with
      | true => simp at hp
      | false =>
        have hstep := telnet_step_accum seen c b h (by rw [hs])
        rw [hs] at hstep
        exact ih c1 (seen ++ [b]) hstep p hp

theorem read_points_filter (rs : List rres) : ∀ (c : client), filter_inv c →
    ∀ s ∈ read_points rs c, filter_inv s := by
  induction rs with
  | nil =>
    intro c h s hs
    simp only [read_points, List.mem_singleton] at hs
    rw [hs]; exact h
  | cons r rs ih =>
    intro c h s hs
    cases r with
    | eof =>
      simp only [read_points, List.mem_singleton] at hs
      rw [hs]; exact h
    | err x =>
      simp only [read_points, List.mem_singleton] at hs
      rw [hs]; exact h
    | byte b =>
      simp only [read_points, List.mem_cons] at hs
      rcases hs with hs | hs
      · rw [hs]; exact h
      · rcases ht : telnet_step c b with ⟨q, c1⟩
        rw [ht] at hs
        cases q with
        | true => simp at hs
        | false =>
          have hstep := telnet_step_filter c b h (by rw [ht])
          rw [ht] at hstep
          exact ih c1 hstep s hs

theorem listen_filter (rs : List rres) : ∀ (c : client) (en : Errno), filter_inv c →
    (listen rs c en).1 = false → filter_inv (listen rs c en).2.1 := by
  induction rs with
  | nil => intro c en h _; exact h
  | cons r rs ih =>
    intro c en h hq
    cases r with
    | eof => exact h
    | err x => exact h
    | byte b =>
      unfold listen at hq ⊢
      have hstep := telnet_step_filter c b h
      generalize telnet_step c b = t at hq hstep ⊢
      obtain ⟨q, c1⟩ := t
      cases q with
      | true => simp at hq
      | false => exact ih c1 en (hstep rfl) hq

theorem feed_points_seen (bs : List Nat) : ∀ (c : client) (seen : List Nat),
    ∀ p ∈ feed_points bs c seen, ∃ k, p.1 = seen ++ bs.take k := by
  induction bs with
  | nil =>
    intro c seen p hp
    simp only [feed_points, List.mem_singleton] at hp
    exact ⟨0, by rw [hp]; simp⟩
  | cons b bs ih =>
    intro c seen p hp
    simp only [feed_points, List.mem_cons] at hp
    rcases hp with hp | hp
    · exact ⟨0, by rw [hp]; simp⟩
    · generalize telnet_step c b = t at hp
      obtain ⟨q, c1⟩ := t
      cases q with
      | true => simp at hp
      | false =>
        obtain ⟨k, hk⟩ := ih c1 (seen ++ [b]) p hp
        exact ⟨k + 1, by rw [hk]; simp⟩

/-- C22: the inbound scratch buffer is never indexed out of range. For every
byte sequence `bs` fed to a client whose `inbytes` is 0, at every point where a
byte is about to be read the bytes consumed so far are a prefix of `bs`,
`inbytes` is 0, 1 or 2, hence below `INBUFFER`, and `inbuf[0 .. inbytes)` holds
the last `inbytes` bytes consumed: `inbuf[0]` is the first byte of the sequence
being accumulated. The same bound holds at every `read` of the listening loop
for any sequence of `read` results. -/
theorem inbuf_write_in_range (c : client) (h0 : c.inbytes = 0) (bs : List Nat)
    (rs : List rres) :
    (∀ p ∈ feed_points bs c [],
      p.1 <+: bs ∧
      (p.2.inbytes = 0 ∨ p.2.inbytes = 1 ∨ p.2.inbytes = 2) ∧
      p.2.inbytes < INBUFFER ∧
      (∀ j : Nat, (j : Int) < p.2.inbytes →
        p.2.inbuf j = p.1.getD (p.1.length - p.2.inbytes.toNat + j) 0 % 256)) ∧
    (∀ s ∈ read_points rs c,
      (s.inbytes = 0 ∨ s.inbytes = 1 ∨ s.inbytes = 2) ∧ s.inbytes < INBUFFER) := by
  have hf : filter_inv c := Or.inl h0
  have ha : accum_inv [] c :=
    ⟨hf, by rw [h0]; simp, fun j hj => by rw [h0] at hj; omega⟩
  have hrange : ∀ s : client, filter_inv s →
      (s.inbytes = 0 ∨ s.inbytes = 1 ∨ s.inbytes = 2) ∧ s.inbytes < INBUFFER := by
    intro s hs
    rcases hs with h | ⟨h, _⟩ | ⟨h, _⟩
    · exact ⟨Or.inl h, by rw [h]; decide⟩
    · exact ⟨Or.inr (Or.inl h), by rw [h]; decide⟩
    · exact ⟨Or.inr (Or.inr h), by rw [h]; decide⟩
  refine ⟨fun p hp => ?_, fun s hs => hrange s (read_points_filter rs c hf s hs)⟩
  obtain ⟨hfi, _, hbuf⟩ := feed_points_accum bs c [] ha p hp
  obtain ⟨k, hk⟩ := feed_points_seen bs c [] p hp
  refine ⟨?_, (hrange p.2 hfi).1, (hrange p.2 hfi).2, hbuf⟩
  rw [hk, List.nil_append]
  exact List.take_prefix k bs

theorem inbuf_write_in_range_witness :
    (new_client 3 (fun _ => 0) (fun _ => 0)).inbytes = 0 ∧
    ((∀ p ∈ feed_points [255, 253, 1, 65] (new_client 3 (fun _ => 0) (fun _ => 0)) [],
      p.1 <+: [255, 253, 1, 65] ∧
      (p.2.inbytes = 0 ∨ p.2.inbytes = 1 ∨ p.2.inbytes = 2) ∧
      p.2.inbytes < INBUFFER ∧
      (∀ j : Nat, (j : Int) < p.2.inbytes →
        p.2.inbuf j = p.1.getD (p.1.length - p.2.inbytes.toNat + j) 0 % 256)) ∧
    (∀ s ∈ read_points [rres.byte 255, rres.byte 253]
        (new_client 3 (fun _ => 0) (fun _ => 0)),
      (s.inbytes = 0 ∨ s.inbytes = 1 ∨ s.inbytes = 2) ∧ s.inbytes < INBUFFER)) :=
  ⟨rfl, inbuf_write_in_range (new_client 3 (fun _ => 0) (fun _ => 0)) rfl
    [255, 253, 1, 65] [rres.byte 255, rres.byte 253]⟩

/-! ## makefont: the escaped output -/

theorem printf_hex_step_escape (B : Nat) (out : List Nat) (rewind ch : Nat)
    (h1 : ch = 0x5c ∨ ch = 0x22) (hB : (out.take (out.length - rewind)).length + 2 < B) :
    printf_hex_step B out rewind ch =
      some (out.take (out.length - rewind) ++ [0x5c, ch], 0) := by
  unfold printf_hex_step
  rw [if_pos h1]
  dsimp only
  rw [if_pos (by rw [List.length_append]; simpa using hB)]

theorem printf_hex_step_plain (B : Nat) (out : List Nat) (rewind ch : Nat)
    (h1 : ¬ (ch = 0x5c ∨ ch = 0x22)) (h2 : 0x20 ≤ ch ∧ ch < 0x7f)
    (hB : out.length + 1 < B) :
    printf_hex_step B out rewind ch = some (out ++ [ch], 0) := by
  unfold printf_hex_step
  rw [if_neg h1, if_pos h2]
  dsimp only
  rw [if_pos (by rw [List.length_append]; simpa using hB)]

theorem printf_hex_step_octal (B : Nat) (out : List Nat) (rewind ch : Nat)
    (h1 : ¬ (ch = 0x5c ∨ ch = 0x22)) (h2 : ¬ (0x20 ≤ ch ∧ ch < 0x7f))
    (hB : (out.take (out.length - rewind)).length + 4 < B) :
    printf_hex_step B out rewind ch =
      some (out.take (out.length - rewind) ++ (0x5c :: octal3 ch),
            if ch ≠ 0 then 0 else 2) := by
  unfold printf_hex_step
  rw [if_neg h1, if_neg h2]
  dsimp only
  rw [if_pos (by rw [List.length_append]; simpa [octal3] using hB)]

theorem take_pending (base : List Nat) :
    (base ++ [0x5c, 0x30, 0x30, 0x30]).take ((base ++ [0x5c, 0x30, 0x30, 0x30]).length - 2) =
      base ++ [0x5c, 0x30] := by
  have e : (base ++ [0x5c, 0x30, 0x30, 0x30]).length - 2 = base.length + 2 := by simp
  rw [e, List.take_append]
  rfl

theorem printf_hex_loop_text (B : Nat) (data : List Nat) :
    ∀ base : List Nat,
      (base.length + 4 * data.length < B →
        printf_hex_loop B data base 0 = some (base ++ hex_text data)) ∧
      (base.length + 4 + 4 * data.length < B →
        printf_hex_loop B data (base ++ [0x5c, 0x30, 0x30, 0x30]) 2 =
          some (base ++ (0x5c :: 0x30 ::
            ((if short_zero data = true then [] else [0x30, 0x30]) ++ hex_text data)))) := by
  induction data with
  | nil =>
    intro base
    constructor
    · intro h
      simp only [List.length_nil, Nat.mul_zero, Nat.add_zero] at h
      simp [printf_hex_loop, hex_text, h]
    · intro h
      simp only [List.length_nil, Nat.mul_zero, Nat.add_zero] at h
      rw [printf_hex_loop, take_pending]
      have e : (base ++ [0x5c, 0x30, 0x30, 0x30]).length - 2 = base.length + 2 := by simp
      rw [e, if_pos (by omega)]
      simp [short_zero, hex_text]
  | cons ch rest ih =>
    intro base
    constructor
    · intro h
      simp only [List.length_cons] at h
      rw [printf_hex_loop]
      by_cases h1 : ch = 0x5c ∨ ch = 0x22
      · rw [printf_hex_step_escape B base 0 ch h1 (by simp; omega)]
        simp only [Nat.sub_zero, List.take_length]
        rw [(ih (base ++ [0x5c, ch])).1 (by simp; omega)]
        simp [hex_text, h1]
      · by_cases h2 : 0x20 ≤ ch ∧ ch < 0x7f
        · rw [printf_hex_step_plain B base 0 ch h1 h2 (by omega)]
          simp only []
          rw [(ih (base ++ [ch])).1 (by simp; omega)]
          simp [hex_text, h1, h2]
        · rw [printf_hex_step_octal B base 0 ch h1 h2 (by simp; omega)]
          simp only [Nat.sub_zero, List.take_length]
          by_cases h0 : ch = 0
          · subst h0
            simp only [ne_eq, not_true_eq_false, if_false]
            have e8 : base ++ (0x5c :: octal3 0) = base ++ [0x5c, 0x30, 0x30, 0x30] := rfl
            rw [e8, (ih base).2 (by omega)]
            by_cases hz : short_zero rest = true
            · simp [hex_text, hz]
            · simp [hex_text, hz, octal3]
          · rw [if_pos h0]
            rw [(ih (base ++ (0x5c :: octal3 ch))).1 (by simp [octal3]; omega)]
            simp [hex_text, h1, h2, h0]
    · intro h
      simp only [List.length_cons] at h
      rw [printf_hex_loop]
      by_cases h1 : ch = 0x5c ∨ ch = 0x22
      · rw [printf_hex_step_escape B _ 2 ch h1 (by rw [take_pending]; simp; omega)]
        simp only [take_pending]
        rw [(ih (base ++ [0x5c, 0x30] ++ [0x5c, ch])).1 (by simp; omega)]
        have hz : short_zero (ch :: rest) = true := by
          simp only [short_zero, decide_eq_true_eq]
          rcases h1 with h1 | h1
          · exact Or.inl h1
          · exact Or.inr (Or.inl h1)
        simp [hex_text, h1, hz]
      · by_cases h2 : 0x20 ≤ ch ∧ ch < 0x7f
        · rw [printf_hex_step_plain B _ 2 ch h1 h2 (by simp; omega)]
          simp only []
          have e5 : base ++ [0x5c, 0x30, 0x30, 0x30] ++ [ch] =
              (base ++ [0x5c, 0x30, 0x30, 0x30, ch]) := by simp
          rw [e5, (ih (base ++ [0x5c, 0x30, 0x30, 0x30, ch])).1 (by simp; omega)]
          have hz : ¬ short_zero (ch :: rest) = true := by
            simp only [short_zero, decide_eq_true_eq]
            intro hc
            rcases hc with hc | hc | hc
            · exact h1 (Or.inl hc)
            · exact h1 (Or.inr hc)
            · exact hc h2
          simp [hex_text, h1, h2, hz]
        · have hz : short_zero (ch :: rest) = true := by
            simp only [short_zero, decide_eq_true_eq]
            exact Or.inr (Or.inr h2)
          rw [printf_hex_step_octal B _ 2 ch h1 h2 (by rw [take_pending]; simp; omega)]
          simp only [take_pending]
          by_cases h0 : ch = 0
          · subst h0
            simp only [ne_eq, not_true_eq_false, if_false]
            have e8 : base ++ [0x5c, 0x30] ++ (0x5c :: octal3 0) =
                (base ++ [0x5c, 0x30]) ++ [0x5c, 0x30, 0x30, 0x30] := rfl
            rw [e8, (ih (base ++ [0x5c, 0x30])).2 (by simp; omega)]
            by_cases hz2 : short_zero rest = true
            · simp [hex_text, hz, hz2]
            · simp [hex_text, hz, hz2, octal3]
          · rw [if_pos h0]
            rw [(ih (base ++ [0x5c, 0x30] ++ (0x5c :: octal3 ch))).1 (by simp [octal3]; omega)]
            simp [hex_text, h1, h2, h0, hz]

theorem c_literal_go_oct_end (v n : Nat) (t r : List Nat)
    (hh : n = 3 ∨ ∀ c ∈ t.head?, ¬ is_octal c)
    (hr : c_literal_go lit_state.plain t = some r) :
    c_literal_go (lit_state.oct v n) t = some (v :: r) := by
  cases t with
  | nil =>
    simp only [c_literal_go, Option.some.injEq] at hr ⊢
    rw [← hr]
  | cons c cs =>
    have hn : ¬ (n < 3 ∧ is_octal c) := by
      rcases hh with hh | hh
      · omega
      · exact fun hc => hh c (by simp) hc.2
    rw [c_literal_go] at hr
    rw [c_literal_go, if_neg hn]
    by_cases h1 : c = 0x5c
    · rw [if_pos h1] at hr ⊢
      rw [hr]; rfl
    · rw [if_neg h1] at hr ⊢
      by_cases h2 : c = 0x22
      · rw [if_pos h2] at hr
        exact absurd hr (by simp)
      · rw [if_neg h2] at hr ⊢
        cases hp : c_literal_go lit_state.plain cs with
        | none => rw [hp] at hr; exact absurd hr (by simp)
        | some r1 =>
          rw [hp] at hr
          simp only [Option.map_some', Option.some.injEq] at hr ⊢
          rw [← hr]

theorem c_literal_go_octal3 (a b c : Nat) (ha : a < 8) (hb : b < 8) (hc : c < 8)
    (t r : List Nat) (hr : c_literal_go lit_state.plain t = some r) :
    c_literal_go lit_state.plain (0x5c :: (0x30 + a) :: (0x30 + b) :: (0x30 + c) :: t) =
      some ((8 * (8 * a + b) + c) :: r) := by
  have ea : 0x30 + a - 0x30 = a := by omega
  have eb : 0x30 + b - 0x30 = b := by omega
  have ec : 0x30 + c - 0x30 = c := by omega
  rw [c_literal_go, if_pos rfl, c_literal_go, if_neg (by omega),
    if_pos (by unfold is_octal; omega), c_literal_go,
    if_pos ⟨by decide, by unfold is_octal; omega⟩, c_literal_go,
    if_pos ⟨by decide, by unfold is_octal; omega⟩,
    c_literal_go_oct_end _ 3 t r (Or.inl rfl) hr, ea, eb, ec]

theorem hex_text_short_zero (rest : List Nat) (hz : short_zero rest = true) :
    ∀ c ∈ (hex_text rest).head?, ¬ is_octal c := by
  cases rest with
  | nil => intro c hc; simp [hex_text] at hc
  | cons ch r =>
    simp only [short_zero, decide_eq_true_eq] at hz
    have hhead : (hex_text (ch :: r)).head? = some 0x5c := by
      rw [hex_text]
      by_cases h1 : ch = 0x5c ∨ ch = 0x22
      · rw [if_pos h1]; rfl
      · have h2 : ¬ (0x20 ≤ ch ∧ ch < 0x7f) := by
          rcases hz with hz | hz | hz
          · exact absurd (Or.inl hz) h1
          · exact absurd (Or.inr hz) h1
          · exact hz
        rw [if_neg h1, if_neg h2]
        split <;> rfl
    intro c hc
    rw [hhead] at hc
    simp only [Option.mem_def, Option.some.injEq] at hc
    rw [← hc]
    unfold is_octal
    omega

theorem c_literal_hex_text (data : List Nat) (h : ∀ b ∈ data, b < 256) :
    c_literal (hex_text data) = some data := by
  unfold c_literal
  induction data with
  | nil => rfl
  | cons ch rest ih =>
    have hrest := ih (fun b hb => h b (List.mem_cons_of_mem _ hb))
    have hch : ch < 256 := h ch (List.mem_cons_self _ _)
    rw [hex_text]
    by_cases h1 : ch = 0x5c ∨ ch = 0x22
    · rw [if_pos h1, c_literal_go, if_pos rfl, c_literal_go, if_pos h1, hrest]
      rfl
    · rw [if_neg h1]
      by_cases h2 : 0x20 ≤ ch ∧ ch < 0x7f
      · rw [if_pos h2, c_literal_go, if_neg (fun e => h1 (Or.inl e)),
          if_neg (fun e => h1 (Or.inr e)), hrest]
        rfl
      · rw [if_neg h2]
        by_cases h0 : ch = 0 ∧ short_zero rest = true
        · rw [if_pos h0, c_literal_go, if_pos rfl, c_literal_go, if_neg (by omega),
            if_pos (by unfold is_octal; omega),
            c_literal_go_oct_end _ 1 _ rest (Or.inr (hex_text_short_zero rest h0.2)) hrest,
            h0.1]
        · rw [if_neg h0]
          have e := c_literal_go_octal3 (ch / 64 % 8) (ch / 8 % 8) (ch % 8)
            (by omega) (by omega) (by omega) (hex_text rest) rest hrest
          have ev : 8 * (8 * (ch / 64 % 8) + ch / 8 % 8) + ch % 8 = ch := by omega
          rw [ev] at e
          exact e

theorem printf_hex_step_grows (B : Nat) (out : List Nat) (rewind ch : Nat)
    (out1 : List Nat) (rewind1 : Nat)
    (h : printf_hex_step B out rewind ch = some (out1, rewind1)) :
    out.length - rewind + 1 ≤ out1.length - rewind1 ∧ out1.length < B := by
  unfold printf_hex_step at h
  split at h
  · dsimp only at h
    split at h
    · rename_i hlt
      simp only [Option.some.injEq, Prod.mk.injEq] at h
      obtain ⟨h1, h2⟩ := h
      subst h1 h2
      refine ⟨?_, hlt⟩
      simp only [List.length_append, List.length_take, List.length_cons, List.length_nil]
      omega
    · exact absurd h (by simp)
  · split at h
    · dsimp only at h
      split at h
      · rename_i hlt
        simp only [Option.some.injEq, Prod.mk.injEq] at h
        obtain ⟨h1, h2⟩ := h
        subst h1 h2
        refine ⟨?_, hlt⟩
        simp only [List.length_append, List.length_cons, List.length_nil]
        omega
      · exact absurd h (by simp)
    · dsimp only at h
      split at h
      · rename_i hlt
        simp only [Option.some.injEq, Prod.mk.injEq] at h
        obtain ⟨h1, h2⟩ := h
        subst h1 h2
        refine ⟨?_, hlt⟩
        simp only [octal3, List.length_append, List.length_take, List.length_cons,
          List.length_nil]
        split <;> omega
      · exact absurd h (by simp)

theorem printf_hex_loop_fits (B : Nat) (data : List Nat) :
    ∀ (out : List Nat) (rewind : Nat) (t : List Nat),
      printf_hex_loop B data out rewind = some t →
      out.length - rewind + data.length < B := by
  induction data with
  | nil =>
    intro out rewind t h
    rw [printf_hex_loop] at h
    split at h
    · simpa using ‹out.length - rewind < B›
    · exact absurd h (by simp)
  | cons ch rest ih =>
    intro out rewind t h
    rw [printf_hex_loop] at h
    cases hs : printf_hex_step B out rewind ch with
    | none => rw [hs] at h; exact absurd h (by simp)
    | some p =>
      obtain ⟨out1, rewind1⟩ := p
      rw [hs] at h
      have h1 := (printf_hex_step_grows B out rewind ch out1 rewind1 hs).1
      have h2 := ih out1 rewind1 t h
      simp only [List.length_cons]
      omega

theorem printf_hex_fits (B : Nat) (data : List Nat) (hfit : 4 * data.length < B) :
    printf_hex B data = some (hex_text data) := by
  have h := (printf_hex_loop_text B data []).1 (by simpa using hfit)
  simpa [printf_hex] using h

/-- The escaping of `printf_hex` is sound whenever the text fits in `buf`: for
a byte sequence of fewer than `BUFSIZ / 4` bytes the call succeeds, and the
string it builds, read as the body of a C string literal, denotes exactly the
bytes given. -/
theorem printf_hex_round_trip (BUFSIZ : Nat) (data : List Nat)
    (hfit : 4 * data.length < BUFSIZ) (hb : ∀ b ∈ data, b < 256) :
    ∃ t, printf_hex BUFSIZ data = some t ∧ c_literal t = some data :=
  ⟨hex_text data, printf_hex_fits BUFSIZ data hfit, c_literal_hex_text data hb⟩

/-- C23: the escaped output does not round-trip for every byte sequence.
`printf_hex` builds its text in `char buf[BUFSIZ]` without a bound check: for
every byte sequence of at least `BUFSIZ` bytes a store falls outside `buf`, so
no text is built (the escaping itself is sound, see `printf_hex_round_trip`). -/
theorem printf_hex_overflows_buf (BUFSIZ : Nat) (data : List Nat)
    (h : BUFSIZ ≤ data.length) : printf_hex BUFSIZ data = none := by
  cases hp : printf_hex BUFSIZ data with
  | none => rfl
  | some t =>
    have := printf_hex_loop_fits BUFSIZ data [] 0 t hp
    simp only [List.length_nil] at this
    omega

theorem printf_hex_overflows_buf_witness :
    8192 ≤ (List.replicate 8192 0).length ∧
    printf_hex 8192 (List.replicate 8192 0) = none :=
  ⟨Nat.le_of_eq (List.length_replicate 8192 0).symm,
    printf_hex_overflows_buf 8192 (List.replicate 8192 0)
      (Nat.le_of_eq (List.length_replicate 8192 0).symm)⟩

end Cacaserver
